import Mathlib

/-!
Cell pipeline of `src/main.cpp`.

A shallow embedding of the image-preparation functions of `src/main.cpp`
(`preprocess_cell_to_28x28`, `flip_vertical`, `normalize_uint8_to_int8`,
`extract_cell` and the per-activation body of `loop`).

Conventions of the embedding.

* A C buffer (`uint8_t *`) is a `List Nat`; that its entries are bytes is the
  hypothesis `IsBytes`.  Every read is bounds-checked (`buf[i]?`) and every
  write is bounds-checked (`writeAt`): an access outside the buffer, which is
  undefined behaviour in C, makes the embedded function return `none`.
  A division by zero returns `none` as well.
* `int` dimensions and loop counters that the source only ever uses with
  non-negative values are `Nat`; `int` values that come out of a subtraction
  are `Int`, and `/` on them is the truncating `Int.tdiv` of C.  Outside
  `normalize_uint8_to_int8`, `int` is not wrapped at 32 bits.  A conversion to
  `uint8_t` is `% 256`, a conversion to `int8_t` is `toInt8`.
* In `normalize_uint8_to_int8` the `float` computation is carried out over
  exact rationals, the conversion `(int)` of the rounded value is `castToInt`
  and the `int` addition of `zero_point` is reduced to 32 bits (`wrapInt32`).
* A counted `for (i = lo; i < hi; i++)` loop is `forLoop lo hi body`, which is
  total by construction.
-/

namespace CameraSetup

/-! ## Loops and buffers -/

/-- Runs `body i`, `body (i+1)`, ... for `n` iterations, threading the state;
stops with `none` as soon as one iteration fails. -/
def loopFrom {σ : Type} (body : Nat → σ → Option σ) : Nat → Nat → σ → Option σ
  | 0, _, s => some s
  | n + 1, i, s => (body i s).bind (loopFrom body n (i + 1))

/-- The loop `for (int i = lo; i < hi; i++) body`. -/
def forLoop {σ : Type} (lo hi : Nat) (body : Nat → σ → Option σ) (s : σ) : Option σ :=
  loopFrom body (hi - lo) lo s

/-- The store `buf[i] = v`, defined only inside the buffer. -/
def writeAt {α : Type} (buf : List α) (i : Nat) (v : α) : Option (List α) :=
  if i < buf.length then some (buf.set i v) else none

/-- The call `memset(buf, v, n)`, defined only when the buffer holds `n` bytes. -/
def memset (buf : List Nat) (v n : Nat) : Option (List Nat) :=
  if n ≤ buf.length then some (List.replicate n v ++ buf.drop n) else none

/-- Every entry of the buffer is a `uint8_t` value. -/
def IsBytes (buf : List Nat) : Prop := ∀ v ∈ buf, v < 256

/-! ## `preprocess_cell_to_28x28` -/

/-- One iteration of the min/max scan (lines 149-153). -/
def scanStep (cell_in : List Nat) (i : Nat) (mm : Nat × Nat) : Option (Nat × Nat) :=
  match cell_in[i]? with
  | none => none
  | some v =>
    let minv := if v < mm.1 then v else mm.1
    let maxv := if v > mm.2 then v else mm.2
    some (minv, maxv)

/-- The value `x0` (resp. `y0`) of lines 164 and 166. -/
def bucketStart (o dim : Nat) : Nat := (o * dim) / 28

/-- The value `x1` (resp. `y1`) after lines 165, 167 and the forcing of
lines 169-170. -/
def bucketEnd (o dim : Nat) : Nat :=
  let a0 := (o * dim) / 28
  let a1 := ((o + 1) * dim) / 28
  if a1 ≤ a0 then a0 + 1 else a1

/-- The stretched and clamped value `c` of lines 178-180, for `range ≠ 0`. -/
def stretchValue (v minv : Nat) (range : Int) : Int :=
  let c : Int := (((v : Int) - (minv : Int)) * 255).tdiv range
  let c : Int := if c < 0 then 0 else c
  let c : Int := if c > 255 then 255 else c
  c

/-- The body of the innermost loop (lines 177-182): read, stretch, clamp,
accumulate. The state is `(sum, count)`. -/
def stretchStep (cell_in : List Nat) (cell_w minv : Nat) (range : Int) (y x : Nat)
    (acc : Int × Int) : Option (Int × Int) :=
  match cell_in[y * cell_w + x]? with
  | none => none
  | some v =>
    if range = 0 then none
    else some (acc.1 + stretchValue v minv range, acc.2 + 1)

/-- The loops of lines 172-184 over one bucket, from `sum = 0`, `count = 0`. -/
def bucketAccumulate (cell_in : List Nat) (cell_w minv : Nat) (range : Int)
    (x0 x1 y0 y1 : Nat) : Option (Int × Int) :=
  forLoop y0 y1 (fun y acc => forLoop x0 x1 (fun x a => stretchStep cell_in cell_w minv range y x a) acc)
    (0, 0)

/-- The body of the `ox` loop (lines 164-188): one output pixel. -/
def cellPixel (cell_in : List Nat) (cell_w cell_h minv : Nat) (range : Int) (oy ox : Nat)
    (cell_out : List Nat) : Option (List Nat) :=
  let x0 := bucketStart ox cell_w
  let x1 := bucketEnd ox cell_w
  let y0 := bucketStart oy cell_h
  let y1 := bucketEnd oy cell_h
  match bucketAccumulate cell_in cell_w minv range x0 x1 y0 y1 with
  | none => none
  | some (sum, count) =>
    if count = 0 then none
    else
      let out : Nat := ((sum.tdiv count) % 256).toNat
      writeAt cell_out (oy * 28 + ox) out

/-- The stretch-and-average branch (lines 161-190). -/
def stretchLoops (cell_in : List Nat) (cell_w cell_h minv : Nat) (range : Int)
    (cell_out : List Nat) : Option (List Nat) :=
  forLoop 0 28 (fun oy out => forLoop 0 28 (fun ox o => cellPixel cell_in cell_w cell_h minv range oy ox o) out)
    cell_out

/-- The function `preprocess_cell_to_28x28` (lines 140-191). -/
def preprocess_cell_to_28x28 (cell_in : List Nat) (cell_w cell_h : Nat) (cell_out : List Nat) :
    Option (List Nat) :=
  match forLoop 0 (cell_w * cell_h) (scanStep cell_in) (255, 0) with
  | none => none
  | some (minv, maxv) =>
    let range : Int := (maxv : Int) - (minv : Int)
    if range < 30 then memset cell_out 0 (28 * 28)
    else stretchLoops cell_in cell_w cell_h minv range cell_out

/-- The value `mn` is the least pixel of the cell. -/
def IsMinOf (cell : List Nat) (mn : Nat) : Prop := mn ∈ cell ∧ ∀ v ∈ cell, mn ≤ v

/-- The value `mx` is the greatest pixel of the cell. -/
def IsMaxOf (cell : List Nat) (mx : Nat) : Prop := mx ∈ cell ∧ ∀ v ∈ cell, v ≤ mx

/-- The byte that lines 172-188 compute for output pixel `(ox, oy)`: sum of the
stretched bucket pixels, divided by their number, converted to `uint8_t`. -/
def bucketMean (cell_in : List Nat) (cell_w cell_h minv : Nat) (range : Int) (oy ox : Nat) : Nat :=
  let x0 := bucketStart ox cell_w
  let x1 := bucketEnd ox cell_w
  let y0 := bucketStart oy cell_h
  let y1 := bucketEnd oy cell_h
  let sum : Int := ∑ y ∈ Finset.Ico y0 y1, ∑ x ∈ Finset.Ico x0 x1,
    stretchValue (cell_in.getD (y * cell_w + x) 0) minv range
  let count : Int := (((y1 - y0) * (x1 - x0) : Nat) : Int)
  ((sum.tdiv count) % 256).toNat

/-- The pixels of a `cell_w × cell_h` cell held in the front of a buffer. -/
def cellPixels (cell_in : List Nat) (cell_w cell_h : Nat) : List Nat :=
  cell_in.take (cell_w * cell_h)

/-- Specification of the contrast stretch: `(v - min) * 255 / (max - min)`
clamped to `[0, 255]`. -/
def specStretch (v mn mx : Nat) : Int :=
  max 0 (min 255 ((((v : Int) - (mn : Int)) * 255) / ((mx : Int) - (mn : Int))))

/-- Specification of one output pixel: the truncating average, over the bucket
`[x0, x1) × [y0, y1)`, of the stretched source pixels. -/
def specPixel (cell_in : List Nat) (cell_w cell_h mn mx ox oy : Nat) : Int :=
  let x0 := ox * cell_w / 28
  let x1 := if (ox + 1) * cell_w / 28 ≤ x0 then x0 + 1 else (ox + 1) * cell_w / 28
  let y0 := oy * cell_h / 28
  let y1 := if (oy + 1) * cell_h / 28 ≤ y0 then y0 + 1 else (oy + 1) * cell_h / 28
  (∑ y ∈ Finset.Ico y0 y1, ∑ x ∈ Finset.Ico x0 x1,
      specStretch (cell_in.getD (y * cell_w + x) 0) mn mx) /
    (((x1 - x0) * (y1 - y0) : Nat) : Int)

/-! ## `flip_vertical` -/

/-- The body of the inner loop of `flip_vertical` (lines 204-209): swap the
bytes at `top` and `bottom`. -/
def swapStep (w h y x : Nat) (img : List Nat) : Option (List Nat) :=
  let top := y * w + x
  let bottom := (h - 1 - y) * w + x
  match img[top]? with
  | none => none
  | some tmp =>
    match img[bottom]? with
    | none => none
    | some b =>
      match writeAt img top b with
      | none => none
      | some img1 => writeAt img1 bottom tmp

/-- The function `flip_vertical` (lines 197-212), returning the buffer it has
modified in place. -/
def flip_vertical (img : List Nat) (w h : Nat) : Option (List Nat) :=
  forLoop 0 (h / 2) (fun y im => forLoop 0 w (fun x i => swapStep w h y x i) im) img

/-! ## `normalize_uint8_to_int8`

The `float` computation is carried out over exact rationals. -/

/-- The C function `round`: the nearest integer, halves away from zero. -/
def roundHalfAway (q : ℚ) : Int := if 0 ≤ q then ⌊q + 1 / 2⌋ else ⌈q - 1 / 2⌉

/-- The conversion `(int8_t)q` of an `int`: reduction to `[-128, 127]` modulo 256. -/
def toInt8 (q : Int) : Int := (q + 128) % 256 - 128

/-- The least value of a 32-bit `int`. -/
def INT_MIN : Int := -2147483648

/-- The greatest value of a 32-bit `int`. -/
def INT_MAX : Int := 2147483647

/-- The conversion `(int)x` of line 229, applied to the rounded value: the
identity inside the range of `int`. Outside that range C leaves the conversion
undefined; the value taken here is `INT_MIN`, the result that the conversion
instruction of x86 hardware delivers. -/
def castToInt (r : Int) : Int := if INT_MIN ≤ r ∧ r ≤ INT_MAX then r else INT_MIN

/-- The result of an `int` operation reduced to 32 bits (two's complement). -/
def wrapInt32 (x : Int) : Int := (x + 2147483648) % 4294967296 - 2147483648

/-- The value of `q` after the clamps of lines 231-232, for the input byte `v`. -/
def quantizeClamped (v : Nat) (zero_point : Int) (scale : ℚ) : Int :=
  let f : ℚ := (v : ℚ) / 255
  let q : Int := wrapInt32 (castToInt (roundHalfAway (f / scale)) + zero_point)
  let q : Int := if q < -128 then -128 else q
  let q : Int := if q > 127 then 127 else q
  q

/-- The value stored in `out[i]` (line 234) for the input byte `v`. -/
def quantize (v : Nat) (zero_point : Int) (scale : ℚ) : Int :=
  toInt8 (quantizeClamped v zero_point scale)

/-- The function `normalize_uint8_to_int8` (lines 218-236); `inp` is the
parameter `in` of the source. -/
def normalize_uint8_to_int8 (inp : List Nat) (out : List Int) (n : Nat) (zero_point : Int)
    (scale : ℚ) : Option (List Int) :=
  forLoop 0 n
    (fun i o =>
      match inp[i]? with
      | none => none
      | some v => writeAt o i (quantize v zero_point scale))
    out

/-! ## `extract_cell` -/

/-- The constant `GRID_SIZE` (line 9). -/
def GRID_SIZE : Nat := 4

/-- The body of the inner loop of `extract_cell` (line 260); the state is
`(cell_out, idx)`. -/
def copyStep (board : List Nat) (board_w x0 y0 y x : Nat) (st : List Nat × Nat) :
    Option (List Nat × Nat) :=
  match board[(y0 + y) * board_w + (x0 + x)]? with
  | none => none
  | some v =>
    match writeAt st.1 st.2 v with
    | none => none
    | some out => some (out, st.2 + 1)

/-- The function `extract_cell` (lines 241-263); the result is the written
`cell_out` with the values given to the reference parameters `cell_w` and
`cell_h`. -/
def extract_cell (board : List Nat) (board_w board_h row col : Nat) (cell_out : List Nat) :
    Option (List Nat × Nat × Nat) :=
  let cell_w := board_w / GRID_SIZE
  let cell_h := board_h / GRID_SIZE
  let x0 := col * cell_w
  let y0 := row * cell_h
  match forLoop 0 cell_h
      (fun y st => forLoop 0 cell_w (fun x s => copyStep board board_w x0 y0 y x s) st)
      (cell_out, 0) with
  | none => none
  | some (out, _) => some (out, cell_w, cell_h)

/-- Entry `idx` of the cell extracted at `(row, col)` is a copy of the board
pixel at column `px`, row `py`, whatever the board holds. -/
def CopiesPixel (board_w board_h row col idx px py : Nat) : Prop :=
  ∀ board cell_out : List Nat, IsBytes board → board.length = board_w * board_h →
    (board_w / GRID_SIZE) * (board_h / GRID_SIZE) ≤ cell_out.length →
    ∃ out v, extract_cell board board_w board_h row col cell_out =
        some (out, board_w / GRID_SIZE, board_h / GRID_SIZE) ∧
      out[idx]? = some v ∧ board[py * board_w + px]? = some v

/-! ## `loop`

The sensor and the inference module are external. The result of
`esp_camera_fb_get()` is an argument of `loop`; the inference module is an
argument too, through the operations `loop` calls on it. Serial output and
`delay` are left out. The order of the effects on the frame, on the inference
module and on `preds` is recorded in a log of events. -/

/-- The constant `X_LEFT` (line 12). -/
def X_LEFT : Nat := 68

/-- The constant `X_RIGHT` (line 13). -/
def X_RIGHT : Nat := 232

/-- The constant `Y_TOP` (line 15). -/
def Y_TOP : Nat := 28

/-- The constant `Y_BOTTOM` (line 16). -/
def Y_BOTTOM : Nat := 192

/-- The constant `CROP_W` (line 18). -/
def CROP_W : Nat := X_RIGHT - X_LEFT

/-- The constant `CROP_H` (line 19). -/
def CROP_H : Nat := Y_BOTTOM - Y_TOP

/-- The fields of `camera_fb_t` that `loop` uses. -/
structure Frame where
  buf : List Nat
  width : Nat
  height : Nat

/-- The fields of the input `TfLiteTensor` that `loop` uses: `data.int8`,
`params.zero_point`, `params.scale`. -/
structure InputTensor where
  data : List Int
  zero_point : Int
  scale : ℚ

/-- The operations of the inference module `NeuralNetwork` used by `loop`, over
a module state `σ`: `getInput`, the effect on the module of the bytes stored
through `input->data.int8`, `predict` (`true` for `kTfLiteOk`) and
`getPredictedClass`. -/
structure NeuralNetwork (σ : Type) where
  getInput : σ → InputTensor
  setInputData : σ → List Int → σ
  predict : σ → Bool × σ
  getPredictedClass : σ → Int

/-- The observable steps of an activation, in the order of execution. -/
inductive Event where
  /-- Line 408: `esp_camera_fb_get()` returned a frame (`true`) or null. -/
  | fbGet (ok : Bool)
  /-- The frame buffer is read: crop loop (lines 417-423) or
  `printCroppedDownsampled(fb)` (line 502). -/
  | frameRead
  /-- Lines 434-473 for raw cell `(r, c)`: extract, preprocess, flip, quantize. -/
  | prepare (r c : Nat)
  /-- Line 478: `nn.predict()` for raw cell `(r, c)` and whether it succeeded. -/
  | infer (r c : Nat) (ok : Bool)
  /-- Lines 484-485: the label `pred` obtained for raw cell `(r, c)` is stored
  in `preds[row][col]`. -/
  | store (r c row col : Nat) (pred : Int)
  /-- Lines 480 and 504: `esp_camera_fb_return(fb)`. -/
  | fbReturn
  deriving DecidableEq, Repr

/-- The global state of the program, with the event log. -/
structure State (σ : Type) where
  ran_once : Bool
  preds : Nat → Nat → Int
  cropped_gray : List Nat
  cell_raw : List Nat
  cell28 : List Nat
  nn : σ
  log : List Event

/-- The grid `g` after `g[i][j] = v`. -/
def setGrid (g : Nat → Nat → Int) (i j : Nat) (v : Int) : Nat → Nat → Int :=
  fun a b => if a = i ∧ b = j then v else g a b

/-- The store `preds[i][j] = v` into `int preds[4][4]`, defined only inside the array. -/
def writeGrid (g : Nat → Nat → Int) (i j : Nat) (v : Int) : Option (Nat → Nat → Int) :=
  if i < 4 ∧ j < 4 then some (setGrid g i j v) else none

/-- How a loop body ends: it falls through to the next iteration, or it
executes `return`. -/
inductive Flow (σ : Type) where
  | next (s : σ)
  | ret (s : σ)

/-- Counted loop whose body may execute `return`: as `loopFrom`, and a
`Flow.ret` stops the loop and is passed on. -/
def loopFromR {σ : Type} (body : Nat → σ → Option (Flow σ)) : Nat → Nat → σ → Option (Flow σ)
  | 0, _, s => some (Flow.next s)
  | n + 1, i, s =>
    match body i s with
    | none => none
    | some (Flow.ret t) => some (Flow.ret t)
    | some (Flow.next t) => loopFromR body n (i + 1) t

/-- The loop `for (int i = lo; i < hi; i++) body` with a body that may `return`. -/
def forLoopR {σ : Type} (lo hi : Nat) (body : Nat → σ → Option (Flow σ)) (s : σ) :
    Option (Flow σ) :=
  loopFromR body (hi - lo) lo s

/-- The crop loop of `loop` (lines 417-423); the row stride is `fb->width`. -/
def cropBoard (fb : Frame) (cropped : List Nat) : Option (List Nat) :=
  forLoop 0 CROP_H
    (fun y cg => forLoop 0 CROP_W
      (fun x g =>
        let sx := X_LEFT + x
        let sy := Y_TOP + y
        match fb.buf[sy * fb.width + sx]? with
        | none => none
        | some v => writeAt g (y * CROP_W + x) v)
      cg)
    cropped

/-- The body of the cell loops of `loop` (lines 432-485) for raw cell `(r, c)`.
The block of lines 449-460 only assigns a local that is never used. -/
def cellBody {σ : Type} (nn : NeuralNetwork σ) (r c : Nat) (st : State σ) :
    Option (Flow (State σ)) :=
  match extract_cell st.cropped_gray CROP_W CROP_H r c st.cell_raw with
  | none => none
  | some (cell_raw, cell_w, cell_h) =>
    match preprocess_cell_to_28x28 cell_raw cell_w cell_h st.cell28 with
    | none => none
    | some pre =>
      match flip_vertical pre 28 28 with
      | none => none
      | some cell28 =>
        let input := nn.getInput st.nn
        match normalize_uint8_to_int8 cell28 input.data (28 * 28) input.zero_point
            input.scale with
        | none => none
        | some q =>
          match nn.predict (nn.setInputData st.nn q) with
          | (false, s2) =>
            some (Flow.ret
              { st with
                cell_raw := cell_raw, cell28 := cell28, nn := s2,
                log := st.log ++ [Event.prepare r c, Event.infer r c false, Event.fbReturn] })
          | (true, s2) =>
            let pred := nn.getPredictedClass s2
            match writeGrid st.preds (GRID_SIZE - 1 - r) c pred with
            | none => none
            | some preds =>
              some (Flow.next
                { st with
                  preds := preds, cell_raw := cell_raw, cell28 := cell28, nn := s2,
                  log := st.log ++ [Event.prepare r c, Event.infer r c true,
                    Event.store r c (GRID_SIZE - 1 - r) c pred] })

/-- The function `loop` (lines 401-505); `camera` is the result of
`esp_camera_fb_get()`. The reads of `printCroppedDownsampled(fb)` stay inside
the rectangle already read by the crop loop and are recorded as one
`frameRead` event. -/
def loop {σ : Type} (nn : NeuralNetwork σ) (camera : Option Frame) (st : State σ) :
    Option (State σ) :=
  if st.ran_once then some st
  else
    let st1 : State σ := { st with ran_once := true }
    match camera with
    | none => some { st1 with log := st1.log ++ [Event.fbGet false] }
    | some fb =>
      match cropBoard fb st1.cropped_gray with
      | none => none
      | some cropped =>
        let st2 : State σ :=
          { st1 with
            cropped_gray := cropped, log := st1.log ++ [Event.fbGet true, Event.frameRead] }
        match forLoopR 0 GRID_SIZE
            (fun r s => forLoopR 0 GRID_SIZE (fun c t => cellBody nn r c t) s) st2 with
        | none => none
        | some (Flow.ret s) => some s
        | some (Flow.next s) =>
          some { s with log := s.log ++ [Event.frameRead, Event.fbReturn] }

/-- The events of `n` successful cells in row-major order, cell `k` being raw
cell `(k / 4, k % 4)` with label `labels k`. -/
def cellEvents (labels : Nat → Int) : Nat → List Event
  | 0 => []
  | n + 1 => cellEvents labels n ++
      [Event.prepare (n / 4) (n % 4), Event.infer (n / 4) (n % 4) true,
        Event.store (n / 4) (n % 4) (GRID_SIZE - 1 - n / 4) (n % 4) (labels n)]

/-- The grid after the stores of `n` successful cells in row-major order. -/
def storedGrid (g : Nat → Nat → Int) (labels : Nat → Int) : Nat → Nat → Nat → Int
  | 0 => g
  | n + 1 => setGrid (storedGrid g labels n) (GRID_SIZE - 1 - n / 4) (n % 4) (labels n)

/-- The event is a store into `preds[i][j]`. -/
def Event.isStoreAt (i j : Nat) : Event → Bool
  | Event.store _ _ row col _ => decide (row = i ∧ col = j)
  | _ => false

/-- The buffers of the state have their declared sizes (lines 35-37) and the
input tensor of the inference module holds 28x28 entries. -/
def WellSized {σ : Type} (nn : NeuralNetwork σ) (st : State σ) : Prop :=
  st.cropped_gray.length = CROP_W * CROP_H ∧ st.cell_raw.length = 64 * 64 ∧
  st.cell28.length = 28 * 28 ∧ ∀ s, 28 * 28 ≤ (nn.getInput s).data.length

/-- The frame buffer holds `width * height` bytes and contains the crop rectangle. -/
def FrameOk (fb : Frame) : Prop :=
  fb.buf.length = fb.width * fb.height ∧ X_RIGHT ≤ fb.width ∧ Y_BOTTOM ≤ fb.height

/-- A black QVGA frame (320x240). -/
def blackFrame : Frame :=
  { buf := List.replicate (320 * 240) 0, width := 320, height := 240 }

/-- An inference module that counts its `predict` calls in its state: the call
made in state `s` fails when `s = failAt` and succeeds otherwise, and the class
it reports is the number of calls made so far. -/
def scriptedNetwork (failAt : Nat) : NeuralNetwork Nat where
  getInput := fun _ => { data := List.replicate 784 0, zero_point := -128, scale := 1 / 255 }
  setInputData := fun s _ => s
  predict := fun s => (decide (s ≠ failAt), s + 1)
  getPredictedClass := fun s => (s : Int)

/-- The state of the program before the first activation, with zeroed globals
and the inference module in state `s`. -/
def bootWith {σ : Type} (s : σ) : State σ :=
  { ran_once := false
    preds := fun _ _ => 0
    cropped_gray := List.replicate (CROP_W * CROP_H) 0
    cell_raw := List.replicate (64 * 64) 0
    cell28 := List.replicate (28 * 28) 0
    nn := s
    log := [] }

/-- Invariant of the cell loops for a module whose `n`-th call is scripted:
`n` cells are done, all successful, with labels `lab`. -/
def ScriptedDone {σ : Type} (nn : NeuralNetwork σ) (J : Nat → σ → Prop) (okAt : Nat → Bool)
    (lab : Nat → Int) (log0 : List Event) (g0 : Nat → Nat → Int) (n : Nat) (t : State σ) : Prop :=
  WellSized nn t ∧ t.ran_once = true ∧ J n t.nn ∧ (∀ m, m < n → okAt m = true) ∧
  t.log = log0 ++ cellEvents lab n ∧ t.preds = storedGrid g0 lab n

/-- State in which `loop` returns when the call of some cell `k` is the first to fail. -/
def ScriptedFailed {σ : Type} (okAt : Nat → Bool) (lab : Nat → Int) (log0 : List Event)
    (g0 : Nat → Nat → Int) (t : State σ) : Prop :=
  t.ran_once = true ∧ ∃ k, k < 16 ∧ (∀ m, m < k → okAt m = true) ∧ okAt k = false ∧
    t.log = log0 ++ cellEvents lab k ++
      [Event.prepare (k / 4) (k % 4), Event.infer (k / 4) (k % 4) false, Event.fbReturn] ∧
    t.preds = storedGrid g0 lab k

/-- The quantized tensor that lines 434-473 compute for raw cell `(r, c)` of
the cropped board `board` and store into the input tensor `input`, with
scratch buffers `cell_raw` and `cell28` that start zeroed. -/
def cellTensor (board : List Nat) (r c : Nat) (input : InputTensor) : Option (List Int) :=
  match extract_cell board CROP_W CROP_H r c (List.replicate (64 * 64) 0) with
  | none => none
  | some (cell_raw, cell_w, cell_h) =>
    match preprocess_cell_to_28x28 cell_raw cell_w cell_h (List.replicate (28 * 28) 0) with
    | none => none
    | some pre =>
      match flip_vertical pre 28 28 with
      | none => none
      | some cell28 =>
        normalize_uint8_to_int8 cell28 input.data (28 * 28) input.zero_point input.scale

/-- An inference module that never fails and counts its `predict` calls in its
state; the class it reports is the number of calls made so far. -/
def countingNetwork : NeuralNetwork Nat where
  getInput := fun _ => { data := List.replicate 784 0, zero_point := -128, scale := 1 / 255 }
  setInputData := fun s _ => s
  predict := fun s => (true, s + 1)
  getPredictedClass := fun s => (s : Int)

/-- Invariant of the cell loops that follows the inference module: after `n`
successful cells the module went through the states `s 0, ..., s n`, cell `k`
having been run on the tensor `q k` of that cell. -/
def TracedDone {σ : Type} (nn : NeuralNetwork σ) (board : List Nat) (s0 : σ)
    (log0 : List Event) (g0 : Nat → Nat → Int) (n : Nat) (t : State σ) : Prop :=
  WellSized nn t ∧ t.ran_once = true ∧ t.cropped_gray = board ∧
  ∃ (s : Nat → σ) (q : Nat → List Int), s 0 = s0 ∧
    (∀ k, k < n →
      cellTensor board (k / 4) (k % 4) (nn.getInput (s k)) = some (q k) ∧
      nn.predict (nn.setInputData (s k) (q k)) = (true, s (k + 1))) ∧
    t.nn = s n ∧
    t.log = log0 ++ cellEvents (fun k => nn.getPredictedClass (s (k + 1))) n ∧
    t.preds = storedGrid g0 (fun k => nn.getPredictedClass (s (k + 1))) n

/-- State in which `loop` returns after a failed inference: cells `0, ..., n - 1`
succeeded and `predict`, run on the tensor of cell `n`, reported a failure. -/
def TracedFailed {σ : Type} (nn : NeuralNetwork σ) (board : List Nat) (s0 : σ)
    (log0 : List Event) (t : State σ) : Prop :=
  ∃ (n : Nat) (s : Nat → σ) (q : Nat → List Int) (sf : σ), n < 16 ∧ s 0 = s0 ∧
    (∀ k, k < n →
      cellTensor board (k / 4) (k % 4) (nn.getInput (s k)) = some (q k) ∧
      nn.predict (nn.setInputData (s k) (q k)) = (true, s (k + 1))) ∧
    cellTensor board (n / 4) (n % 4) (nn.getInput (s n)) = some (q n) ∧
    nn.predict (nn.setInputData (s n) (q n)) = (false, sf) ∧
    t.log = log0 ++ cellEvents (fun k => nn.getPredictedClass (s (k + 1))) n ++
      [Event.prepare (n / 4) (n % 4), Event.infer (n / 4) (n % 4) false, Event.fbReturn]

/-! ## Generic loop lemmas -/

theorem loopFrom_invariant {σ : Type} (body : Nat → σ → Option σ) (P : Nat → σ → Prop) :
    ∀ (n i : Nat) (s : σ), P i s →
      (∀ j t, i ≤ j → j < i + n → P j t → ∃ t', body j t = some t' ∧ P (j + 1) t') →
      ∃ t, loopFrom body n i s = some t ∧ P (i + n) t := by
  intro n
  induction n with
  | zero => intro i s h _; exact ⟨s, rfl, by simpa using h⟩
  | succ n ih =>
    intro i s h hstep
    obtain ⟨t', ht', hP⟩ := hstep i s (le_refl _) (by omega) h
    obtain ⟨t, ht, hPt⟩ := ih (i + 1) t' hP (fun j u h1 h2 hu => hstep j u (by omega) (by omega) hu)
    refine ⟨t, ?_, ?_⟩
    · simp [loopFrom, ht', ht]
    · have : i + (n + 1) = i + 1 + n := by omega
      rw [this]; exact hPt

theorem forLoop_invariant {σ : Type} (body : Nat → σ → Option σ) (P : Nat → σ → Prop)
    (lo hi : Nat) (s : σ) (hle : lo ≤ hi) (h0 : P lo s)
    (hstep : ∀ j t, lo ≤ j → j < hi → P j t → ∃ t', body j t = some t' ∧ P (j + 1) t') :
    ∃ t, forLoop lo hi body s = some t ∧ P hi t := by
  obtain ⟨t, ht, hP⟩ := loopFrom_invariant body P (hi - lo) lo s h0
    (fun j u h1 h2 hu => hstep j u h1 (by omega) hu)
  refine ⟨t, ht, ?_⟩
  have : lo + (hi - lo) = hi := by omega
  rw [this] at hP; exact hP

/-! ## Lemmas on `preprocess_cell_to_28x28` -/

theorem memset_spec (buf : List Nat) (v n : Nat) (hn : n ≤ buf.length) :
    ∃ out, memset buf v n = some out ∧ out.length = buf.length ∧
      (∀ i, i < n → out[i]? = some v) ∧ (∀ i, n ≤ i → out[i]? = buf[i]?) := by
  refine ⟨List.replicate n v ++ buf.drop n, by simp [memset, hn], ?_, ?_, ?_⟩
  · simp; omega
  · intro i hi
    rw [List.getElem?_append_left (by simpa using hi)]
    simp [List.getElem?_replicate, hi]
  · intro i hi
    rw [List.getElem?_append_right (by simpa using hi)]
    simp only [List.length_replicate, List.getElem?_drop]
    congr 1; omega

/-- The scan of lines 146-153 succeeds on any prefix of the buffer; on an empty
prefix it leaves `minv = 255`, `maxv = 0`, otherwise it yields the least and the
greatest pixel of the prefix. -/
theorem scan_spec (cell_in : List Nat) (n : Nat) (hn : n ≤ cell_in.length)
    (hb : IsBytes cell_in) :
    ∃ mn mx, forLoop 0 n (scanStep cell_in) (255, 0) = some (mn, mx) ∧
      (n = 0 → mn = 255 ∧ mx = 0) ∧
      (0 < n → IsMinOf (cell_in.take n) mn ∧ IsMaxOf (cell_in.take n) mx) := by
  obtain ⟨⟨mn, mx⟩, hrun, hP⟩ := forLoop_invariant (scanStep cell_in)
    (fun j mm => (j = 0 → mm = (255, 0)) ∧
      (0 < j → IsMinOf (cell_in.take j) mm.1 ∧ IsMaxOf (cell_in.take j) mm.2))
    0 n (255, 0) (Nat.zero_le _) ⟨fun _ => rfl, fun h => absurd h (lt_irrefl _)⟩
    (by
      rintro j ⟨a, b⟩ _ hj ⟨hz, hpos⟩
      have hjl : j < cell_in.length := lt_of_lt_of_le hj hn
      have hget : cell_in[j]? = some cell_in[j] := List.getElem?_eq_getElem hjl
      have hv : cell_in[j] < 256 := hb _ (List.getElem_mem hjl)
      have hrun : scanStep cell_in j (a, b) =
          some (if cell_in[j] < a then cell_in[j] else a, if cell_in[j] > b then cell_in[j] else b) := by
        simp only [scanStep, hget]
      refine ⟨_, hrun, fun h => absurd h (Nat.succ_ne_zero _), fun _ => ?_⟩
      have htake : ∀ u, u ∈ cell_in.take (j + 1) ↔ u ∈ cell_in.take j ∨ u = cell_in[j] := by
        intro u
        rw [List.take_succ, hget]
        simp only [Option.toList, List.mem_append, List.mem_singleton]
      rcases Nat.eq_zero_or_pos j with h0 | h0
      · have hab := hz h0
        simp only [Prod.mk.injEq] at hab
        obtain ⟨ha, hb'⟩ := hab
        subst ha hb' h0
        simp only [IsMinOf, IsMaxOf, htake, List.take_zero, List.not_mem_nil, false_or]
        have h1 : (if cell_in[0] < 255 then cell_in[0] else 255) = cell_in[0] := by
          split_ifs <;> omega
        have h2 : (if cell_in[0] > 0 then cell_in[0] else 0) = cell_in[0] := by
          split_ifs <;> omega
        simp [h1, h2]
      · obtain ⟨⟨hmem, hle⟩, ⟨hmem', hge⟩⟩ := hpos h0
        simp only at hmem hle hmem' hge
        refine ⟨⟨?_, ?_⟩, ⟨?_, ?_⟩⟩
        · rw [htake]; dsimp only; split_ifs
          · exact Or.inr rfl
          · exact Or.inl hmem
        · intro u hu; rw [htake] at hu; dsimp only
          rcases hu with hu | hu
          · have := hle u hu; split_ifs <;> omega
          · subst hu; split_ifs <;> omega
        · rw [htake]; dsimp only; split_ifs
          · exact Or.inr rfl
          · exact Or.inl hmem'
        · intro u hu; rw [htake] at hu; dsimp only
          rcases hu with hu | hu
          · have := hge u hu; split_ifs <;> omega
          · subst hu; split_ifs <;> omega)
  exact ⟨mn, mx, hrun, fun h => by simpa using hP.1 h, hP.2⟩

theorem isMinOf_unique {cell : List Nat} {a b : Nat} (ha : IsMinOf cell a) (hb : IsMinOf cell b) :
    a = b :=
  le_antisymm (ha.2 b hb.1) (hb.2 a ha.1)

theorem isMaxOf_unique {cell : List Nat} {a b : Nat} (ha : IsMaxOf cell a) (hb : IsMaxOf cell b) :
    a = b :=
  le_antisymm (hb.2 a ha.1) (ha.2 b hb.1)

theorem bucket_bounds (o dim : Nat) (ho : o < 28) (hdim : 1 ≤ dim) :
    bucketStart o dim < bucketEnd o dim ∧ bucketEnd o dim ≤ dim := by
  have h1 : o * dim ≤ 27 * dim := Nat.mul_le_mul_right dim (by omega)
  have h2 : (o + 1) * dim = o * dim + dim := by ring
  simp only [bucketStart, bucketEnd, h2]
  generalize o * dim = p at h1
  split_ifs <;> omega

theorem bucket_index_lt (w h x1 y1 x y : Nat) (hx : x < x1) (hy : y < y1) (hx1 : x1 ≤ w)
    (hy1 : y1 ≤ h) : y * w + x < w * h := by
  have h1 : (y + 1) * w ≤ h * w := Nat.mul_le_mul_right w (by omega)
  have h2 : (y + 1) * w = y * w + w := by ring
  have h3 : h * w = w * h := Nat.mul_comm _ _
  omega

/-- The accumulation loops over a bucket inside the buffer return the sum of
the stretched pixels and the number of pixels of the bucket. -/
theorem bucketAccumulate_spec (cell_in : List Nat) (cell_w minv : Nat) (range : Int)
    (x0 x1 y0 y1 : Nat) (hx : x0 ≤ x1) (hy : y0 ≤ y1) (hr : range ≠ 0)
    (hin : ∀ y x, y < y1 → x < x1 → y * cell_w + x < cell_in.length) :
    bucketAccumulate cell_in cell_w minv range x0 x1 y0 y1 =
      some (∑ y ∈ Finset.Ico y0 y1, ∑ x ∈ Finset.Ico x0 x1,
              stretchValue (cell_in.getD (y * cell_w + x) 0) minv range,
            (((y1 - y0) * (x1 - x0) : Nat) : Int)) := by
  have hinner : ∀ y, y < y1 → ∀ a : Int × Int,
      forLoop x0 x1 (fun x a => stretchStep cell_in cell_w minv range y x a) a =
        some (a.1 + ∑ x ∈ Finset.Ico x0 x1,
                stretchValue (cell_in.getD (y * cell_w + x) 0) minv range,
              a.2 + ((x1 - x0 : Nat) : Int)) := by
    intro y hy1 a
    obtain ⟨t, ht, hP⟩ := forLoop_invariant
      (fun x a => stretchStep cell_in cell_w minv range y x a)
      (fun x t => x0 ≤ x ∧ t = (a.1 + ∑ x' ∈ Finset.Ico x0 x,
                stretchValue (cell_in.getD (y * cell_w + x') 0) minv range,
              a.2 + ((x - x0 : Nat) : Int)))
      x0 x1 a hx ⟨le_refl _, by simp⟩
      (by
        rintro x t hx0 hx1 ⟨_, rfl⟩
        have hlt := hin y x hy1 hx1
        refine ⟨_, ?_, by omega, rfl⟩
        simp only [stretchStep, List.getElem?_eq_getElem hlt, hr, if_false,
          Finset.sum_Ico_succ_top hx0, List.getD_eq_getElem?_getD, Option.getD_some]
        have : ((x + 1 - x0 : Nat) : Int) = ((x - x0 : Nat) : Int) + 1 := by
          have : x + 1 - x0 = (x - x0) + 1 := by omega
          rw [this]; push_cast; ring
        rw [this]
        congr 1
        ext <;> simp <;> ring)
    rw [ht, hP.2]
  obtain ⟨t, ht, hP⟩ := forLoop_invariant
    (fun y acc => forLoop x0 x1 (fun x a => stretchStep cell_in cell_w minv range y x a) acc)
    (fun y t => y0 ≤ y ∧ t = (∑ y' ∈ Finset.Ico y0 y, ∑ x ∈ Finset.Ico x0 x1,
              stretchValue (cell_in.getD (y' * cell_w + x) 0) minv range,
            (((y - y0) * (x1 - x0) : Nat) : Int)))
    y0 y1 (0, 0) hy ⟨le_refl _, by simp⟩
    (by
      rintro y t hy0 hy1 ⟨_, rfl⟩
      refine ⟨_, hinner y hy1 _, by omega, ?_⟩
      simp only [Finset.sum_Ico_succ_top hy0]
      have : y + 1 - y0 = (y - y0) + 1 := by omega
      rw [this]
      ext
      · simp
      · simp only [Nat.cast_mul, Nat.cast_add, Nat.cast_one]; ring)
  rw [bucketAccumulate, ht, hP.2]

theorem writeAt_spec {α : Type} (buf : List α) (i : Nat) (v : α) (hi : i < buf.length) :
    writeAt buf i v = some (buf.set i v) := by
  simp [writeAt, hi]

/-- One output pixel is computed without failure and stored at `oy * 28 + ox`. -/
theorem cellPixel_spec (cell_in : List Nat) (cell_w cell_h minv : Nat) (range : Int) (oy ox : Nat)
    (cell_out : List Nat) (hw : 1 ≤ cell_w) (hh : 1 ≤ cell_h)
    (hlen : cell_w * cell_h ≤ cell_in.length) (hr : range ≠ 0) (hoy : oy < 28) (hox : ox < 28)
    (hout : 784 ≤ cell_out.length) :
    cellPixel cell_in cell_w cell_h minv range oy ox cell_out =
      some (cell_out.set (oy * 28 + ox) (bucketMean cell_in cell_w cell_h minv range oy ox)) := by
  obtain ⟨hx01, hx1⟩ := bucket_bounds ox cell_w hox hw
  obtain ⟨hy01, hy1⟩ := bucket_bounds oy cell_h hoy hh
  have hacc := bucketAccumulate_spec cell_in cell_w minv range (bucketStart ox cell_w)
    (bucketEnd ox cell_w) (bucketStart oy cell_h) (bucketEnd oy cell_h) (le_of_lt hx01)
    (le_of_lt hy01) hr
    (fun y x hy hx => lt_of_lt_of_le (bucket_index_lt cell_w cell_h _ _ x y hx hy hx1 hy1) hlen)
  have hcount : (((bucketEnd oy cell_h - bucketStart oy cell_h) *
      (bucketEnd ox cell_w - bucketStart ox cell_w) : Nat) : Int) ≠ 0 := by
    have h1 : 0 < bucketEnd oy cell_h - bucketStart oy cell_h := by omega
    have h2 : 0 < bucketEnd ox cell_w - bucketStart ox cell_w := by omega
    exact_mod_cast (Nat.mul_pos h1 h2).ne'
  simp only [cellPixel, hacc, hcount, if_false, bucketMean]
  exact writeAt_spec _ _ _ (by omega)

/-- The stretch-and-average loops run without failure on a non-degenerate cell
and fill the 28x28 output with the bucket means. -/
theorem stretchLoops_spec (cell_in : List Nat) (cell_w cell_h minv : Nat) (range : Int)
    (cell_out : List Nat) (hw : 1 ≤ cell_w) (hh : 1 ≤ cell_h)
    (hlen : cell_w * cell_h ≤ cell_in.length) (hr : range ≠ 0) (hout : 784 ≤ cell_out.length) :
    ∃ out, stretchLoops cell_in cell_w cell_h minv range cell_out = some out ∧
      out.length = cell_out.length ∧
      (∀ oy ox, oy < 28 → ox < 28 →
        out[oy * 28 + ox]? = some (bucketMean cell_in cell_w cell_h minv range oy ox)) ∧
      (∀ i, 784 ≤ i → out[i]? = cell_out[i]?) := by
  have hinner : ∀ oy, oy < 28 → ∀ o : List Nat, o.length = cell_out.length →
      ∃ o', forLoop 0 28 (fun ox o => cellPixel cell_in cell_w cell_h minv range oy ox o) o = some o' ∧
        o'.length = cell_out.length ∧
        (∀ ox, ox < 28 →
          o'[oy * 28 + ox]? = some (bucketMean cell_in cell_w cell_h minv range oy ox)) ∧
        (∀ i, (i < oy * 28 ∨ oy * 28 + 28 ≤ i) → o'[i]? = o[i]?) := by
    intro oy hoy o ho
    obtain ⟨t, ht, hP⟩ := forLoop_invariant
      (fun ox o => cellPixel cell_in cell_w cell_h minv range oy ox o)
      (fun k t => t.length = cell_out.length ∧
        (∀ ox, ox < k →
          t[oy * 28 + ox]? = some (bucketMean cell_in cell_w cell_h minv range oy ox)) ∧
        (∀ i, (i < oy * 28 ∨ oy * 28 + 28 ≤ i) → t[i]? = o[i]?))
      0 28 o (by omega) ⟨ho, fun _ h => absurd h (Nat.not_lt_zero _), fun _ _ => rfl⟩
      (by
        rintro ox t _ hox ⟨htl, hdone, hrest⟩
        refine ⟨_, cellPixel_spec cell_in cell_w cell_h minv range oy ox t hw hh hlen hr hoy hox
          (by omega), by simpa using htl, ?_, ?_⟩
        · intro ox' hox'
          rw [List.getElem?_set]
          by_cases h : ox' = ox
          · subst h; simp; omega
          · rw [if_neg (by omega)]; exact hdone ox' (by omega)
        · intro i hi
          rw [List.getElem?_set, if_neg (by omega)]; exact hrest i hi)
    exact ⟨t, ht, hP⟩
  obtain ⟨t, ht, hP⟩ := forLoop_invariant
    (fun oy out => forLoop 0 28 (fun ox o => cellPixel cell_in cell_w cell_h minv range oy ox o) out)
    (fun k t => t.length = cell_out.length ∧
      (∀ oy ox, oy < k → ox < 28 →
        t[oy * 28 + ox]? = some (bucketMean cell_in cell_w cell_h minv range oy ox)) ∧
      (∀ i, k * 28 ≤ i → t[i]? = cell_out[i]?))
    0 28 cell_out (by omega) ⟨rfl, fun _ _ h => absurd h (Nat.not_lt_zero _), fun _ _ => rfl⟩
    (by
      rintro oy t _ hoy ⟨htl, hdone, hrest⟩
      obtain ⟨o', ho', hl', hrow, hother⟩ := hinner oy hoy t htl
      refine ⟨o', ho', hl', ?_, ?_⟩
      · intro oy' ox hoy' hox
        by_cases h : oy' = oy
        · subst h; exact hrow ox hox
        · rw [hother _ (Or.inl (by omega))]; exact hdone oy' ox (by omega) hox
      · intro i hi
        rw [hother _ (Or.inr (by omega))]; exact hrest i (by omega))
  exact ⟨t, ht, hP.1, hP.2.1, fun i hi => hP.2.2 i (by omega)⟩

theorem scan_total (cell_in : List Nat) (n : Nat) (hn : n ≤ cell_in.length) :
    ∃ mm, forLoop 0 n (scanStep cell_in) (255, 0) = some mm ∧ (n = 0 → mm = (255, 0)) := by
  obtain ⟨t, ht, hP⟩ := forLoop_invariant (scanStep cell_in)
    (fun j mm => j = 0 → mm = (255, 0)) 0 n (255, 0) (Nat.zero_le _) (fun _ => rfl)
    (by
      intro j t _ hj _
      have hjl : j < cell_in.length := lt_of_lt_of_le hj hn
      have hrun : scanStep cell_in j t = some (if cell_in[j] < t.1 then cell_in[j] else t.1,
          if cell_in[j] > t.2 then cell_in[j] else t.2) := by
        simp only [scanStep, List.getElem?_eq_getElem hjl]
      exact ⟨_, hrun, fun h => absurd h (by omega)⟩)
  exact ⟨t, ht, hP⟩

theorem cellPixels_getD_mem (cell_in : List Nat) (cell_w cell_h i : Nat)
    (hlen : cell_w * cell_h ≤ cell_in.length) (hi : i < cell_w * cell_h) :
    cell_in.getD i 0 ∈ cellPixels cell_in cell_w cell_h := by
  have hil : i < cell_in.length := lt_of_lt_of_le hi hlen
  rw [cellPixels, List.mem_take_iff_getElem]
  refine ⟨i, by simp; omega, ?_⟩
  simp [List.getD_eq_getElem?_getD, List.getElem?_eq_getElem hil]

theorem cellPixels_pos_of_mem {cell_in : List Nat} {cell_w cell_h v : Nat}
    (h : v ∈ cellPixels cell_in cell_w cell_h) : 1 ≤ cell_w ∧ 1 ≤ cell_h := by
  rw [cellPixels] at h
  have hpos : 0 < cell_w * cell_h := by
    rcases Nat.eq_zero_or_pos (cell_w * cell_h) with h0 | h0
    · rw [h0] at h; simp at h
    · exact h0
  exact ⟨Nat.pos_of_mul_pos_right hpos, Nat.pos_of_mul_pos_left hpos⟩

/-- Which branch `preprocess_cell_to_28x28` takes, in terms of the pixels of the
cell: `memset` when every two pixels differ by less than 30, the stretch loops
(with the true minimum and range) otherwise. -/
theorem preprocess_branch (cell_in : List Nat) (cell_w cell_h : Nat) (cell_out : List Nat)
    (hlen : cell_w * cell_h ≤ cell_in.length) (hb : IsBytes cell_in) :
    ((∀ a ∈ cellPixels cell_in cell_w cell_h, ∀ b ∈ cellPixels cell_in cell_w cell_h, b < a + 30) →
      preprocess_cell_to_28x28 cell_in cell_w cell_h cell_out = memset cell_out 0 (28 * 28)) ∧
    (∀ mn mx, IsMinOf (cellPixels cell_in cell_w cell_h) mn →
      IsMaxOf (cellPixels cell_in cell_w cell_h) mx → mn + 30 ≤ mx →
      preprocess_cell_to_28x28 cell_in cell_w cell_h cell_out =
        stretchLoops cell_in cell_w cell_h mn ((mx : Int) - (mn : Int)) cell_out) := by
  obtain ⟨mn', mx', hscan, hzero, hpos⟩ := scan_spec cell_in (cell_w * cell_h) hlen hb
  constructor
  · intro hpair
    have hrange : (mx' : Int) - (mn' : Int) < 30 := by
      rcases Nat.eq_zero_or_pos (cell_w * cell_h) with h0 | h0
      · obtain ⟨h1, h2⟩ := hzero h0
        subst h1 h2; norm_num
      · obtain ⟨hmin, hmax⟩ := hpos h0
        have := hpair mn' hmin.1 mx' hmax.1
        omega
    simp only [preprocess_cell_to_28x28, hscan, hrange, if_true]
  · intro mn mx hmin hmax hge
    have h0 : 0 < cell_w * cell_h := by
      have := cellPixels_pos_of_mem hmin.1
      exact Nat.mul_pos this.1 this.2
    obtain ⟨hmin', hmax'⟩ := hpos h0
    have e1 : mn' = mn := isMinOf_unique hmin' hmin
    have e2 : mx' = mx := isMaxOf_unique hmax' hmax
    subst e1 e2
    have hrange : ¬ ((mx' : Int) - (mn' : Int) < 30) := by omega
    simp only [preprocess_cell_to_28x28, hscan, hrange, if_false]

theorem stretchValue_eq_specStretch (v mn mx : Nat) (h1 : mn ≤ v) (h2 : mn < mx) :
    stretchValue v mn ((mx : Int) - (mn : Int)) = specStretch v mn mx := by
  have ha : (0 : Int) ≤ ((v : Int) - (mn : Int)) * 255 := by
    have : (0 : Int) ≤ (v : Int) - (mn : Int) := by omega
    positivity
  have hb : (0 : Int) ≤ (mx : Int) - (mn : Int) := by omega
  simp only [stretchValue, specStretch, Int.tdiv_eq_ediv ha hb]
  generalize (((v : Int) - (mn : Int)) * 255) / ((mx : Int) - (mn : Int)) = c
  simp only [max_def, min_def]
  split_ifs <;> omega

theorem specStretch_bounds (v mn mx : Nat) : 0 ≤ specStretch v mn mx ∧ specStretch v mn mx ≤ 255 := by
  simp only [specStretch]
  exact ⟨le_max_left _ _, max_le (by norm_num) (min_le_left _ _)⟩

theorem bucket_sum_bounds (f : Nat → Nat → Int) (x0 x1 y0 y1 : Nat)
    (hf : ∀ y x, 0 ≤ f y x ∧ f y x ≤ 255) :
    0 ≤ ∑ y ∈ Finset.Ico y0 y1, ∑ x ∈ Finset.Ico x0 x1, f y x ∧
    ∑ y ∈ Finset.Ico y0 y1, ∑ x ∈ Finset.Ico x0 x1, f y x ≤
      255 * (((x1 - x0) * (y1 - y0) : Nat) : Int) := by
  constructor
  · exact Finset.sum_nonneg (fun y _ => Finset.sum_nonneg (fun x _ => (hf y x).1))
  · have hin : ∀ y ∈ Finset.Ico y0 y1, ∑ x ∈ Finset.Ico x0 x1, f y x ≤ 255 * ((x1 - x0 : Nat) : Int) := by
      intro y _
      have := Finset.sum_le_card_nsmul (Finset.Ico x0 x1) (f y) 255 (fun x _ => (hf y x).2)
      simpa [mul_comm] using this
    have := Finset.sum_le_card_nsmul (Finset.Ico y0 y1) _ _ hin
    simp only [Nat.card_Ico, nsmul_eq_mul] at this
    push_cast at this ⊢
    linarith

/-- The byte computed by the code for an output pixel is the specified
stretch-then-average value; in particular the conversion to `uint8_t` loses
nothing. -/
theorem bucketMean_eq_specPixel (cell_in : List Nat) (cell_w cell_h mn mx oy ox : Nat)
    (hlen : cell_w * cell_h ≤ cell_in.length)
    (hmin : IsMinOf (cellPixels cell_in cell_w cell_h) mn)
    (hge : mn + 30 ≤ mx) (hoy : oy < 28) (hox : ox < 28) :
    ((bucketMean cell_in cell_w cell_h mn ((mx : Int) - (mn : Int)) oy ox : Nat) : Int) =
      specPixel cell_in cell_w cell_h mn mx ox oy := by
  obtain ⟨hw, hh⟩ := cellPixels_pos_of_mem hmin.1
  obtain ⟨hx01, hx1⟩ := bucket_bounds ox cell_w hox hw
  obtain ⟨hy01, hy1⟩ := bucket_bounds oy cell_h hoy hh
  have hsum : ∑ y ∈ Finset.Ico (bucketStart oy cell_h) (bucketEnd oy cell_h),
        ∑ x ∈ Finset.Ico (bucketStart ox cell_w) (bucketEnd ox cell_w),
          stretchValue (cell_in.getD (y * cell_w + x) 0) mn ((mx : Int) - (mn : Int)) =
      ∑ y ∈ Finset.Ico (bucketStart oy cell_h) (bucketEnd oy cell_h),
        ∑ x ∈ Finset.Ico (bucketStart ox cell_w) (bucketEnd ox cell_w),
          specStretch (cell_in.getD (y * cell_w + x) 0) mn mx := by
    refine Finset.sum_congr rfl (fun y hy => Finset.sum_congr rfl (fun x hx => ?_))
    rw [Finset.mem_Ico] at hy hx
    have hidx := bucket_index_lt cell_w cell_h _ _ x y hx.2 hy.2 hx1 hy1
    exact stretchValue_eq_specStretch _ mn mx
      (hmin.2 _ (cellPixels_getD_mem cell_in cell_w cell_h _ hlen hidx)) (by omega)
  have hcount : ((bucketEnd oy cell_h - bucketStart oy cell_h) *
      (bucketEnd ox cell_w - bucketStart ox cell_w) : Nat) =
      (bucketEnd ox cell_w - bucketStart ox cell_w) *
        (bucketEnd oy cell_h - bucketStart oy cell_h) := Nat.mul_comm _ _
  have hcpos : (0 : Int) < (((bucketEnd ox cell_w - bucketStart ox cell_w) *
        (bucketEnd oy cell_h - bucketStart oy cell_h) : Nat) : Int) := by
    have h1 : 0 < bucketEnd oy cell_h - bucketStart oy cell_h := by omega
    have h2 : 0 < bucketEnd ox cell_w - bucketStart ox cell_w := by omega
    exact_mod_cast Nat.mul_pos h2 h1
  obtain ⟨hS0, hS1⟩ := bucket_sum_bounds
    (fun y x => specStretch (cell_in.getD (y * cell_w + x) 0) mn mx)
    (bucketStart ox cell_w) (bucketEnd ox cell_w) (bucketStart oy cell_h) (bucketEnd oy cell_h)
    (fun y x => specStretch_bounds _ mn mx)
  have hspec : specPixel cell_in cell_w cell_h mn mx ox oy =
      (∑ y ∈ Finset.Ico (bucketStart oy cell_h) (bucketEnd oy cell_h),
        ∑ x ∈ Finset.Ico (bucketStart ox cell_w) (bucketEnd ox cell_w),
          specStretch (cell_in.getD (y * cell_w + x) 0) mn mx) /
      (((bucketEnd ox cell_w - bucketStart ox cell_w) *
        (bucketEnd oy cell_h - bucketStart oy cell_h) : Nat) : Int) := rfl
  rw [hspec]
  simp only [bucketMean, hsum, hcount]
  generalize (∑ y ∈ Finset.Ico (bucketStart oy cell_h) (bucketEnd oy cell_h),
        ∑ x ∈ Finset.Ico (bucketStart ox cell_w) (bucketEnd ox cell_w),
          specStretch (cell_in.getD (y * cell_w + x) 0) mn mx) = S at hS0 hS1 ⊢
  generalize (((bucketEnd ox cell_w - bucketStart ox cell_w) *
        (bucketEnd oy cell_h - bucketStart oy cell_h) : Nat) : Int) = c at hcpos hS1 ⊢
  rw [Int.tdiv_eq_ediv hS0 (le_of_lt hcpos)]
  have hq0 : 0 ≤ S / c := Int.ediv_nonneg hS0 (le_of_lt hcpos)
  have hq1 : S / c ≤ 255 := Int.ediv_le_of_le_mul hcpos hS1
  rw [Int.emod_eq_of_lt hq0 (by omega), Int.toNat_of_nonneg hq0]

/-! ## Lemmas on `flip_vertical` -/

theorem grid_index_inj (w r c r' c' : Nat) (hc : c < w) (hc' : c' < w)
    (h : r * w + c = r' * w + c') : r = r' ∧ c = c' := by
  have key : ∀ a b ca cb : Nat, ca < w → a < b → a * w + ca < b * w + cb := by
    intro a b ca cb hca hab
    have h1 : (a + 1) * w ≤ b * w := Nat.mul_le_mul_right w hab
    have h2 : (a + 1) * w = a * w + w := by ring
    omega
  rcases Nat.lt_trichotomy r r' with hlt | heq | hgt
  · exact absurd h (ne_of_lt (key r r' c c' hc hlt))
  · subst heq; exact ⟨rfl, by omega⟩
  · exact absurd h.symm (ne_of_lt (key r' r c' c hc' hgt))

theorem grid_index_lt (w h r c : Nat) (hr : r < h) (hc : c < w) : r * w + c < w * h :=
  bucket_index_lt w h w h c r hc hr (le_refl _) (le_refl _)

/-- The body of the swap at `(y, x)`, under the invariant of the inner loop. -/
theorem swapStep_spec (img t : List Nat) (w h k x : Nat) (hlen : w * h ≤ img.length)
    (hk : k < h / 2) (hx : x < w) (htl : t.length = img.length)
    (hQ : ∀ r c, r < h → c < w → t[r * w + c]? =
      if (r < k ∨ h - 1 - r < k) ∨ ((r = k ∨ r = h - 1 - k) ∧ c < x)
      then img[(h - 1 - r) * w + c]? else img[r * w + c]?)
    (hrest : ∀ i, w * h ≤ i → t[i]? = img[i]?) :
    ∃ t', swapStep w h k x t = some t' ∧ t'.length = img.length ∧
      (∀ r c, r < h → c < w → t'[r * w + c]? =
        if (r < k ∨ h - 1 - r < k) ∨ ((r = k ∨ r = h - 1 - k) ∧ c < x + 1)
        then img[(h - 1 - r) * w + c]? else img[r * w + c]?) ∧
      (∀ i, w * h ≤ i → t'[i]? = img[i]?) := by
  have hkh : k < h := by omega
  have hbh : h - 1 - k < h := by omega
  have htop : k * w + x < w * h := grid_index_lt w h k x hkh hx
  have hbot : (h - 1 - k) * w + x < w * h := grid_index_lt w h (h - 1 - k) x hbh hx
  have htopI : k * w + x < img.length := by omega
  have hbotI : (h - 1 - k) * w + x < img.length := by omega
  have e1 : t[k * w + x]? = some img[k * w + x] := by
    rw [hQ k x hkh hx, if_neg (by omega), List.getElem?_eq_getElem htopI]
  have e2 : t[(h - 1 - k) * w + x]? = some img[(h - 1 - k) * w + x] := by
    rw [hQ (h - 1 - k) x hbh hx, if_neg (by omega), List.getElem?_eq_getElem hbotI]
  have hrun : swapStep w h k x t =
      some ((t.set (k * w + x) img[(h - 1 - k) * w + x]).set ((h - 1 - k) * w + x)
        img[k * w + x]) := by
    simp only [swapStep, e1, e2]
    rw [writeAt_spec _ _ _ (by omega)]
    simp only
    rw [writeAt_spec _ _ _ (by simp; omega)]
  refine ⟨_, hrun, by simp [htl], ?_, ?_⟩
  · intro r c hr hc
    rw [List.getElem?_set, List.getElem?_set]
    simp only [List.length_set]
    by_cases hb : (h - 1 - k) * w + x = r * w + c
    · obtain ⟨hr', hc'⟩ := grid_index_inj w _ _ _ _ hx hc hb
      subst hc'
      rw [if_pos hb, if_pos (by omega), if_pos (Or.inr ⟨Or.inr hr'.symm, by omega⟩)]
      have : h - 1 - r = k := by omega
      rw [this, List.getElem?_eq_getElem htopI]
    · rw [if_neg hb]
      by_cases ht : k * w + x = r * w + c
      · obtain ⟨hr', hc'⟩ := grid_index_inj w _ _ _ _ hx hc ht
        subst hc' hr'
        rw [if_pos ht, if_pos (by omega), if_pos (Or.inr ⟨Or.inl rfl, by omega⟩),
          List.getElem?_eq_getElem hbotI]
      · rw [if_neg ht, hQ r c hr hc]
        have hne : ¬ ((r = k ∨ r = h - 1 - k) ∧ c = x) := by
          rintro ⟨h1 | h1, h2⟩
          · exact ht (by rw [h1, h2])
          · exact hb (by rw [h1, h2])
        have hiff : ((r < k ∨ h - 1 - r < k) ∨ ((r = k ∨ r = h - 1 - k) ∧ c < x)) ↔
            ((r < k ∨ h - 1 - r < k) ∨ ((r = k ∨ r = h - 1 - k) ∧ c < x + 1)) := by
          constructor
          · rintro (h1 | ⟨h1, h2⟩)
            · exact Or.inl h1
            · exact Or.inr ⟨h1, by omega⟩
          · rintro (h1 | ⟨h1, h2⟩)
            · exact Or.inl h1
            · refine Or.inr ⟨h1, ?_⟩
              rcases Nat.lt_succ_iff_lt_or_eq.mp h2 with h3 | h3
              · exact h3
              · exact absurd ⟨h1, h3⟩ hne
        simp only [hiff]
  · intro i hi
    rw [List.getElem?_set, List.getElem?_set, if_neg (by omega), if_neg (by omega)]
    exact hrest i hi

/-- The function `flip_vertical` returns on any buffer holding `w * h` bytes;
the byte at row `r`, column `c` of the result is the byte at row `h - 1 - r`,
column `c` of the input, and bytes beyond `w * h` are untouched. -/
theorem flip_vertical_spec (img : List Nat) (w h : Nat) (hlen : w * h ≤ img.length) :
    ∃ out, flip_vertical img w h = some out ∧ out.length = img.length ∧
      (∀ r c, r < h → c < w → out[r * w + c]? = img[(h - 1 - r) * w + c]?) ∧
      (∀ i, w * h ≤ i → out[i]? = img[i]?) := by
  have hinner : ∀ k, k < h / 2 → ∀ t : List Nat, t.length = img.length →
      (∀ r c, r < h → c < w → t[r * w + c]? =
        if r < k ∨ h - 1 - r < k then img[(h - 1 - r) * w + c]? else img[r * w + c]?) →
      (∀ i, w * h ≤ i → t[i]? = img[i]?) →
      ∃ t', forLoop 0 w (fun x i => swapStep w h k x i) t = some t' ∧ t'.length = img.length ∧
        (∀ r c, r < h → c < w → t'[r * w + c]? =
          if r < k + 1 ∨ h - 1 - r < k + 1 then img[(h - 1 - r) * w + c]?
          else img[r * w + c]?) ∧
        (∀ i, w * h ≤ i → t'[i]? = img[i]?) := by
    intro k hk t htl hP hrest
    obtain ⟨t', ht', hl', hQ', hrest'⟩ := forLoop_invariant (fun x i => swapStep w h k x i)
      (fun x u => u.length = img.length ∧
        (∀ r c, r < h → c < w → u[r * w + c]? =
          if (r < k ∨ h - 1 - r < k) ∨ ((r = k ∨ r = h - 1 - k) ∧ c < x)
          then img[(h - 1 - r) * w + c]? else img[r * w + c]?) ∧
        (∀ i, w * h ≤ i → u[i]? = img[i]?))
      0 w t (Nat.zero_le _)
      ⟨htl, fun r c hr hc => by
        rw [hP r c hr hc]
        have : ((r < k ∨ h - 1 - r < k) ∨ ((r = k ∨ r = h - 1 - k) ∧ c < 0)) ↔
            (r < k ∨ h - 1 - r < k) := by
          constructor
          · rintro (h1 | ⟨_, h2⟩)
            · exact h1
            · exact absurd h2 (Nat.not_lt_zero _)
          · exact Or.inl
        simp only [this], hrest⟩
      (by
        rintro x u _ hx ⟨hul, hQ, hur⟩
        exact swapStep_spec img u w h k x hlen hk hx hul hQ hur)
    refine ⟨t', ht', hl', ?_, hrest'⟩
    intro r c hr hc
    rw [hQ' r c hr hc]
    have : ((r < k ∨ h - 1 - r < k) ∨ ((r = k ∨ r = h - 1 - k) ∧ c < w)) ↔
        (r < k + 1 ∨ h - 1 - r < k + 1) := by
      constructor
      · rintro (h1 | ⟨h1, _⟩) <;> omega
      · intro h1
        by_cases h2 : r < k ∨ h - 1 - r < k
        · exact Or.inl h2
        · exact Or.inr ⟨by omega, hc⟩
    simp only [this]
  obtain ⟨t, ht, hl, hP, hrest⟩ := forLoop_invariant
    (fun y im => forLoop 0 w (fun x i => swapStep w h y x i) im)
    (fun k u => u.length = img.length ∧
      (∀ r c, r < h → c < w → u[r * w + c]? =
        if r < k ∨ h - 1 - r < k then img[(h - 1 - r) * w + c]? else img[r * w + c]?) ∧
      (∀ i, w * h ≤ i → u[i]? = img[i]?))
    0 (h / 2) img (Nat.zero_le _)
    ⟨rfl, fun r c _ _ => by rw [if_neg (by omega)], fun _ _ => rfl⟩
    (by
      rintro k u _ hk ⟨hul, hP, hur⟩
      exact hinner k hk u hul hP hur)
  refine ⟨t, ht, hl, ?_, hrest⟩
  intro r c hr hc
  rw [hP r c hr hc]
  split_ifs with hcond
  · rfl
  · have : h - 1 - r = r := by omega
    rw [this]

/-! ## Lemmas on `normalize_uint8_to_int8` -/

theorem quantizeClamped_bounds (v : Nat) (zero_point : Int) (scale : ℚ) :
    -128 ≤ quantizeClamped v zero_point scale ∧ quantizeClamped v zero_point scale ≤ 127 := by
  simp only [quantizeClamped]
  split_ifs <;> omega

theorem toInt8_of_bounds (q : Int) (h1 : -128 ≤ q) (h2 : q ≤ 127) : toInt8 q = q := by
  unfold toInt8
  omega

theorem quantize_eq_clamped (v : Nat) (zero_point : Int) (scale : ℚ) :
    quantize v zero_point scale = quantizeClamped v zero_point scale :=
  toInt8_of_bounds _ (quantizeClamped_bounds v zero_point scale).1
    (quantizeClamped_bounds v zero_point scale).2

theorem roundHalfAway_intCast (n : Int) : roundHalfAway (n : ℚ) = n := by
  unfold roundHalfAway
  split_ifs with h
  · rw [Int.floor_eq_iff]
    constructor <;> linarith
  · rw [Int.ceil_eq_iff]
    constructor <;> linarith

theorem roundHalfAway_zero : roundHalfAway 0 = 0 := by
  have := roundHalfAway_intCast 0
  simpa using this

theorem castToInt_of_range (r : Int) (h1 : -2147483648 ≤ r) (h2 : r ≤ 2147483647) :
    castToInt r = r := by
  simp only [castToInt, INT_MIN, INT_MAX]
  rw [if_pos ⟨h1, h2⟩]

theorem wrapInt32_of_range (x : Int) (h1 : -2147483648 ≤ x) (h2 : x ≤ 2147483647) :
    wrapInt32 x = x := by
  unfold wrapInt32
  omega

/-- The clamps of lines 231-232 applied to a value `q`. -/
theorem quantizeClamped_of_sum (v : Nat) (zero_point : Int) (scale : ℚ) (q : Int)
    (h : wrapInt32 (castToInt (roundHalfAway (((v : ℚ) / 255) / scale)) + zero_point) = q) :
    quantizeClamped v zero_point scale =
      if (if q < -128 then -128 else q) > 127 then 127 else (if q < -128 then -128 else q) := by
  simp only [quantizeClamped, h]

theorem quantize_zero (zero_point : Int) (scale : ℚ) (hz : -128 ≤ zero_point ∧ zero_point ≤ 127) :
    quantize 0 zero_point scale = zero_point := by
  rw [quantize_eq_clamped, quantizeClamped_of_sum 0 zero_point scale zero_point
    (by rw [Nat.cast_zero, zero_div, zero_div, roundHalfAway_zero,
      castToInt_of_range _ (by omega) (by omega), zero_add,
      wrapInt32_of_range _ (by omega) (by omega)])]
  split_ifs <;> omega

/-- The quantizer returns when input and output hold `n` entries; entry `i < n`
of the output is the quantized entry `i` of the input. -/
theorem normalize_spec (inp : List Nat) (out : List Int) (n : Nat) (zero_point : Int) (scale : ℚ)
    (hn : n ≤ inp.length) (hcap : n ≤ out.length) :
    ∃ out', normalize_uint8_to_int8 inp out n zero_point scale = some out' ∧
      out'.length = out.length ∧
      (∀ i, i < n → ∃ v, inp[i]? = some v ∧ out'[i]? = some (quantize v zero_point scale)) ∧
      (∀ i, n ≤ i → out'[i]? = out[i]?) := by
  obtain ⟨t, ht, hP⟩ := forLoop_invariant
    (fun i o =>
      match inp[i]? with
      | none => none
      | some v => writeAt o i (quantize v zero_point scale))
    (fun k t => t.length = out.length ∧
      (∀ i, i < k → ∃ v, inp[i]? = some v ∧ t[i]? = some (quantize v zero_point scale)) ∧
      (∀ i, k ≤ i → t[i]? = out[i]?))
    0 n out (Nat.zero_le _) ⟨rfl, fun _ h => absurd h (Nat.not_lt_zero _), fun _ _ => rfl⟩
    (by
      rintro j t _ hj ⟨htl, hdone, hrest⟩
      have hjl : j < inp.length := lt_of_lt_of_le hj hn
      have hrun : (match inp[j]? with
          | none => none
          | some v => writeAt t j (quantize v zero_point scale)) =
          some (t.set j (quantize inp[j] zero_point scale)) := by
        rw [List.getElem?_eq_getElem hjl]
        exact writeAt_spec _ _ _ (by omega)
      refine ⟨_, hrun, by simpa using htl, ?_, ?_⟩
      · intro i hi
        by_cases h : i = j
        · subst h
          exact ⟨inp[i], List.getElem?_eq_getElem hjl, by
            rw [List.getElem?_set, if_pos rfl, if_pos (by omega)]⟩
        · obtain ⟨v, hv, hq⟩ := hdone i (by omega)
          exact ⟨v, hv, by rw [List.getElem?_set, if_neg (by omega)]; exact hq⟩
      · intro i hi
        rw [List.getElem?_set, if_neg (by omega)]
        exact hrest i (by omega))
  exact ⟨t, ht, hP⟩

/-! ## Lemmas on `extract_cell` -/

theorem cell_source_lt (board_w board_h row col x y : Nat) (hrow : row < 4) (hcol : col < 4)
    (hx : x < board_w / 4) (hy : y < board_h / 4) :
    col * (board_w / 4) + x < 4 * (board_w / 4) ∧ row * (board_h / 4) + y < 4 * (board_h / 4) ∧
    (row * (board_h / 4) + y) * board_w + (col * (board_w / 4) + x) < board_w * board_h := by
  have h1 : col * (board_w / 4) ≤ 3 * (board_w / 4) := Nat.mul_le_mul_right _ (by omega)
  have h2 : row * (board_h / 4) ≤ 3 * (board_h / 4) := Nat.mul_le_mul_right _ (by omega)
  have h3 : col * (board_w / 4) + x < 4 * (board_w / 4) := by omega
  have h4 : row * (board_h / 4) + y < 4 * (board_h / 4) := by omega
  exact ⟨h3, h4, grid_index_lt board_w board_h _ _ (by omega) (by omega)⟩

/-- The function `extract_cell` returns on a board of `board_w * board_h` bytes
when the output holds a cell; it returns the floor quotients as cell size, and
entry `y * cell_w + x` of the output is the board byte at row
`row * cell_h + y`, column `col * cell_w + x`. -/
theorem extract_cell_spec (board : List Nat) (board_w board_h row col : Nat) (cell_out : List Nat)
    (hlen : board_w * board_h ≤ board.length) (hrow : row < 4) (hcol : col < 4)
    (hcap : (board_w / 4) * (board_h / 4) ≤ cell_out.length) :
    ∃ out, extract_cell board board_w board_h row col cell_out =
        some (out, board_w / 4, board_h / 4) ∧
      out.length = cell_out.length ∧
      (∀ y x, y < board_h / 4 → x < board_w / 4 →
        out[y * (board_w / 4) + x]? =
          board[(row * (board_h / 4) + y) * board_w + (col * (board_w / 4) + x)]?) ∧
      (∀ i, (board_w / 4) * (board_h / 4) ≤ i → out[i]? = cell_out[i]?) := by
  have hinner : ∀ y, y < board_h / 4 → ∀ st : List Nat × Nat,
      (st.2 = y * (board_w / 4) ∧ st.1.length = cell_out.length ∧
        (∀ y' x', y' < board_h / 4 → x' < board_w / 4 → y' * (board_w / 4) + x' < st.2 →
          st.1[y' * (board_w / 4) + x']? =
            board[(row * (board_h / 4) + y') * board_w + (col * (board_w / 4) + x')]?) ∧
        (∀ i, st.2 ≤ i → st.1[i]? = cell_out[i]?)) →
      ∃ st', forLoop 0 (board_w / 4)
          (fun x s => copyStep board board_w (col * (board_w / 4)) (row * (board_h / 4)) y x s)
          st = some st' ∧
        (st'.2 = (y + 1) * (board_w / 4) ∧ st'.1.length = cell_out.length ∧
        (∀ y' x', y' < board_h / 4 → x' < board_w / 4 → y' * (board_w / 4) + x' < st'.2 →
          st'.1[y' * (board_w / 4) + x']? =
            board[(row * (board_h / 4) + y') * board_w + (col * (board_w / 4) + x')]?) ∧
        (∀ i, st'.2 ≤ i → st'.1[i]? = cell_out[i]?)) := by
    intro y hy st hst
    obtain ⟨st', hrun, hidx, hP⟩ := forLoop_invariant
      (fun x s => copyStep board board_w (col * (board_w / 4)) (row * (board_h / 4)) y x s)
      (fun x s => s.2 = y * (board_w / 4) + x ∧ (s.1.length = cell_out.length ∧
        (∀ y' x', y' < board_h / 4 → x' < board_w / 4 → y' * (board_w / 4) + x' < s.2 →
          s.1[y' * (board_w / 4) + x']? =
            board[(row * (board_h / 4) + y') * board_w + (col * (board_w / 4) + x')]?) ∧
        (∀ i, s.2 ≤ i → s.1[i]? = cell_out[i]?)))
      0 (board_w / 4) st (Nat.zero_le _) ⟨by simpa using hst.1, hst.2⟩
      (by
        rintro x ⟨t, idx⟩ _ hx ⟨hidx, htl, hdone, hrest⟩
        simp only at hidx htl hdone hrest
        obtain ⟨_, _, hsrc⟩ := cell_source_lt board_w board_h row col x y hrow hcol hx hy
        have hsrcI : (row * (board_h / 4) + y) * board_w + (col * (board_w / 4) + x) <
            board.length := lt_of_lt_of_le hsrc hlen
        have hidxlt : idx < t.length := by
          have := grid_index_lt (board_w / 4) (board_h / 4) y x hy hx
          omega
        have hrun : copyStep board board_w (col * (board_w / 4)) (row * (board_h / 4)) y x
            (t, idx) = some (t.set idx
              board[(row * (board_h / 4) + y) * board_w + (col * (board_w / 4) + x)],
              idx + 1) := by
          simp only [copyStep, List.getElem?_eq_getElem hsrcI, writeAt_spec _ _ _ hidxlt]
        refine ⟨_, hrun, by simp only; omega, by simpa using htl, ?_, ?_⟩
        · intro y' x' hy' hx' hlt
          simp only at hlt ⊢
          rw [List.getElem?_set]
          by_cases he : idx = y' * (board_w / 4) + x'
          · rw [hidx] at he
            obtain ⟨e1, e2⟩ := grid_index_inj _ _ _ _ _ hx hx' he
            subst e1 e2
            rw [if_pos (by omega), if_pos hidxlt, List.getElem?_eq_getElem hsrcI]
          · rw [if_neg he]
            exact hdone y' x' hy' hx' (by omega)
        · intro i hi
          simp only at hi ⊢
          rw [List.getElem?_set, if_neg (by omega)]
          exact hrest i (by omega))
    refine ⟨st', hrun, ?_, hP⟩
    rw [hidx]; ring
  obtain ⟨⟨out, idx⟩, hrun, hidx, hl, hdone, hrest⟩ := forLoop_invariant
    (fun y st => forLoop 0 (board_w / 4)
      (fun x s => copyStep board board_w (col * (board_w / 4)) (row * (board_h / 4)) y x s) st)
    (fun y s => s.2 = y * (board_w / 4) ∧ s.1.length = cell_out.length ∧
        (∀ y' x', y' < board_h / 4 → x' < board_w / 4 → y' * (board_w / 4) + x' < s.2 →
          s.1[y' * (board_w / 4) + x']? =
            board[(row * (board_h / 4) + y') * board_w + (col * (board_w / 4) + x')]?) ∧
        (∀ i, s.2 ≤ i → s.1[i]? = cell_out[i]?))
    0 (board_h / 4) (cell_out, 0) (Nat.zero_le _)
    ⟨by simp, rfl, fun _ _ _ _ h => absurd h (Nat.not_lt_zero _), fun _ _ => rfl⟩
    (fun y st _ hy hst => hinner y hy st hst)
  simp only at hidx hl hdone hrest
  refine ⟨out, ?_, hl, ?_, ?_⟩
  · simp only [extract_cell, GRID_SIZE, hrun]
  · intro y x hy hx
    refine hdone y x hy hx ?_
    have := grid_index_lt (board_w / 4) (board_h / 4) y x hy hx
    rw [hidx, Nat.mul_comm (board_h / 4)]; exact this
  · intro i hi
    exact hrest i (by rw [hidx, Nat.mul_comm (board_h / 4)]; exact hi)

/-! ## Lemmas on `loop` -/

theorem loopFromR_invariant {σ : Type} (body : Nat → σ → Option (Flow σ)) (P : Nat → σ → Prop)
    (Q : σ → Prop) :
    ∀ (n i : Nat) (s : σ), P i s →
      (∀ j t, i ≤ j → j < i + n → P j t →
        (∃ t', body j t = some (Flow.next t') ∧ P (j + 1) t') ∨
        (∃ t', body j t = some (Flow.ret t') ∧ Q t')) →
      (∃ t, loopFromR body n i s = some (Flow.next t) ∧ P (i + n) t) ∨
      (∃ t, loopFromR body n i s = some (Flow.ret t) ∧ Q t) := by
  intro n
  induction n with
  | zero => intro i s h _; exact Or.inl ⟨s, rfl, by simpa using h⟩
  | succ n ih =>
    intro i s h hstep
    rcases hstep i s (le_refl _) (by omega) h with ⟨t', ht', hP⟩ | ⟨t', ht', hQ⟩
    · rcases ih (i + 1) t' hP (fun j u h1 h2 hu => hstep j u (by omega) (by omega) hu) with
        ⟨t, ht, hPt⟩ | ⟨t, ht, hQt⟩
      · refine Or.inl ⟨t, ?_, ?_⟩
        · simp only [loopFromR, ht', ht]
        · have : i + (n + 1) = i + 1 + n := by omega
          rw [this]; exact hPt
      · exact Or.inr ⟨t, by simp only [loopFromR, ht', ht], hQt⟩
    · exact Or.inr ⟨t', by simp only [loopFromR, ht'], hQ⟩

theorem forLoopR_invariant {σ : Type} (body : Nat → σ → Option (Flow σ)) (P : Nat → σ → Prop)
    (Q : σ → Prop) (lo hi : Nat) (s : σ) (hle : lo ≤ hi) (h0 : P lo s)
    (hstep : ∀ j t, lo ≤ j → j < hi → P j t →
      (∃ t', body j t = some (Flow.next t') ∧ P (j + 1) t') ∨
      (∃ t', body j t = some (Flow.ret t') ∧ Q t')) :
    (∃ t, forLoopR lo hi body s = some (Flow.next t) ∧ P hi t) ∨
    (∃ t, forLoopR lo hi body s = some (Flow.ret t) ∧ Q t) := by
  have := loopFromR_invariant body P Q (hi - lo) lo s h0
    (fun j u h1 h2 hu => hstep j u h1 (by omega) hu)
  have e : lo + (hi - lo) = hi := by omega
  rw [e] at this
  exact this

/-- The crop loop returns on a frame that contains the crop rectangle and
copies the rectangle row by row. -/
theorem cropBoard_spec (fb : Frame) (cropped : List Nat) (hfb : FrameOk fb)
    (hlen : cropped.length = CROP_W * CROP_H) :
    ∃ cg, cropBoard fb cropped = some cg ∧ cg.length = CROP_W * CROP_H ∧
      ∀ y x, y < CROP_H → x < CROP_W →
        cg[y * CROP_W + x]? = fb.buf[(Y_TOP + y) * fb.width + (X_LEFT + x)]? := by
  obtain ⟨hbuf, hwid, hhei⟩ := hfb
  have hW : CROP_W = 164 := rfl
  have hH : CROP_H = 164 := rfl
  have hXL : X_LEFT = 68 := rfl
  have hYT : Y_TOP = 28 := rfl
  have hXR : X_RIGHT = 232 := rfl
  have hYB : Y_BOTTOM = 192 := rfl
  rw [hXR] at hwid
  rw [hYB] at hhei
  rw [hW, hH] at hlen
  have hinner : ∀ y, y < 164 → ∀ t : List Nat, t.length = 164 * 164 →
      ∃ t', forLoop 0 CROP_W
          (fun x g =>
            let sx := X_LEFT + x
            let sy := Y_TOP + y
            match fb.buf[sy * fb.width + sx]? with
            | none => none
            | some v => writeAt g (y * CROP_W + x) v) t = some t' ∧
        t'.length = 164 * 164 ∧
        (∀ x, x < 164 → t'[y * 164 + x]? = fb.buf[(28 + y) * fb.width + (68 + x)]?) ∧
        (∀ i, (i < y * 164 ∨ y * 164 + 164 ≤ i) → t'[i]? = t[i]?) := by
    intro y hy t htl
    obtain ⟨t', ht', hP⟩ := forLoop_invariant
      (fun x g =>
        let sx := X_LEFT + x
        let sy := Y_TOP + y
        match fb.buf[sy * fb.width + sx]? with
        | none => none
        | some v => writeAt g (y * CROP_W + x) v)
      (fun k u => u.length = 164 * 164 ∧
        (∀ x, x < k → u[y * 164 + x]? = fb.buf[(28 + y) * fb.width + (68 + x)]?) ∧
        (∀ i, (i < y * 164 ∨ y * 164 + 164 ≤ i) → u[i]? = t[i]?))
      0 CROP_W t (Nat.zero_le _)
      ⟨htl, fun _ h => absurd h (Nat.not_lt_zero _), fun _ _ => rfl⟩
      (by
        rintro x u _ hx ⟨hul, hdone, hrest⟩
        rw [hW] at hx
        have hsrc : (28 + y) * fb.width + (68 + x) < fb.buf.length := by
          rw [hbuf]
          exact grid_index_lt fb.width fb.height _ _ (by omega) (by omega)
        have hrun : (match fb.buf[(Y_TOP + y) * fb.width + (X_LEFT + x)]? with
            | none => none
            | some v => writeAt u (y * CROP_W + x) v) =
            some (u.set (y * 164 + x) fb.buf[(28 + y) * fb.width + (68 + x)]) := by
          simp only [hYT, hXL, hW, List.getElem?_eq_getElem hsrc]
          exact writeAt_spec _ _ _ (by omega)
        refine ⟨_, hrun, by simpa using hul, ?_, ?_⟩
        · intro x' hx'
          rw [List.getElem?_set]
          by_cases h : x' = x
          · subst h
            rw [if_pos rfl, if_pos (by omega), List.getElem?_eq_getElem hsrc]
          · rw [if_neg (by omega)]; exact hdone x' (by omega)
        · intro i hi
          rw [List.getElem?_set, if_neg (by omega)]; exact hrest i hi)
    rw [hW] at hP
    exact ⟨t', ht', hP⟩
  obtain ⟨t, ht, hP⟩ := forLoop_invariant
    (fun y cg => forLoop 0 CROP_W
      (fun x g =>
        let sx := X_LEFT + x
        let sy := Y_TOP + y
        match fb.buf[sy * fb.width + sx]? with
        | none => none
        | some v => writeAt g (y * CROP_W + x) v)
      cg)
    (fun k u => u.length = 164 * 164 ∧
      ∀ y x, y < k → x < 164 → u[y * 164 + x]? = fb.buf[(28 + y) * fb.width + (68 + x)]?)
    0 CROP_H cropped (Nat.zero_le _) ⟨hlen, fun _ _ h => absurd h (Nat.not_lt_zero _)⟩
    (by
      rintro y u _ hy ⟨hul, hdone⟩
      rw [hH] at hy
      obtain ⟨t', ht', hl', hrow, hother⟩ := hinner y hy u hul
      refine ⟨t', ht', hl', ?_⟩
      intro y' x hy' hx
      by_cases h : y' = y
      · subst h; exact hrow x hx
      · rw [hother _ (Or.inl (by omega))]; exact hdone y' x (by omega) hx)
  refine ⟨t, ht, by rw [hW, hH]; exact hP.1, ?_⟩
  intro y x hy hx
  rw [hW] at hx ⊢
  rw [hYT, hXL]
  exact hP.2 y x hy hx

/-- The function `preprocess_cell_to_28x28` returns on every cell that fits its
buffer, and keeps the size of the output buffer. -/
theorem preprocess_total (cell_in : List Nat) (cell_w cell_h : Nat) (cell_out : List Nat)
    (hlen : cell_w * cell_h ≤ cell_in.length) (hout : 784 ≤ cell_out.length) :
    ∃ out, preprocess_cell_to_28x28 cell_in cell_w cell_h cell_out = some out ∧
      out.length = cell_out.length := by
  obtain ⟨⟨mn, mx⟩, hscan, hzero⟩ := scan_total cell_in (cell_w * cell_h) hlen
  by_cases hr : (mx : Int) - (mn : Int) < 30
  · obtain ⟨out, hm, hl, _⟩ := memset_spec cell_out 0 (28 * 28) (by omega)
    exact ⟨out, by simp only [preprocess_cell_to_28x28, hscan, hr, if_true, hm], hl⟩
  · have hpos : 0 < cell_w * cell_h := by
      rcases Nat.eq_zero_or_pos (cell_w * cell_h) with h0 | h0
      · have := hzero h0
        simp only [Prod.mk.injEq] at this
        obtain ⟨h1, h2⟩ := this
        subst h1 h2
        exact absurd (by norm_num) hr
      · exact h0
    obtain ⟨out, ho, hl, _⟩ := stretchLoops_spec cell_in cell_w cell_h mn ((mx : Int) - (mn : Int))
      cell_out (Nat.pos_of_mul_pos_right hpos) (Nat.pos_of_mul_pos_left hpos) hlen (by omega) hout
    exact ⟨out, by simp only [preprocess_cell_to_28x28, hscan, hr, if_false, ho], hl⟩

/-- One iteration of the cell loops on well-sized buffers: either inference
succeeds, the label is stored at `preds[GRID_SIZE - 1 - r][c]` and the loop
goes on, or inference fails, the frame is returned and `loop` returns with
`preds` untouched. -/
theorem cellBody_spec {σ : Type} (nn : NeuralNetwork σ) (r c : Nat) (st : State σ) (hr : r < 4)
    (hc : c < 4) (hws : WellSized nn st) :
    (∃ st' pred, cellBody nn r c st = some (Flow.next st') ∧ WellSized nn st' ∧
      st'.ran_once = st.ran_once ∧ st'.preds = setGrid st.preds (GRID_SIZE - 1 - r) c pred ∧
      st'.log = st.log ++ [Event.prepare r c, Event.infer r c true,
        Event.store r c (GRID_SIZE - 1 - r) c pred]) ∨
    (∃ st' s, cellBody nn r c st = some (Flow.ret st') ∧ (nn.predict s).1 = false ∧
      st'.ran_once = st.ran_once ∧ st'.preds = st.preds ∧
      st'.log = st.log ++ [Event.prepare r c, Event.infer r c false, Event.fbReturn]) := by
  obtain ⟨hcg, hraw, h28, hnn⟩ := hws
  have hcell : (CROP_W / 4) * (CROP_H / 4) = 1681 := rfl
  obtain ⟨raw, h1, hrawl, _⟩ := extract_cell_spec st.cropped_gray CROP_W CROP_H r c st.cell_raw
    (le_of_eq hcg.symm) hr hc (by rw [hcell, hraw]; decide)
  obtain ⟨pre, h2, hprel⟩ := preprocess_total raw (CROP_W / 4) (CROP_H / 4) st.cell28
    (by rw [hcell, hrawl, hraw]; decide) (by rw [h28])
  obtain ⟨c28, h3, hc28l, _⟩ := flip_vertical_spec pre 28 28 (by rw [hprel, h28])
  obtain ⟨q, h4, _⟩ := normalize_spec c28 (nn.getInput st.nn).data (28 * 28)
    (nn.getInput st.nn).zero_point (nn.getInput st.nn).scale (by rw [hc28l, hprel, h28])
    (hnn st.nn)
  rcases hp : nn.predict (nn.setInputData st.nn q) with ⟨ok, s2⟩
  cases ok
  · have hrun : cellBody nn r c st = some (Flow.ret
        { st with
          cell_raw := raw, cell28 := c28, nn := s2,
          log := st.log ++ [Event.prepare r c, Event.infer r c false, Event.fbReturn] }) := by
      simp only [cellBody, h1, h2, h3, h4, hp]
    exact Or.inr ⟨_, nn.setInputData st.nn q, hrun, by rw [hp], rfl, rfl, rfl⟩
  · have hwg : writeGrid st.preds (GRID_SIZE - 1 - r) c (nn.getPredictedClass s2) =
        some (setGrid st.preds (GRID_SIZE - 1 - r) c (nn.getPredictedClass s2)) := by
      have : GRID_SIZE - 1 - r < 4 ∧ c < 4 := ⟨by simp only [GRID_SIZE]; omega, hc⟩
      simp only [writeGrid, this, and_self, if_true]
    have hrun : cellBody nn r c st = some (Flow.next
        { st with
          preds := setGrid st.preds (GRID_SIZE - 1 - r) c (nn.getPredictedClass s2),
          cell_raw := raw, cell28 := c28, nn := s2,
          log := st.log ++ [Event.prepare r c, Event.infer r c true,
            Event.store r c (GRID_SIZE - 1 - r) c (nn.getPredictedClass s2)] }) := by
      simp only [cellBody, h1, h2, h3, h4, hp, hwg]
    refine Or.inl ⟨_, nn.getPredictedClass s2, hrun, ?_, rfl, rfl, rfl⟩
    exact ⟨hcg, by rw [hrawl, hraw], by rw [hc28l, hprel, h28], hnn⟩

theorem cellEvents_congr (l1 l2 : Nat → Int) (n : Nat) (h : ∀ k, k < n → l1 k = l2 k) :
    cellEvents l1 n = cellEvents l2 n := by
  induction n with
  | zero => rfl
  | succ n ih =>
    simp only [cellEvents]
    rw [ih (fun k hk => h k (by omega)), h n (by omega)]

theorem storedGrid_congr (g : Nat → Nat → Int) (l1 l2 : Nat → Int) (n : Nat)
    (h : ∀ k, k < n → l1 k = l2 k) : storedGrid g l1 n = storedGrid g l2 n := by
  induction n with
  | zero => rfl
  | succ n ih =>
    simp only [storedGrid]
    rw [ih (fun k hk => h k (by omega)), h n (by omega)]

/-- The state of the cell loops after `n` successful cells. -/
theorem cells_step {σ : Type} (nn : NeuralNetwork σ) (log0 : List Event) (g0 : Nat → Nat → Int)
    (r c : Nat) (t : State σ) (hr : r < 4) (hc : c < 4)
    (hP : WellSized nn t ∧ t.ran_once = true ∧ ∃ labels : Nat → Int,
      t.log = log0 ++ cellEvents labels (4 * r + c) ∧
      t.preds = storedGrid g0 labels (4 * r + c)) :
    (∃ t', cellBody nn r c t = some (Flow.next t') ∧
      (WellSized nn t' ∧ t'.ran_once = true ∧ ∃ labels : Nat → Int,
        t'.log = log0 ++ cellEvents labels (4 * r + (c + 1)) ∧
        t'.preds = storedGrid g0 labels (4 * r + (c + 1)))) ∨
    (∃ t', cellBody nn r c t = some (Flow.ret t') ∧
      (t'.ran_once = true ∧ ∃ (labels : Nat → Int) (k : Nat) (s : σ), k < 16 ∧
        (nn.predict s).1 = false ∧
        t'.log = log0 ++ cellEvents labels k ++
          [Event.prepare (k / 4) (k % 4), Event.infer (k / 4) (k % 4) false, Event.fbReturn] ∧
        t'.preds = storedGrid g0 labels k)) := by
  obtain ⟨hws, hran, labels, hlog, hpreds⟩ := hP
  have e1 : (4 * r + c) / 4 = r := by omega
  have e2 : (4 * r + c) % 4 = c := by omega
  rcases cellBody_spec nn r c t hr hc hws with
    ⟨t', pred, hrun, hws', hran', hpreds', hlog'⟩ | ⟨t', s, hrun, hfail, hran', hpreds', hlog'⟩
  · refine Or.inl ⟨t', hrun, hws', by rw [hran', hran],
      Function.update labels (4 * r + c) pred, ?_, ?_⟩
    · have hc1 : cellEvents (Function.update labels (4 * r + c) pred) (4 * r + c) =
          cellEvents labels (4 * r + c) :=
        cellEvents_congr _ _ _ (fun k hk => Function.update_noteq (by omega) _ _)
      have : 4 * r + (c + 1) = (4 * r + c) + 1 := by omega
      rw [this, cellEvents, hc1, e1, e2, Function.update_same, hlog', hlog, List.append_assoc]
    · have hc1 : storedGrid g0 (Function.update labels (4 * r + c) pred) (4 * r + c) =
          storedGrid g0 labels (4 * r + c) :=
        storedGrid_congr _ _ _ _ (fun k hk => Function.update_noteq (by omega) _ _)
      have : 4 * r + (c + 1) = (4 * r + c) + 1 := by omega
      rw [this, storedGrid, hc1, e1, e2, Function.update_same, hpreds', hpreds]
  · refine Or.inr ⟨t', hrun, by rw [hran', hran], labels, 4 * r + c, s, by omega, hfail, ?_, ?_⟩
    · rw [e1, e2, hlog', hlog]
    · rw [hpreds', hpreds]

/-- The activation of `loop` on an acquired frame that contains the crop
rectangle, from well-sized buffers: it returns, either after 16 successful
cells, or at the first cell `k` whose inference fails. The log and `preds` are
given in both cases. -/
theorem loop_run_spec {σ : Type} (nn : NeuralNetwork σ) (fb : Frame) (st : State σ)
    (hran : st.ran_once = false) (hfb : FrameOk fb) (hws : WellSized nn st) :
    ∃ st', loop nn (some fb) st = some st' ∧ st'.ran_once = true ∧
      ((∃ labels : Nat → Int,
          st'.log = st.log ++ [Event.fbGet true, Event.frameRead] ++ cellEvents labels 16 ++
            [Event.frameRead, Event.fbReturn] ∧
          st'.preds = storedGrid st.preds labels 16) ∨
       (∃ (labels : Nat → Int) (k : Nat) (s : σ), k < 16 ∧ (nn.predict s).1 = false ∧
          st'.log = st.log ++ [Event.fbGet true, Event.frameRead] ++ cellEvents labels k ++
            [Event.prepare (k / 4) (k % 4), Event.infer (k / 4) (k % 4) false,
              Event.fbReturn] ∧
          st'.preds = storedGrid st.preds labels k)) := by
  obtain ⟨cg, hcrop, hcgl, _⟩ := cropBoard_spec fb st.cropped_gray hfb hws.1
  have hinner : ∀ r, r < 4 → ∀ t : State σ,
      (WellSized nn t ∧ t.ran_once = true ∧ ∃ labels : Nat → Int,
        t.log = (st.log ++ [Event.fbGet true, Event.frameRead]) ++ cellEvents labels (4 * r) ∧
        t.preds = storedGrid st.preds labels (4 * r)) →
      (∃ t', forLoopR 0 GRID_SIZE (fun c u => cellBody nn r c u) t = some (Flow.next t') ∧
        (WellSized nn t' ∧ t'.ran_once = true ∧ ∃ labels : Nat → Int,
          t'.log = (st.log ++ [Event.fbGet true, Event.frameRead]) ++
            cellEvents labels (4 * (r + 1)) ∧
          t'.preds = storedGrid st.preds labels (4 * (r + 1)))) ∨
      (∃ t', forLoopR 0 GRID_SIZE (fun c u => cellBody nn r c u) t = some (Flow.ret t') ∧
        (t'.ran_once = true ∧ ∃ (labels : Nat → Int) (k : Nat) (s : σ), k < 16 ∧
          (nn.predict s).1 = false ∧
          t'.log = (st.log ++ [Event.fbGet true, Event.frameRead]) ++ cellEvents labels k ++
            [Event.prepare (k / 4) (k % 4), Event.infer (k / 4) (k % 4) false,
              Event.fbReturn] ∧
          t'.preds = storedGrid st.preds labels k)) := by
    intro r hr t hP
    have := forLoopR_invariant (fun c u => cellBody nn r c u)
      (fun c u => WellSized nn u ∧ u.ran_once = true ∧ ∃ labels : Nat → Int,
        u.log = (st.log ++ [Event.fbGet true, Event.frameRead]) ++
          cellEvents labels (4 * r + c) ∧
        u.preds = storedGrid st.preds labels (4 * r + c))
      (fun u => u.ran_once = true ∧ ∃ (labels : Nat → Int) (k : Nat) (s : σ), k < 16 ∧
        (nn.predict s).1 = false ∧
        u.log = (st.log ++ [Event.fbGet true, Event.frameRead]) ++ cellEvents labels k ++
          [Event.prepare (k / 4) (k % 4), Event.infer (k / 4) (k % 4) false, Event.fbReturn] ∧
        u.preds = storedGrid st.preds labels k)
      0 GRID_SIZE t (Nat.zero_le _) hP
      (fun c u _ hc hu => cells_step nn _ st.preds r c u hr hc hu)
    exact this
  have houter := forLoopR_invariant
    (fun r s => forLoopR 0 GRID_SIZE (fun c t => cellBody nn r c t) s)
    (fun r u => WellSized nn u ∧ u.ran_once = true ∧ ∃ labels : Nat → Int,
      u.log = (st.log ++ [Event.fbGet true, Event.frameRead]) ++ cellEvents labels (4 * r) ∧
      u.preds = storedGrid st.preds labels (4 * r))
    (fun u => u.ran_once = true ∧ ∃ (labels : Nat → Int) (k : Nat) (s : σ), k < 16 ∧
      (nn.predict s).1 = false ∧
      u.log = (st.log ++ [Event.fbGet true, Event.frameRead]) ++ cellEvents labels k ++
        [Event.prepare (k / 4) (k % 4), Event.infer (k / 4) (k % 4) false, Event.fbReturn] ∧
      u.preds = storedGrid st.preds labels k)
    0 GRID_SIZE
    { st with
      ran_once := true, cropped_gray := cg,
      log := st.log ++ [Event.fbGet true, Event.frameRead] }
    (Nat.zero_le _)
    ⟨⟨hcgl, hws.2.1, hws.2.2.1, hws.2.2.2⟩, rfl, fun _ => 0, by simp [cellEvents], rfl⟩
    (fun r u _ hr hu => hinner r hr u hu)
  rcases houter with ⟨t, ht, _, hran', labels, hlog, hpreds⟩ | ⟨t, ht, hran', hQ⟩
  · refine ⟨{ t with log := t.log ++ [Event.frameRead, Event.fbReturn] }, ?_, hran',
      Or.inl ⟨labels, ?_, hpreds⟩⟩
    · simp only [loop, hran, hcrop, ht]
      rfl
    · show t.log ++ [Event.frameRead, Event.fbReturn] = _
      rw [hlog]
      rfl
  · refine ⟨t, ?_, hran', Or.inr hQ⟩
    simp only [loop, hran, hcrop, ht]
    rfl

theorem store_mem_cellEvents (labels : Nat → Int) (n r c row col : Nat) (p : Int) :
    Event.store r c row col p ∈ cellEvents labels n ↔
      ∃ k, k < n ∧ r = k / 4 ∧ c = k % 4 ∧ row = GRID_SIZE - 1 - k / 4 ∧ col = k % 4 ∧
        p = labels k := by
  induction n with
  | zero => simp [cellEvents]
  | succ n ih =>
    simp only [cellEvents, List.mem_append, ih, List.mem_cons, List.mem_singleton,
      Event.store.injEq, List.not_mem_nil, or_false, false_or, reduceCtorEq]
    constructor
    · rintro (⟨k, hk, h⟩ | h)
      · exact ⟨k, by omega, h⟩
      · exact ⟨n, by omega, h⟩
    · rintro ⟨k, hk, h⟩
      rcases Nat.lt_succ_iff_lt_or_eq.mp hk with h1 | h1
      · exact Or.inl ⟨k, h1, h⟩
      · subst h1; exact Or.inr h

theorem infer_false_not_mem_cellEvents (labels : Nat → Int) (n r c : Nat) :
    Event.infer r c false ∉ cellEvents labels n := by
  induction n with
  | zero => simp [cellEvents]
  | succ n ih => simp [cellEvents, ih]

theorem storeCount_cellEvents (labels : Nat → Int) (n i j : Nat) :
    ((cellEvents labels n).filter (Event.isStoreAt i j)).length =
      ((List.range n).filter (fun k => decide (GRID_SIZE - 1 - k / 4 = i ∧ k % 4 = j))).length := by
  induction n with
  | zero => rfl
  | succ n ih =>
    simp only [cellEvents, List.filter_append, List.length_append, ih, List.range_succ]
    congr 1
    simp only [List.filter_cons, List.filter_nil, Event.isStoreAt]
    split_ifs <;> simp_all

theorem storedGrid_full (g : Nat → Nat → Int) (labels : Nat → Int) (r c : Nat) (hr : r < 4)
    (hc : c < 4) : storedGrid g labels 16 (GRID_SIZE - 1 - r) c = labels (4 * r + c) := by
  simp only [storedGrid, setGrid, GRID_SIZE]
  interval_cases r <;> interval_cases c <;> simp

/-! ## Claims on `preprocess_cell_to_28x28` -/

/-- C1: for a cell (of any width and height, the empty cell included) in which
every two pixels differ by less than 30, i.e. `max - min < 30`, the function
returns with all 784 bytes of the 28x28 output equal to 0; a cell whose spread
`max - min` is 30 (or more) is not blanked: the function returns what the
stretch-and-average loops compute with the true minimum and range. -/
theorem preprocess_low_contrast_blank (cell_in : List Nat) (cell_w cell_h : Nat)
    (cell_out : List Nat) (hlen : cell_w * cell_h ≤ cell_in.length) (hb : IsBytes cell_in)
    (hout : 784 ≤ cell_out.length) :
    ((∀ a ∈ cellPixels cell_in cell_w cell_h, ∀ b ∈ cellPixels cell_in cell_w cell_h, b < a + 30) →
      ∃ out, preprocess_cell_to_28x28 cell_in cell_w cell_h cell_out = some out ∧
        out.length = cell_out.length ∧ ∀ i, i < 784 → out[i]? = some 0) ∧
    (∀ mn mx, IsMinOf (cellPixels cell_in cell_w cell_h) mn →
      IsMaxOf (cellPixels cell_in cell_w cell_h) mx → mn + 30 ≤ mx →
      ∃ out, preprocess_cell_to_28x28 cell_in cell_w cell_h cell_out = some out ∧
        stretchLoops cell_in cell_w cell_h mn ((mx : Int) - (mn : Int)) cell_out = some out) := by
  obtain ⟨hblank, hstretch⟩ := preprocess_branch cell_in cell_w cell_h cell_out hlen hb
  constructor
  · intro hpair
    obtain ⟨out, hm, hl, hz, _⟩ := memset_spec cell_out 0 (28 * 28) (by omega)
    exact ⟨out, by rw [hblank hpair, hm], hl, fun i hi => hz i (by omega)⟩
  · intro mn mx hmin hmax hge
    obtain ⟨hw, hh⟩ := cellPixels_pos_of_mem hmin.1
    obtain ⟨out, ho, _⟩ := stretchLoops_spec cell_in cell_w cell_h mn ((mx : Int) - (mn : Int))
      cell_out hw hh hlen (by omega) hout
    exact ⟨out, by rw [hstretch mn mx hmin hmax hge, ho], ho⟩

/-- Witness of C1: a 2x1 cell of spread 29 is blanked, a 2x1 cell of spread 30
goes through the stretch loops. -/
theorem preprocess_low_contrast_blank_witness :
    (2 * 1 ≤ [10, 39].length ∧ IsBytes [10, 39] ∧ 784 ≤ (List.replicate 784 7).length) ∧
    (∃ out, preprocess_cell_to_28x28 [10, 39] 2 1 (List.replicate 784 7) = some out ∧
        out.length = (List.replicate 784 7).length ∧ ∀ i, i < 784 → out[i]? = some 0) ∧
    (∃ out, preprocess_cell_to_28x28 [10, 40] 2 1 (List.replicate 784 7) = some out ∧
        stretchLoops [10, 40] 2 1 10 ((40 : Int) - (10 : Int)) (List.replicate 784 7) = some out) := by
  have hb1 : IsBytes [10, 39] := by unfold IsBytes; decide
  have hb2 : IsBytes [10, 40] := by unfold IsBytes; decide
  have hl : 784 ≤ (List.replicate 784 7).length := by rw [List.length_replicate]
  refine ⟨⟨by decide, hb1, hl⟩, ?_, ?_⟩
  · exact (preprocess_low_contrast_blank [10, 39] 2 1 (List.replicate 784 7) (by decide) hb1 hl).1
      (by unfold cellPixels; decide)
  · exact (preprocess_low_contrast_blank [10, 40] 2 1 (List.replicate 784 7) (by decide) hb2 hl).2
      10 40 (by unfold IsMinOf cellPixels; decide) (by unfold IsMaxOf cellPixels; decide)
      (by decide)

/-- C2: for a cell with `cell_w, cell_h ≥ 1` whose least pixel `mn` and greatest
pixel `mx` satisfy `mx - mn ≥ 30`, the function returns and each output pixel
`(ox, oy)` is the truncating integer average over the bucket
`[x0, x1) × [y0, y1)` of the stretched values
`clamp((v - mn) * 255 / (mx - mn), 0, 255)` (stretch first, then average),
with the bucket bounds of `specPixel`. -/
theorem preprocess_stretch_then_average (cell_in : List Nat) (cell_w cell_h : Nat)
    (cell_out : List Nat) (mn mx : Nat) (hw : 1 ≤ cell_w) (hh : 1 ≤ cell_h)
    (hlen : cell_w * cell_h ≤ cell_in.length) (hb : IsBytes cell_in)
    (hout : 784 ≤ cell_out.length)
    (hmin : IsMinOf (cellPixels cell_in cell_w cell_h) mn)
    (hmax : IsMaxOf (cellPixels cell_in cell_w cell_h) mx) (hge : mn + 30 ≤ mx) :
    ∃ out, preprocess_cell_to_28x28 cell_in cell_w cell_h cell_out = some out ∧
      out.length = cell_out.length ∧
      ∀ ox oy, ox < 28 → oy < 28 →
        ∃ p : Nat, out[oy * 28 + ox]? = some p ∧
          (p : Int) = specPixel cell_in cell_w cell_h mn mx ox oy := by
  obtain ⟨out, ho, hl, hpix, _⟩ := stretchLoops_spec cell_in cell_w cell_h mn
    ((mx : Int) - (mn : Int)) cell_out hw hh hlen (by omega) hout
  refine ⟨out, ?_, hl, ?_⟩
  · rw [(preprocess_branch cell_in cell_w cell_h cell_out hlen hb).2 mn mx hmin hmax hge, ho]
  · intro ox oy hox hoy
    exact ⟨_, hpix oy ox hoy hox,
      bucketMean_eq_specPixel cell_in cell_w cell_h mn mx oy ox hlen hmin hge hoy hox⟩

/-- Witness of C2 on a 2x2 ramp cell with minimum 0 and maximum 90. -/
theorem preprocess_stretch_then_average_witness :
    (1 ≤ 2 ∧ 1 ≤ 2 ∧ 2 * 2 ≤ [0, 30, 60, 90].length ∧ IsBytes [0, 30, 60, 90] ∧
      784 ≤ (List.replicate 784 0).length ∧ IsMinOf (cellPixels [0, 30, 60, 90] 2 2) 0 ∧
      IsMaxOf (cellPixels [0, 30, 60, 90] 2 2) 90 ∧ 0 + 30 ≤ 90) ∧
    ∃ out, preprocess_cell_to_28x28 [0, 30, 60, 90] 2 2 (List.replicate 784 0) = some out ∧
      out.length = (List.replicate 784 0).length ∧
      ∀ ox oy, ox < 28 → oy < 28 →
        ∃ p : Nat, out[oy * 28 + ox]? = some p ∧
          (p : Int) = specPixel [0, 30, 60, 90] 2 2 0 90 ox oy := by
  have hb : IsBytes [0, 30, 60, 90] := by unfold IsBytes; decide
  have hl : 784 ≤ (List.replicate 784 0).length := by rw [List.length_replicate]
  have hmin : IsMinOf (cellPixels [0, 30, 60, 90] 2 2) 0 := by
    unfold IsMinOf cellPixels; decide
  have hmax : IsMaxOf (cellPixels [0, 30, 60, 90] 2 2) 90 := by
    unfold IsMaxOf cellPixels; decide
  exact ⟨⟨by decide, by decide, by decide, hb, hl, hmin, hmax, by decide⟩,
    preprocess_stretch_then_average [0, 30, 60, 90] 2 2 (List.replicate 784 0) 0 90
      (by decide) (by decide) (by decide) hb hl hmin hmax (by decide)⟩

/-- C3: on a buffer holding at least `cell_w * cell_h` bytes (any
`cell_w, cell_h ≥ 0`) and an output of at least 784 bytes the function never
fails: it returns a result, and whenever the scan leaves a range that reaches
the stretch branch, the range is not zero and every bucket satisfies
`x0 < x1 ≤ cell_w`, `y0 < y1 ≤ cell_h`, every index `y * cell_w + x` read in
the bucket is below `cell_w * cell_h`, and the accumulation loops return a
pixel count of at least 1. -/
theorem preprocess_no_failure (cell_in : List Nat) (cell_w cell_h : Nat) (cell_out : List Nat)
    (hlen : cell_w * cell_h ≤ cell_in.length) (hout : 784 ≤ cell_out.length) :
    (∃ out, preprocess_cell_to_28x28 cell_in cell_w cell_h cell_out = some out) ∧
    (∀ minv maxv, forLoop 0 (cell_w * cell_h) (scanStep cell_in) (255, 0) = some (minv, maxv) →
      ¬ ((maxv : Int) - (minv : Int) < 30) →
      (maxv : Int) - (minv : Int) ≠ 0 ∧
      ∀ ox oy, ox < 28 → oy < 28 →
        bucketStart ox cell_w < bucketEnd ox cell_w ∧ bucketEnd ox cell_w ≤ cell_w ∧
        bucketStart oy cell_h < bucketEnd oy cell_h ∧ bucketEnd oy cell_h ≤ cell_h ∧
        (∀ x y, x < bucketEnd ox cell_w → y < bucketEnd oy cell_h →
          y * cell_w + x < cell_w * cell_h) ∧
        ∃ sum count, bucketAccumulate cell_in cell_w minv ((maxv : Int) - (minv : Int))
            (bucketStart ox cell_w) (bucketEnd ox cell_w) (bucketStart oy cell_h)
            (bucketEnd oy cell_h) = some (sum, count) ∧ 1 ≤ count) := by
  obtain ⟨⟨mn, mx⟩, hscan, hzero⟩ := scan_total cell_in (cell_w * cell_h) hlen
  have hdims : ¬ ((mx : Int) - (mn : Int) < 30) → 1 ≤ cell_w ∧ 1 ≤ cell_h := by
    intro hr
    rcases Nat.eq_zero_or_pos (cell_w * cell_h) with h0 | h0
    · have := hzero h0
      simp only [Prod.mk.injEq] at this
      obtain ⟨h1, h2⟩ := this
      subst h1 h2
      exact absurd (by norm_num) hr
    · exact ⟨Nat.pos_of_mul_pos_right h0, Nat.pos_of_mul_pos_left h0⟩
  constructor
  · by_cases hr : (mx : Int) - (mn : Int) < 30
    · obtain ⟨out, hm, _⟩ := memset_spec cell_out 0 (28 * 28) (by omega)
      exact ⟨out, by simp only [preprocess_cell_to_28x28, hscan, hr, if_true, hm]⟩
    · obtain ⟨hw, hh⟩ := hdims hr
      obtain ⟨out, ho, _⟩ := stretchLoops_spec cell_in cell_w cell_h mn ((mx : Int) - (mn : Int))
        cell_out hw hh hlen (by omega) hout
      exact ⟨out, by simp only [preprocess_cell_to_28x28, hscan, hr, if_false, ho]⟩
  · intro minv maxv hs hr
    rw [hscan] at hs
    simp only [Option.some.injEq, Prod.mk.injEq] at hs
    obtain ⟨h1, h2⟩ := hs
    subst h1 h2
    obtain ⟨hw, hh⟩ := hdims hr
    refine ⟨by omega, fun ox oy hox hoy => ?_⟩
    obtain ⟨hx01, hx1⟩ := bucket_bounds ox cell_w hox hw
    obtain ⟨hy01, hy1⟩ := bucket_bounds oy cell_h hoy hh
    refine ⟨hx01, hx1, hy01, hy1,
      fun x y hx hy => bucket_index_lt cell_w cell_h _ _ x y hx hy hx1 hy1, ?_⟩
    refine ⟨_, _, bucketAccumulate_spec cell_in cell_w mn ((mx : Int) - (mn : Int)) _ _ _ _
      (le_of_lt hx01) (le_of_lt hy01) (by omega)
      (fun y x hy hx => lt_of_lt_of_le (bucket_index_lt cell_w cell_h _ _ x y hx hy hx1 hy1) hlen),
      ?_⟩
    have h1 : 0 < bucketEnd oy cell_h - bucketStart oy cell_h := by omega
    have h2 : 0 < bucketEnd ox cell_w - bucketStart ox cell_w := by omega
    exact_mod_cast Nat.mul_pos h1 h2

/-- Witness of C3 on a 2x2 cell whose range reaches the stretch branch. -/
theorem preprocess_no_failure_witness :
    (2 * 2 ≤ [0, 30, 60, 90].length ∧ 784 ≤ (List.replicate 784 0).length) ∧
    (∃ out, preprocess_cell_to_28x28 [0, 30, 60, 90] 2 2 (List.replicate 784 0) = some out) ∧
    (∀ minv maxv, forLoop 0 (2 * 2) (scanStep [0, 30, 60, 90]) (255, 0) = some (minv, maxv) →
      ¬ ((maxv : Int) - (minv : Int) < 30) →
      (maxv : Int) - (minv : Int) ≠ 0 ∧
      ∀ ox oy, ox < 28 → oy < 28 →
        bucketStart ox 2 < bucketEnd ox 2 ∧ bucketEnd ox 2 ≤ 2 ∧
        bucketStart oy 2 < bucketEnd oy 2 ∧ bucketEnd oy 2 ≤ 2 ∧
        (∀ x y, x < bucketEnd ox 2 → y < bucketEnd oy 2 → y * 2 + x < 2 * 2) ∧
        ∃ sum count, bucketAccumulate [0, 30, 60, 90] 2 minv ((maxv : Int) - (minv : Int))
            (bucketStart ox 2) (bucketEnd ox 2) (bucketStart oy 2)
            (bucketEnd oy 2) = some (sum, count) ∧ 1 ≤ count) :=
  ⟨⟨by decide, by rw [List.length_replicate]⟩,
    preprocess_no_failure [0, 30, 60, 90] 2 2 (List.replicate 784 0) (by decide)
      (by rw [List.length_replicate])⟩

/-! ## Claims on `flip_vertical` -/

/-- C4: applied twice to a buffer holding `w * h` bytes (any `w, h ≥ 0`, odd
`h` included), `flip_vertical` returns both times and the second result is the
original buffer. -/
theorem flip_vertical_involutive (img : List Nat) (w h : Nat) (hlen : w * h ≤ img.length) :
    ∃ out, flip_vertical img w h = some out ∧ flip_vertical out w h = some img := by
  obtain ⟨out, ho, hl, hflip, hrest⟩ := flip_vertical_spec img w h hlen
  obtain ⟨out2, ho2, hl2, hflip2, hrest2⟩ := flip_vertical_spec out w h (by omega)
  refine ⟨out, ho, ?_⟩
  rw [ho2]
  congr 1
  apply List.ext_getElem?
  intro n
  by_cases hn : n < w * h
  · have hw : 0 < w := Nat.pos_of_mul_pos_right (by omega : 0 < w * h)
    obtain ⟨r, c, hr, hc, hn'⟩ : ∃ r c, r < h ∧ c < w ∧ r * w + c = n :=
      ⟨n / w, n % w, Nat.div_lt_of_lt_mul hn, Nat.mod_lt _ hw, Nat.div_add_mod' n w⟩
    have hr' : h - 1 - r < h := by omega
    have e : h - 1 - (h - 1 - r) = r := by omega
    rw [← hn', hflip2 _ _ hr hc, hflip _ _ hr' hc, e]
  · rw [hrest2 n (by omega), hrest n (by omega)]

/-- Witness of C4 on a 2x3 image (odd height). -/
theorem flip_vertical_involutive_witness :
    2 * 3 ≤ [1, 2, 3, 4, 5, 6].length ∧
    ∃ out, flip_vertical [1, 2, 3, 4, 5, 6] 2 3 = some out ∧
      flip_vertical out 2 3 = some [1, 2, 3, 4, 5, 6] :=
  ⟨by decide, flip_vertical_involutive [1, 2, 3, 4, 5, 6] 2 3 (by decide)⟩

/-- C5: on a buffer holding `w * h` bytes (any `w, h ≥ 0`) `flip_vertical`
returns, and the byte of the result at row `y`, column `x` is the byte of the
input at row `h - 1 - y`, same column `x`: rows are reversed, the order inside
a row is kept. For `w = h = 28` this is row `i` ↦ row `27 - i`. -/
theorem flip_vertical_reverses_rows (img : List Nat) (w h : Nat) (hlen : w * h ≤ img.length) :
    ∃ out, flip_vertical img w h = some out ∧ out.length = img.length ∧
      ∀ y x, y < h → x < w →
        ∃ v, out[y * w + x]? = some v ∧ img[(h - 1 - y) * w + x]? = some v := by
  obtain ⟨out, ho, hl, hflip, _⟩ := flip_vertical_spec img w h hlen
  refine ⟨out, ho, hl, fun y x hy hx => ?_⟩
  have hlt : (h - 1 - y) * w + x < img.length :=
    lt_of_lt_of_le (grid_index_lt w h (h - 1 - y) x (by omega) hx) hlen
  exact ⟨img[(h - 1 - y) * w + x], by rw [hflip y x hy hx, List.getElem?_eq_getElem hlt],
    List.getElem?_eq_getElem hlt⟩

/-- Witness of C5 on a 28x28 canonical cell: row `i` of the result is row
`27 - i` of the input. -/
theorem flip_vertical_reverses_rows_witness :
    28 * 28 ≤ (List.range 784).length ∧
    ∃ out, flip_vertical (List.range 784) 28 28 = some out ∧
      out.length = (List.range 784).length ∧
      ∀ y x, y < 28 → x < 28 →
        ∃ v, out[y * 28 + x]? = some v ∧ (List.range 784)[(28 - 1 - y) * 28 + x]? = some v :=
  ⟨by rw [List.length_range], flip_vertical_reverses_rows (List.range 784) 28 28
    (by rw [List.length_range])⟩

/-! ## Claims on `normalize_uint8_to_int8` -/

/-- C6: for input bytes in `[0, 255]`, `scale > 0` and `zero_point` in
`[-128, 127]`, the quantizer returns and the value it writes for the input byte
`v` is `clamp(round(v / 255 / scale) + zero_point, -128, 127)`, which lies in
`[-128, 127]`, so that the conversion to `int8_t` leaves it unchanged. -/
theorem quantizer_output_in_range (inp : List Nat) (out : List Int) (n : Nat) (zero_point : Int)
    (scale : ℚ) (hn : n ≤ inp.length) (hcap : n ≤ out.length) (hb : IsBytes inp)
    (_hs : 0 < scale) (_hz : -128 ≤ zero_point ∧ zero_point ≤ 127) :
    ∃ out', normalize_uint8_to_int8 inp out n zero_point scale = some out' ∧
      ∀ i, i < n → ∃ v, inp[i]? = some v ∧ v ≤ 255 ∧
        out'[i]? = some (quantizeClamped v zero_point scale) ∧
        toInt8 (quantizeClamped v zero_point scale) = quantizeClamped v zero_point scale ∧
        -128 ≤ quantizeClamped v zero_point scale ∧ quantizeClamped v zero_point scale ≤ 127 := by
  obtain ⟨out', ho, _, hq, _⟩ := normalize_spec inp out n zero_point scale hn hcap
  refine ⟨out', ho, fun i hi => ?_⟩
  obtain ⟨v, hv, hw⟩ := hq i hi
  have hv255 : v ≤ 255 := Nat.lt_succ_iff.mp (hb v (List.mem_iff_getElem?.mpr ⟨i, hv⟩))
  have hbounds := quantizeClamped_bounds v zero_point scale
  exact ⟨v, hv, hv255, by rw [hw, quantize_eq_clamped],
    toInt8_of_bounds _ hbounds.1 hbounds.2, hbounds.1, hbounds.2⟩

/-- Witness of C6 with the usual parameters `scale = 1/255`, `zero_point = -128`. -/
theorem quantizer_output_in_range_witness :
    (3 ≤ [0, 128, 255].length ∧ 3 ≤ [(0 : Int), 0, 0].length ∧ IsBytes [0, 128, 255] ∧
      (0 : ℚ) < 1 / 255 ∧ ((-128 : Int) ≤ -128 ∧ (-128 : Int) ≤ 127)) ∧
    ∃ out', normalize_uint8_to_int8 [0, 128, 255] [0, 0, 0] 3 (-128) (1 / 255) = some out' ∧
      ∀ i, i < 3 → ∃ v, [0, 128, 255][i]? = some v ∧ v ≤ 255 ∧
        out'[i]? = some (quantizeClamped v (-128) (1 / 255)) ∧
        toInt8 (quantizeClamped v (-128) (1 / 255)) = quantizeClamped v (-128) (1 / 255) ∧
        -128 ≤ quantizeClamped v (-128) (1 / 255) ∧ quantizeClamped v (-128) (1 / 255) ≤ 127 := by
  have hb : IsBytes [0, 128, 255] := by unfold IsBytes; decide
  exact ⟨⟨by decide, by decide, hb, by norm_num, by decide⟩,
    quantizer_output_in_range [0, 128, 255] [0, 0, 0] 3 (-128) (1 / 255) (by decide) (by decide)
      hb (by norm_num) (by decide)⟩

/-- A flat index below `w * h` splits into a row below `h` and a column below `w`. -/
theorem flat_index_split (w h n : Nat) (hn : n < w * h) :
    ∃ r c, r < h ∧ c < w ∧ r * w + c = n := by
  have hw : 0 < w := Nat.pos_of_mul_pos_right (by omega : 0 < w * h)
  exact ⟨n / w, n % w, Nat.div_lt_of_lt_mul hn, Nat.mod_lt _ hw, Nat.div_add_mod' n w⟩

/-- C9: for a board of `board_w * board_h` bytes and `row, col < 4`,
`extract_cell` returns `cell_w = board_w / 4`, `cell_h = board_h / 4` (floor
division) and a pixel-for-pixel copy:
`cell_out[y * cell_w + x] = board[(row * cell_h + y) * board_w + (col * cell_w + x)]`,
every read index being inside the board; the result does not depend on the
board bytes in the remainder columns `≥ 4 * cell_w` and rows `≥ 4 * cell_h`,
which are never read. -/
theorem extract_cell_copies_subrectangle (board : List Nat) (board_w board_h row col : Nat)
    (cell_out : List Nat) (hlen : board.length = board_w * board_h) (hrow : row < GRID_SIZE)
    (hcol : col < GRID_SIZE) (hcap : (board_w / 4) * (board_h / 4) ≤ cell_out.length) :
    ∃ out, extract_cell board board_w board_h row col cell_out =
        some (out, board_w / 4, board_h / 4) ∧
      (∀ x y, x < board_w / 4 → y < board_h / 4 →
        (row * (board_h / 4) + y) * board_w + (col * (board_w / 4) + x) < board.length ∧
        ∃ v, out[y * (board_w / 4) + x]? = some v ∧
          board[(row * (board_h / 4) + y) * board_w + (col * (board_w / 4) + x)]? = some v) ∧
      (∀ board' : List Nat, board'.length = board.length →
        (∀ px py, px < 4 * (board_w / 4) → py < 4 * (board_h / 4) →
          board'[py * board_w + px]? = board[py * board_w + px]?) →
        extract_cell board' board_w board_h row col cell_out =
          some (out, board_w / 4, board_h / 4)) := by
  have hrow' : row < 4 := hrow
  have hcol' : col < 4 := hcol
  obtain ⟨out, hrun, hl, hcopy, hrest⟩ := extract_cell_spec board board_w board_h row col cell_out
    (le_of_eq hlen.symm) hrow' hcol' hcap
  refine ⟨out, hrun, ?_, ?_⟩
  · intro x y hx hy
    obtain ⟨_, _, hsrc⟩ := cell_source_lt board_w board_h row col x y hrow' hcol' hx hy
    have hsrcI : (row * (board_h / 4) + y) * board_w + (col * (board_w / 4) + x) < board.length := by
      omega
    exact ⟨hsrcI, _, by rw [hcopy y x hy hx, List.getElem?_eq_getElem hsrcI],
      List.getElem?_eq_getElem hsrcI⟩
  · intro board' hlen' hagree
    obtain ⟨out', hrun', hl', hcopy', hrest'⟩ := extract_cell_spec board' board_w board_h row col
      cell_out (by omega) hrow' hcol' hcap
    have : out' = out := by
      apply List.ext_getElem?
      intro n
      by_cases hn : n < (board_w / 4) * (board_h / 4)
      · obtain ⟨y, x, hy, hx, e⟩ := flat_index_split _ _ n hn
        obtain ⟨h1, h2, _⟩ := cell_source_lt board_w board_h row col x y hrow' hcol' hx hy
        rw [← e, hcopy' y x hy hx, hcopy y x hy hx]
        exact hagree _ _ h1 h2
      · rw [hrest' n (by omega), hrest n (by omega)]
    rw [hrun', this]

/-- Witness of C9 on a 9x5 board (one remainder column and row), cell `(1, 3)`. -/
theorem extract_cell_copies_subrectangle_witness :
    ((List.range 45).length = 9 * 5 ∧ 1 < GRID_SIZE ∧ 3 < GRID_SIZE ∧
      (9 / 4) * (5 / 4) ≤ [0, 0].length) ∧
    ∃ out, extract_cell (List.range 45) 9 5 1 3 [0, 0] = some (out, 9 / 4, 5 / 4) ∧
      (∀ x y, x < 9 / 4 → y < 5 / 4 →
        (1 * (5 / 4) + y) * 9 + (3 * (9 / 4) + x) < (List.range 45).length ∧
        ∃ v, out[y * (9 / 4) + x]? = some v ∧
          (List.range 45)[(1 * (5 / 4) + y) * 9 + (3 * (9 / 4) + x)]? = some v) ∧
      (∀ board' : List Nat, board'.length = (List.range 45).length →
        (∀ px py, px < 4 * (9 / 4) → py < 4 * (5 / 4) →
          board'[py * 9 + px]? = (List.range 45)[py * 9 + px]?) →
        extract_cell board' 9 5 1 3 [0, 0] = some (out, 9 / 4, 5 / 4)) :=
  ⟨⟨by decide, by decide, by decide, by decide⟩,
    extract_cell_copies_subrectangle (List.range 45) 9 5 1 3 [0, 0] (by decide) (by decide)
      (by decide) (by decide)⟩

/-- The board of `n` bytes that holds 1 at position `p` and 0 elsewhere. -/
theorem indicator_board_props (n p : Nat) :
    IsBytes ((List.replicate n 0).set p 1) ∧ ((List.replicate n 0).set p 1).length = n ∧
    ∀ q, ((List.replicate n 0).set p 1)[q]? = some 1 → q = p := by
  refine ⟨?_, by simp, ?_⟩
  · intro v hv
    rcases List.mem_or_eq_of_mem_set hv with h | h
    · rw [List.eq_of_mem_replicate h]; omega
    · omega
  · intro q hq
    by_contra hne
    rw [List.getElem?_set, if_neg (fun h => hne h.symm), List.getElem?_replicate] at hq
    split_ifs at hq
    simp at hq

/-- C8 (partition law): when `board_w` and `board_h` are multiples of
`GRID_SIZE = 4`, every board pixel `(px, py)` is copied by exactly one triple
`(row, col, idx)` with `row, col < 4` and `idx` a cell index: the 16 cells
cover the board without overlap and without gap. -/
theorem extract_cell_partition (board_w board_h px py : Nat) (hw : GRID_SIZE ∣ board_w)
    (hh : GRID_SIZE ∣ board_h) (hpx : px < board_w) (hpy : py < board_h) :
    ∃! t : Nat × Nat × Nat, t.1 < GRID_SIZE ∧ t.2.1 < GRID_SIZE ∧
      t.2.2 < (board_w / GRID_SIZE) * (board_h / GRID_SIZE) ∧
      CopiesPixel board_w board_h t.1 t.2.1 t.2.2 px py := by
  obtain ⟨cw, hcw⟩ := hw
  obtain ⟨ch, hch⟩ := hh
  simp only [GRID_SIZE] at hcw hch ⊢
  have ecw : board_w / 4 = cw := by omega
  have ech : board_h / 4 = ch := by omega
  have hcwpos : 0 < cw := by omega
  have hchpos : 0 < ch := by omega
  have hsplit : ∀ r c y x : Nat, y < ch → x < cw →
      ((r * ch + y = py ∧ c * cw + x = px) ↔
        (r = py / ch ∧ c = px / cw ∧ y = py % ch ∧ x = px % cw)) := by
    intro r c y x hy hx
    have h1 := @Nat.div_mod_unique py ch y r hchpos
    have h2 := @Nat.div_mod_unique px cw x c hcwpos
    have e1 : y + ch * r = r * ch + y := by ring
    have e2 : x + cw * c = c * cw + x := by ring
    rw [e1] at h1
    rw [e2] at h2
    constructor
    · rintro ⟨a, b⟩
      obtain ⟨a1, a2⟩ := h1.mpr ⟨a, hy⟩
      obtain ⟨b1, b2⟩ := h2.mpr ⟨b, hx⟩
      exact ⟨a1.symm, b1.symm, a2.symm, b2.symm⟩
    · rintro ⟨a, b, c', d⟩
      exact ⟨(h1.mp ⟨a.symm, c'.symm⟩).1, (h2.mp ⟨b.symm, d.symm⟩).1⟩
  have hrowlt : py / ch < 4 := Nat.div_lt_of_lt_mul (by omega)
  have hcollt : px / cw < 4 := Nat.div_lt_of_lt_mul (by omega)
  have hylt : py % ch < ch := Nat.mod_lt _ hchpos
  have hxlt : px % cw < cw := Nat.mod_lt _ hcwpos
  refine ⟨(py / ch, px / cw, (py % ch) * cw + px % cw), ⟨hrowlt, hcollt, ?_, ?_⟩, ?_⟩
  · rw [ecw, ech]
    exact grid_index_lt cw ch _ _ hylt hxlt
  · intro board cell_out _ hlen hcap
    simp only [GRID_SIZE] at hcap ⊢
    obtain ⟨out, hrun, _, hcopy, _⟩ := extract_cell_spec board board_w board_h (py / ch) (px / cw)
      cell_out (le_of_eq hlen.symm) hrowlt hcollt hcap
    have hsrc := hcopy (py % ch) (px % cw) (by omega) (by omega)
    rw [ecw, ech] at hsrc
    obtain ⟨e1, e2⟩ := (hsplit (py / ch) (px / cw) (py % ch) (px % cw) hylt hxlt).mpr
      ⟨rfl, rfl, rfl, rfl⟩
    rw [e1, e2] at hsrc
    have hp : py * board_w + px < board.length := by
      rw [hlen]; exact grid_index_lt board_w board_h py px hpy hpx
    exact ⟨out, board[py * board_w + px], hrun,
      by rw [hsrc, List.getElem?_eq_getElem hp], List.getElem?_eq_getElem hp⟩
  · rintro ⟨r, c, i⟩ ⟨hr, hc, hi, hcopies⟩
    simp only [ecw, ech] at hr hc hi
    have hp : py * board_w + px < board_w * board_h := grid_index_lt board_w board_h py px hpy hpx
    obtain ⟨hbytes, hblen, hone⟩ := indicator_board_props (board_w * board_h) (py * board_w + px)
    obtain ⟨out, v, hrun, hout, hv⟩ := hcopies _ (List.replicate (cw * ch) 0) hbytes hblen
      (by simp only [GRID_SIZE, ecw, ech, List.length_replicate]; exact le_refl _)
    simp only [GRID_SIZE] at hrun
    rw [List.getElem?_set_self (by rw [List.length_replicate]; exact hp)] at hv
    obtain ⟨out', hrun', _, hcopy, _⟩ := extract_cell_spec
      ((List.replicate (board_w * board_h) 0).set (py * board_w + px) 1) board_w board_h r c
      (List.replicate (cw * ch) 0) (by omega) hr hc
      (by simp only [ecw, ech, List.length_replicate]; exact le_refl _)
    rw [hrun'] at hrun
    simp only [Option.some.injEq, Prod.mk.injEq, and_true] at hrun
    subst hrun
    obtain ⟨y, x, hy, hx, e⟩ := flat_index_split cw ch i hi
    have hsrc := hcopy y x (by omega) (by omega)
    rw [ecw, ech, e, hout, ← hv] at hsrc
    have hq := hone _ hsrc.symm
    have hxw : c * cw + x < board_w := by
      have : c * cw ≤ 3 * cw := Nat.mul_le_mul_right _ (by omega)
      omega
    obtain ⟨q1, q2⟩ := grid_index_inj board_w _ _ _ _ hxw hpx hq
    obtain ⟨a, b, c', d⟩ := (hsplit r c y x hy hx).mp ⟨q1, q2⟩
    subst a b c' d
    simp only [Prod.mk.injEq, true_and]
    exact e.symm

/-- Witness of C8 on an 8x4 board, pixel `(5, 2)`. -/
theorem extract_cell_partition_witness :
    (GRID_SIZE ∣ 8 ∧ GRID_SIZE ∣ 4 ∧ 5 < 8 ∧ 2 < 4) ∧
    ∃! t : Nat × Nat × Nat, t.1 < GRID_SIZE ∧ t.2.1 < GRID_SIZE ∧
      t.2.2 < (8 / GRID_SIZE) * (4 / GRID_SIZE) ∧ CopiesPixel 8 4 t.1 t.2.1 t.2.2 5 2 :=
  ⟨⟨by decide, by decide, by decide, by decide⟩,
    extract_cell_partition 8 4 5 2 (by decide) (by decide) (by decide) (by decide)⟩

/-! ## Claims on `loop` -/

/-- Every inference of an activation succeeds when `predict` cannot fail. -/
theorem loop_no_failure_of_predict_ok {σ : Type} (nn : NeuralNetwork σ) (fb : Frame)
    (st st' : State σ) (evs : List Event) (hran : st.ran_once = false) (hfb : FrameOk fb)
    (hws : WellSized nn st) (hok : ∀ s, (nn.predict s).1 = true)
    (hrun : loop nn (some fb) st = some st') (hlog : st'.log = st.log ++ evs) :
    ∀ r c, Event.infer r c false ∉ evs := by
  obtain ⟨st'', hrun', _, hcase⟩ := loop_run_spec nn fb st hran hfb hws
  rw [hrun] at hrun'
  simp only [Option.some.injEq] at hrun'
  subst hrun'
  rcases hcase with ⟨labels, hlog', _⟩ | ⟨_, _, s, _, hfail, _, _⟩
  · rw [hlog, List.append_assoc, List.append_assoc] at hlog'
    have := List.append_cancel_left hlog'
    subst this
    intro r c
    simp [infer_false_not_mem_cellEvents]
  · rw [hok s] at hfail
    exact absurd hfail (by decide)

theorem blackFrame_ok : FrameOk blackFrame :=
  ⟨List.length_replicate _ _, by decide, by decide⟩

/-! ## Further lemmas on the buckets and the stretch -/

theorem bucketStart_mono (w : Nat) {a b : Nat} (h : a ≤ b) : bucketStart a w ≤ bucketStart b w :=
  Nat.div_le_div_right (Nat.mul_le_mul_right w h)

theorem bucketEnd_ge (o w : Nat) : bucketStart (o + 1) w ≤ bucketEnd o w := by
  simp only [bucketStart, bucketEnd]
  split_ifs <;> omega

/-- Every column `x < w` lies in some bucket. -/
theorem bucket_cover (w x : Nat) (hx : x < w) :
    ∃ o, o < 28 ∧ bucketStart o w ≤ x ∧ x < bucketEnd o w := by
  have hex : ∃ o, x < bucketStart (o + 1) w := ⟨27, by simp only [bucketStart]; omega⟩
  have hle : Nat.find hex ≤ 27 := Nat.find_le (by simp only [bucketStart]; omega)
  refine ⟨Nat.find hex, by omega, ?_, lt_of_lt_of_le (Nat.find_spec hex) (bucketEnd_ge _ _)⟩
  rcases Nat.eq_zero_or_pos (Nat.find hex) with h0 | h0
  · rw [h0]; simp [bucketStart]
  · have := Nat.find_min hex (show Nat.find hex - 1 < Nat.find hex by omega)
    have e : Nat.find hex - 1 + 1 = Nat.find hex := by omega
    rw [e] at this
    omega

theorem bucketEnd_eq_next (o w : Nat) (hw : 28 ≤ w) : bucketEnd o w = bucketStart (o + 1) w := by
  have h2 : (o + 1) * w = o * w + w := by ring
  simp only [bucketStart, bucketEnd, h2]
  generalize o * w = p
  split_ifs <;> omega

theorem bucket_unique (w x a b : Nat) (hw : 28 ≤ w)
    (ha : bucketStart a w ≤ x ∧ x < bucketEnd a w)
    (hb : bucketStart b w ≤ x ∧ x < bucketEnd b w) : a = b := by
  rw [bucketEnd_eq_next _ _ hw] at ha hb
  rcases Nat.lt_trichotomy a b with h | h | h
  · have := bucketStart_mono w (show a + 1 ≤ b from h)
    omega
  · exact h
  · have := bucketStart_mono w (show b + 1 ≤ a from h)
    omega

theorem bucket_width_le (o w : Nat) (hw : w ≤ 56) : bucketEnd o w - bucketStart o w ≤ 2 := by
  have h2 : (o + 1) * w = o * w + w := by ring
  simp only [bucketStart, bucketEnd, h2]
  generalize o * w = p
  split_ifs <;> omega

theorem specStretch_max (mn mx : Nat) (h : mn < mx) : specStretch mx mn mx = 255 := by
  have : (((mx : Int) - (mn : Int)) * 255) / ((mx : Int) - (mn : Int)) = 255 :=
    Int.mul_ediv_cancel_left _ (by omega)
  simp only [specStretch, this]
  decide

theorem stretch_quotient_bounds (v mn mx : Nat) (h1 : mn ≤ v) (h2 : v ≤ mx) (h3 : mn < mx) :
    0 ≤ (((v : Int) - (mn : Int)) * 255).tdiv ((mx : Int) - (mn : Int)) ∧
    (((v : Int) - (mn : Int)) * 255).tdiv ((mx : Int) - (mn : Int)) ≤ 255 ∧
    stretchValue v mn ((mx : Int) - (mn : Int)) =
      (((v : Int) - (mn : Int)) * 255).tdiv ((mx : Int) - (mn : Int)) := by
  have ha : (0 : Int) ≤ ((v : Int) - (mn : Int)) * 255 := by
    have : (0 : Int) ≤ (v : Int) - (mn : Int) := by omega
    positivity
  have hb : (0 : Int) < (mx : Int) - (mn : Int) := by omega
  have hq0 : 0 ≤ (((v : Int) - (mn : Int)) * 255) / ((mx : Int) - (mn : Int)) :=
    Int.ediv_nonneg ha (le_of_lt hb)
  have hq1 : (((v : Int) - (mn : Int)) * 255) / ((mx : Int) - (mn : Int)) ≤ 255 := by
    apply Int.ediv_le_of_le_mul hb
    have : (v : Int) - (mn : Int) ≤ (mx : Int) - (mn : Int) := by omega
    linarith
  simp only [stretchValue, Int.tdiv_eq_ediv ha (le_of_lt hb)]
  refine ⟨hq0, hq1, ?_⟩
  rw [if_neg (by omega), if_neg (by omega)]

theorem stretchValue_min (mn mx : Nat) (h : mn < mx) :
    stretchValue mn mn ((mx : Int) - (mn : Int)) = 0 := by
  rw [(stretch_quotient_bounds mn mn mx (le_refl _) (le_of_lt h) h).2.2]
  simp

theorem stretchValue_max (mn mx : Nat) (h : mn < mx) :
    stretchValue mx mn ((mx : Int) - (mn : Int)) = 255 := by
  rw [(stretch_quotient_bounds mx mn mx (le_of_lt h) (le_refl _) h).2.2]
  have hb : (0 : Int) ≤ (mx : Int) - (mn : Int) := by omega
  have ha : (0 : Int) ≤ ((mx : Int) - (mn : Int)) * 255 := by positivity
  rw [Int.tdiv_eq_ediv ha hb]
  exact Int.mul_ediv_cancel_left _ (by omega)

/-! ## Further lemmas on `loop` -/

/-- One iteration of the cell loops, with the call made to the inference
module: `predict` runs in the module state that follows the store of some
quantized tensor `q`. -/
theorem cellBody_spec_nn {σ : Type} (nn : NeuralNetwork σ) (r c : Nat) (st : State σ)
    (hr : r < 4) (hc : c < 4) (hws : WellSized nn st) :
    ∃ q,
      ((nn.predict (nn.setInputData st.nn q)).1 = true ∧
        ∃ st', cellBody nn r c st = some (Flow.next st') ∧ WellSized nn st' ∧
          st'.ran_once = st.ran_once ∧ st'.nn = (nn.predict (nn.setInputData st.nn q)).2 ∧
          st'.preds = setGrid st.preds (GRID_SIZE - 1 - r) c
            (nn.getPredictedClass (nn.predict (nn.setInputData st.nn q)).2) ∧
          st'.log = st.log ++ [Event.prepare r c, Event.infer r c true,
            Event.store r c (GRID_SIZE - 1 - r) c
              (nn.getPredictedClass (nn.predict (nn.setInputData st.nn q)).2)]) ∨
      ((nn.predict (nn.setInputData st.nn q)).1 = false ∧
        ∃ st', cellBody nn r c st = some (Flow.ret st') ∧
          st'.ran_once = st.ran_once ∧ st'.preds = st.preds ∧
          st'.log = st.log ++ [Event.prepare r c, Event.infer r c false, Event.fbReturn]) := by
  obtain ⟨hcg, hraw, h28, hnn⟩ := hws
  have hcell : (CROP_W / 4) * (CROP_H / 4) = 1681 := rfl
  obtain ⟨raw, h1, hrawl, _⟩ := extract_cell_spec st.cropped_gray CROP_W CROP_H r c st.cell_raw
    (le_of_eq hcg.symm) hr hc (by rw [hcell, hraw]; decide)
  obtain ⟨pre, h2, hprel⟩ := preprocess_total raw (CROP_W / 4) (CROP_H / 4) st.cell28
    (by rw [hcell, hrawl, hraw]; decide) (by rw [h28])
  obtain ⟨c28, h3, hc28l, _⟩ := flip_vertical_spec pre 28 28 (by rw [hprel, h28])
  obtain ⟨q, h4, _⟩ := normalize_spec c28 (nn.getInput st.nn).data (28 * 28)
    (nn.getInput st.nn).zero_point (nn.getInput st.nn).scale (by rw [hc28l, hprel, h28])
    (hnn st.nn)
  refine ⟨q, ?_⟩
  rcases hp : nn.predict (nn.setInputData st.nn q) with ⟨ok, s2⟩
  cases ok
  · have hrun : cellBody nn r c st = some (Flow.ret
        { st with
          cell_raw := raw, cell28 := c28, nn := s2,
          log := st.log ++ [Event.prepare r c, Event.infer r c false, Event.fbReturn] }) := by
      simp only [cellBody, h1, h2, h3, h4, hp]
    exact Or.inr ⟨rfl, _, hrun, rfl, rfl, rfl⟩
  · have hwg : writeGrid st.preds (GRID_SIZE - 1 - r) c (nn.getPredictedClass s2) =
        some (setGrid st.preds (GRID_SIZE - 1 - r) c (nn.getPredictedClass s2)) := by
      have : GRID_SIZE - 1 - r < 4 ∧ c < 4 := ⟨by simp only [GRID_SIZE]; omega, hc⟩
      simp only [writeGrid, this, and_self, if_true]
    have hrun : cellBody nn r c st = some (Flow.next
        { st with
          preds := setGrid st.preds (GRID_SIZE - 1 - r) c (nn.getPredictedClass s2),
          cell_raw := raw, cell28 := c28, nn := s2,
          log := st.log ++ [Event.prepare r c, Event.infer r c true,
            Event.store r c (GRID_SIZE - 1 - r) c (nn.getPredictedClass s2)] }) := by
      simp only [cellBody, h1, h2, h3, h4, hp, hwg]
    refine Or.inl ⟨rfl, _, hrun, ?_, rfl, rfl, rfl, rfl⟩
    exact ⟨hcg, by rw [hrawl, hraw], by rw [hc28l, hprel, h28], hnn⟩

theorem scripted_step {σ : Type} (nn : NeuralNetwork σ) (J : Nat → σ → Prop) (okAt : Nat → Bool)
    (lab : Nat → Int) (log0 : List Event) (g0 : Nat → Nat → Int)
    (hJ : ∀ n s q, J n s → (nn.predict (nn.setInputData s q)).1 = okAt n ∧
      J (n + 1) (nn.predict (nn.setInputData s q)).2 ∧
      nn.getPredictedClass (nn.predict (nn.setInputData s q)).2 = lab n)
    (r c : Nat) (t : State σ) (hr : r < 4) (hc : c < 4)
    (hP : ScriptedDone nn J okAt lab log0 g0 (4 * r + c) t) :
    (∃ t', cellBody nn r c t = some (Flow.next t') ∧
      ScriptedDone nn J okAt lab log0 g0 (4 * r + (c + 1)) t') ∨
    (∃ t', cellBody nn r c t = some (Flow.ret t') ∧ ScriptedFailed okAt lab log0 g0 t') := by
  obtain ⟨hws, hran, hj, hok, hlog, hpreds⟩ := hP
  have e1 : (4 * r + c) / 4 = r := by omega
  have e2 : (4 * r + c) % 4 = c := by omega
  obtain ⟨q, hq⟩ := cellBody_spec_nn nn r c t hr hc hws
  obtain ⟨hres, hj', hlab⟩ := hJ (4 * r + c) t.nn q hj
  rcases hq with ⟨hsucc, t', hrun, hws', hran', hnn', hpreds', hlog'⟩ |
    ⟨hfail, t', hrun, hran', hpreds', hlog'⟩
  · refine Or.inl ⟨t', hrun, hws', by rw [hran', hran], by rw [hnn']; exact hj', ?_, ?_, ?_⟩
    · intro m hm
      rcases Nat.lt_succ_iff_lt_or_eq.mp (show m < (4 * r + c) + 1 by omega) with h | h
      · exact hok m h
      · rw [h, ← hres, hsucc]
    · have : 4 * r + (c + 1) = (4 * r + c) + 1 := by omega
      rw [this, cellEvents, e1, e2, hlog', hlog, hlab, List.append_assoc]
    · have : 4 * r + (c + 1) = (4 * r + c) + 1 := by omega
      rw [this, storedGrid, e1, e2, hpreds', hpreds, hlab]
  · refine Or.inr ⟨t', hrun, by rw [hran', hran], 4 * r + c, by omega, hok, ?_, ?_, ?_⟩
    · rw [← hres, hfail]
    · rw [e1, e2, hlog', hlog]
    · rw [hpreds', hpreds]

/-- The activation of `loop` with an inference module whose calls are scripted:
the `n`-th call of the activation succeeds iff `okAt n` and reports `lab n`. -/
theorem loop_run_scripted {σ : Type} (nn : NeuralNetwork σ) (fb : Frame) (st : State σ)
    (hran : st.ran_once = false) (hfb : FrameOk fb) (hws : WellSized nn st)
    (J : Nat → σ → Prop) (okAt : Nat → Bool) (lab : Nat → Int) (hJ0 : J 0 st.nn)
    (hJ : ∀ n s q, J n s → (nn.predict (nn.setInputData s q)).1 = okAt n ∧
      J (n + 1) (nn.predict (nn.setInputData s q)).2 ∧
      nn.getPredictedClass (nn.predict (nn.setInputData s q)).2 = lab n) :
    ∃ st', loop nn (some fb) st = some st' ∧ st'.ran_once = true ∧
      (((∀ k, k < 16 → okAt k = true) ∧
          st'.log = st.log ++ [Event.fbGet true, Event.frameRead] ++ cellEvents lab 16 ++
            [Event.frameRead, Event.fbReturn] ∧
          st'.preds = storedGrid st.preds lab 16) ∨
       (∃ k, k < 16 ∧ (∀ m, m < k → okAt m = true) ∧ okAt k = false ∧
          st'.log = st.log ++ [Event.fbGet true, Event.frameRead] ++ cellEvents lab k ++
            [Event.prepare (k / 4) (k % 4), Event.infer (k / 4) (k % 4) false,
              Event.fbReturn] ∧
          st'.preds = storedGrid st.preds lab k)) := by
  obtain ⟨cg, hcrop, hcgl, _⟩ := cropBoard_spec fb st.cropped_gray hfb hws.1
  have hinner : ∀ r, r < 4 → ∀ t : State σ,
      ScriptedDone nn J okAt lab (st.log ++ [Event.fbGet true, Event.frameRead]) st.preds
        (4 * r) t →
      (∃ t', forLoopR 0 GRID_SIZE (fun c u => cellBody nn r c u) t = some (Flow.next t') ∧
        ScriptedDone nn J okAt lab (st.log ++ [Event.fbGet true, Event.frameRead]) st.preds
          (4 * (r + 1)) t') ∨
      (∃ t', forLoopR 0 GRID_SIZE (fun c u => cellBody nn r c u) t = some (Flow.ret t') ∧
        ScriptedFailed okAt lab (st.log ++ [Event.fbGet true, Event.frameRead]) st.preds t') := by
    intro r hr t hP
    exact forLoopR_invariant (fun c u => cellBody nn r c u)
      (fun c u => ScriptedDone nn J okAt lab (st.log ++ [Event.fbGet true, Event.frameRead])
        st.preds (4 * r + c) u)
      (fun u => ScriptedFailed okAt lab (st.log ++ [Event.fbGet true, Event.frameRead])
        st.preds u)
      0 GRID_SIZE t (Nat.zero_le _) hP
      (fun c u _ hc hu => scripted_step nn J okAt lab _ st.preds hJ r c u hr hc hu)
  have houter := forLoopR_invariant
    (fun r s => forLoopR 0 GRID_SIZE (fun c t => cellBody nn r c t) s)
    (fun r u => ScriptedDone nn J okAt lab (st.log ++ [Event.fbGet true, Event.frameRead])
      st.preds (4 * r) u)
    (fun u => ScriptedFailed okAt lab (st.log ++ [Event.fbGet true, Event.frameRead])
      st.preds u)
    0 GRID_SIZE
    { st with
      ran_once := true, cropped_gray := cg,
      log := st.log ++ [Event.fbGet true, Event.frameRead] }
    (Nat.zero_le _)
    ⟨⟨hcgl, hws.2.1, hws.2.2.1, hws.2.2.2⟩, rfl, hJ0,
      fun _ h => absurd h (Nat.not_lt_zero _), by simp [cellEvents], rfl⟩
    (fun r u _ hr hu => hinner r hr u hu)
  rcases houter with ⟨t, ht, _, hran', _, hok, hlog, hpreds⟩ | ⟨t, ht, hran', hQ⟩
  · refine ⟨{ t with log := t.log ++ [Event.frameRead, Event.fbReturn] }, ?_, hran',
      Or.inl ⟨hok, ?_, hpreds⟩⟩
    · simp only [loop, hran, hcrop, ht]
      rfl
    · show t.log ++ [Event.frameRead, Event.fbReturn] = _
      rw [hlog]
      rfl
  · refine ⟨t, ?_, hran', Or.inr hQ⟩
    simp only [loop, hran, hcrop, ht]
    rfl

theorem prepare_mem_cellEvents (labels : Nat → Int) (n r c : Nat) :
    Event.prepare r c ∈ cellEvents labels n ↔ ∃ k, k < n ∧ r = k / 4 ∧ c = k % 4 := by
  induction n with
  | zero => simp [cellEvents]
  | succ n ih =>
    simp only [cellEvents, List.mem_append, ih, List.mem_cons, List.mem_singleton,
      Event.prepare.injEq, List.not_mem_nil, or_false, reduceCtorEq]
    constructor
    · rintro (⟨k, hk, h⟩ | h)
      · exact ⟨k, by omega, h⟩
      · exact ⟨n, by omega, h⟩
    · rintro ⟨k, hk, h⟩
      rcases Nat.lt_succ_iff_lt_or_eq.mp hk with h1 | h1
      · exact Or.inl ⟨k, h1, h⟩
      · subst h1; exact Or.inr h

theorem infer_mem_cellEvents (labels : Nat → Int) (n r c : Nat) (ok : Bool) :
    Event.infer r c ok ∈ cellEvents labels n ↔ ok = true ∧ ∃ k, k < n ∧ r = k / 4 ∧ c = k % 4 := by
  induction n with
  | zero => simp [cellEvents]
  | succ n ih =>
    simp only [cellEvents, List.mem_append, ih, List.mem_cons, List.mem_singleton,
      Event.infer.injEq, List.not_mem_nil, or_false, false_or, reduceCtorEq]
    constructor
    · rintro (⟨hok, k, hk, h⟩ | ⟨h1, h2, h3⟩)
      · exact ⟨hok, k, by omega, h⟩
      · exact ⟨h3, n, by omega, h1, h2⟩
    · rintro ⟨hok, k, hk, h⟩
      rcases Nat.lt_succ_iff_lt_or_eq.mp hk with h1 | h1
      · exact Or.inl ⟨hok, k, h1, h⟩
      · subst h1; exact Or.inr ⟨h.1, h.2, hok⟩

theorem fbReturn_not_mem_cellEvents (labels : Nat → Int) (n : Nat) :
    Event.fbReturn ∉ cellEvents labels n := by
  induction n with
  | zero => simp [cellEvents]
  | succ n ih => simp [cellEvents, ih]

theorem storedGrid_other (g : Nat → Nat → Int) (labels : Nat → Int) (k i j : Nat)
    (h : ∀ m, m < k → ¬ (i = GRID_SIZE - 1 - m / 4 ∧ j = m % 4)) :
    storedGrid g labels k i j = g i j := by
  induction k with
  | zero => rfl
  | succ k ih =>
    simp only [storedGrid, setGrid]
    rw [if_neg (h k (by omega)), ih (fun m hm => h m (by omega))]

theorem storedGrid_done (g : Nat → Nat → Int) (labels : Nat → Int) (k m : Nat) (hm : m < k)
    (hk : k ≤ 16) : storedGrid g labels k (GRID_SIZE - 1 - m / 4) (m % 4) = labels m := by
  induction k with
  | zero => omega
  | succ k ih =>
    simp only [storedGrid, setGrid]
    by_cases e : m = k
    · subst e; simp
    · have hne : ¬ (GRID_SIZE - 1 - m / 4 = GRID_SIZE - 1 - k / 4 ∧ m % 4 = k % 4) := by
        simp only [GRID_SIZE]; omega
      rw [if_neg hne]
      exact ih (by omega) (by omega)

/-- The two ways an activation on an acquired frame ends, with the events it adds
to the log. -/
theorem loop_outcome {σ : Type} (nn : NeuralNetwork σ) (fb : Frame) (st : State σ)
    (hran : st.ran_once = false) (hfb : FrameOk fb) (hws : WellSized nn st) :
    ∃ st' evs, loop nn (some fb) st = some st' ∧ st'.log = st.log ++ evs ∧
      ((∃ labels : Nat → Int,
          evs = [Event.fbGet true, Event.frameRead] ++ cellEvents labels 16 ++
            [Event.frameRead, Event.fbReturn] ∧
          st'.preds = storedGrid st.preds labels 16) ∨
       (∃ (labels : Nat → Int) (k : Nat), k < 16 ∧
          evs = [Event.fbGet true, Event.frameRead] ++ cellEvents labels k ++
            [Event.prepare (k / 4) (k % 4), Event.infer (k / 4) (k % 4) false,
              Event.fbReturn] ∧
          st'.preds = storedGrid st.preds labels k)) := by
  obtain ⟨st', hrun, _, hcase⟩ := loop_run_spec nn fb st hran hfb hws
  rcases hcase with ⟨labels, hlog, hpreds⟩ | ⟨labels, k, _, hk, _, hlog, hpreds⟩
  · exact ⟨st', _, hrun, by rw [hlog]; simp only [List.append_assoc],
      Or.inl ⟨labels, rfl, hpreds⟩⟩
  · exact ⟨st', _, hrun, by rw [hlog]; simp only [List.append_assoc],
      Or.inr ⟨labels, k, hk, rfl, hpreds⟩⟩

theorem bootWith_wellSized (failAt s : Nat) : WellSized (scriptedNetwork failAt) (bootWith s) :=
  ⟨List.length_replicate _ _, List.length_replicate _ _, List.length_replicate _ _,
    fun _ => le_of_eq (List.length_replicate _ _).symm⟩

/-- The first activation with the scripted module that fails at its call number
`failAt < 16`, on a black frame: the cells before `failAt` are labelled
`1, 2, ...` and the activation ends at cell `failAt`. -/
theorem scripted_run (failAt : Nat) (hf : failAt < 16) :
    ∃ st', loop (scriptedNetwork failAt) (some blackFrame) (bootWith 0) = some st' ∧
      st'.log = [Event.fbGet true, Event.frameRead] ++
        cellEvents (fun n => ((n + 1 : Nat) : Int)) failAt ++
        [Event.prepare (failAt / 4) (failAt % 4), Event.infer (failAt / 4) (failAt % 4) false,
          Event.fbReturn] ∧
      st'.preds = storedGrid (fun _ _ => 0) (fun n => ((n + 1 : Nat) : Int)) failAt := by
  obtain ⟨st', hrun, _, hcase⟩ := loop_run_scripted (scriptedNetwork failAt) blackFrame
    (bootWith 0) rfl blackFrame_ok (bootWith_wellSized failAt 0) (fun n s => s = n)
    (fun n => decide (n ≠ failAt)) (fun n => ((n + 1 : Nat) : Int)) rfl
    (by
      intro n s q hs
      subst hs
      exact ⟨rfl, rfl, rfl⟩)
  refine ⟨st', hrun, ?_⟩
  rcases hcase with ⟨hall, _, _⟩ | ⟨k, hk, hbefore, hat, hlog, hpreds⟩
  · have := hall failAt hf
    simp at this
  · have e : k = failAt := by
      simp only [ne_eq, decide_not, Bool.not_eq_true', decide_eq_false_iff_not,
        Bool.not_eq_false', decide_eq_true_eq] at hbefore hat
      exact hat
    subst e
    exact ⟨hlog, hpreds⟩

/-! ## Claims on failing activations, the frame and the crop -/

/-- C11: an activation that acquires a frame containing the crop rectangle
returns; if the inference of raw cell `(r, c)` failed in it, then `(r, c)` is a
grid cell and the events of the activation end with the steps of that cell, the
failed inference and the return of the frame, nothing being run afterwards: the
events before them contain no extract/normalize step (`prepare`), no inference
and no store for the failing cell or any cell after it in row-major order, and
`preds[GRID_SIZE - 1 - r'][c']` is unchanged for every cell `(r', c')` at or
after `(r, c)`. -/
theorem loop_aborts_at_first_failure {σ : Type} (nn : NeuralNetwork σ) (fb : Frame)
    (st : State σ) (hran : st.ran_once = false) (hfb : FrameOk fb) (hws : WellSized nn st) :
    ∃ st' evs, loop nn (some fb) st = some st' ∧ st'.log = st.log ++ evs ∧
      ∀ r c, Event.infer r c false ∈ evs →
        r < GRID_SIZE ∧ c < GRID_SIZE ∧
        (∃ pre, evs = pre ++ [Event.prepare r c, Event.infer r c false, Event.fbReturn] ∧
          ∀ r' c', 4 * r + c ≤ 4 * r' + c' →
            Event.prepare r' c' ∉ pre ∧ (∀ ok, Event.infer r' c' ok ∉ pre) ∧
            ∀ row col p, Event.store r' c' row col p ∉ pre) ∧
        (∀ r' c', r' < GRID_SIZE → c' < GRID_SIZE → 4 * r + c ≤ 4 * r' + c' →
          st'.preds (GRID_SIZE - 1 - r') c' = st.preds (GRID_SIZE - 1 - r') c') := by
  obtain ⟨st', evs, hrun, hlog, hcase⟩ := loop_outcome nn fb st hran hfb hws
  refine ⟨st', evs, hrun, hlog, fun r c hfail => ?_⟩
  rcases hcase with ⟨labels, hevs, _⟩ | ⟨labels, k, hk, hevs, hpreds⟩
  · rw [hevs] at hfail
    simp only [List.mem_append, List.mem_cons, List.mem_singleton, reduceCtorEq,
      List.not_mem_nil, or_false, false_or, infer_false_not_mem_cellEvents] at hfail
  · rw [hevs] at hfail
    simp only [List.mem_append, List.mem_cons, List.mem_singleton, reduceCtorEq,
      List.not_mem_nil, or_false, false_or, infer_false_not_mem_cellEvents,
      Event.infer.injEq, and_true] at hfail
    obtain ⟨hr, hc⟩ := hfail
    subst hr hc
    have hidx : 4 * (k / 4) + k % 4 = k := by omega
    refine ⟨by simp only [GRID_SIZE]; omega, by simp only [GRID_SIZE]; omega,
      ⟨[Event.fbGet true, Event.frameRead] ++ cellEvents labels k, hevs, ?_⟩, ?_⟩
    · intro r' c' hle
      rw [hidx] at hle
      refine ⟨?_, ?_, ?_⟩
      · simp only [List.mem_append, List.mem_cons, List.mem_singleton, reduceCtorEq,
          List.not_mem_nil, or_false, false_or, prepare_mem_cellEvents]
        rintro ⟨m, hm, h1, h2⟩
        omega
      · intro ok
        simp only [List.mem_append, List.mem_cons, List.mem_singleton, reduceCtorEq,
          List.not_mem_nil, or_false, false_or, infer_mem_cellEvents]
        rintro ⟨_, m, hm, h1, h2⟩
        omega
      · intro row col p
        simp only [List.mem_append, List.mem_cons, List.mem_singleton, reduceCtorEq,
          List.not_mem_nil, or_false, false_or, store_mem_cellEvents]
        rintro ⟨m, hm, h1, h2, _⟩
        omega
    · intro r' c' hr' hc' hle
      have hr4 : r' < 4 := hr'
      have hc4 : c' < 4 := hc'
      rw [hidx] at hle
      rw [hpreds]
      apply storedGrid_other
      intro m hm
      simp only [GRID_SIZE]
      omega

/-- Witness of C11: the inference module fails at its 12th call, which is raw
cell `(2, 3)`. -/
theorem loop_aborts_at_first_failure_witness :
    ((bootWith 0 : State Nat).ran_once = false ∧ FrameOk blackFrame ∧
      WellSized (scriptedNetwork 11) (bootWith 0)) ∧
    ∃ st' evs, loop (scriptedNetwork 11) (some blackFrame) (bootWith 0) = some st' ∧
      st'.log = (bootWith 0 : State Nat).log ++ evs ∧ Event.infer 2 3 false ∈ evs ∧
      (2 < GRID_SIZE ∧ 3 < GRID_SIZE ∧
        (∃ pre, evs = pre ++ [Event.prepare 2 3, Event.infer 2 3 false, Event.fbReturn] ∧
          ∀ r' c', 4 * 2 + 3 ≤ 4 * r' + c' →
            Event.prepare r' c' ∉ pre ∧ (∀ ok, Event.infer r' c' ok ∉ pre) ∧
            ∀ row col p, Event.store r' c' row col p ∉ pre) ∧
        (∀ r' c', r' < GRID_SIZE → c' < GRID_SIZE → 4 * 2 + 3 ≤ 4 * r' + c' →
          st'.preds (GRID_SIZE - 1 - r') c' =
            (bootWith 0 : State Nat).preds (GRID_SIZE - 1 - r') c')) := by
  refine ⟨⟨rfl, blackFrame_ok, bootWith_wellSized 11 0⟩, ?_⟩
  obtain ⟨st', evs, hrun, hlog, himp⟩ := loop_aborts_at_first_failure (scriptedNetwork 11)
    blackFrame (bootWith 0) rfl blackFrame_ok (bootWith_wellSized 11 0)
  obtain ⟨st'', hrun', hlog', _⟩ := scripted_run 11 (by decide)
  rw [hrun] at hrun'
  simp only [Option.some.injEq] at hrun'
  subst hrun'
  have hmem : Event.infer 2 3 false ∈ evs := by
    have e : evs = st'.log := by rw [hlog]; rfl
    rw [e, hlog']
    simp
  exact ⟨st', evs, hrun, hlog, hmem, himp 2 3 hmem⟩

/-- Counterexample to C12 as stated: when inference fails at raw cell `(2, 3)`,
the label of raw cell `(0, 0)` written earlier in the same activation is still
in `preds[3][0]`, so `preds` differs from its value before the activation. -/
theorem partial_grid_counterexample :
    ∃ st', loop (scriptedNetwork 11) (some blackFrame) (bootWith 0) = some st' ∧
      Event.infer 2 3 false ∈ st'.log ∧
      st'.preds 3 0 = 1 ∧ (bootWith 0 : State Nat).preds 3 0 = 0 ∧
      st'.preds ≠ (bootWith 0 : State Nat).preds := by
  obtain ⟨st', hrun, hlog, hpreds⟩ := scripted_run 11 (by decide)
  have h1 : st'.preds 3 0 = 1 := by
    rw [hpreds]
    exact storedGrid_done _ _ 11 0 (by decide) (by decide)
  refine ⟨st', hrun, by rw [hlog]; simp, h1, rfl, fun h => ?_⟩
  rw [h] at h1
  exact absurd h1 (by decide)

/-- C12 (amended): if the inference of raw cell `(r, c)` fails, `preds` is left
partially updated: for every cell `(r', c')` before `(r, c)` in row-major order
the label stored for it is still at `preds[GRID_SIZE - 1 - r'][c']`, every
other position of `preds` keeps its value from before the activation, and
`preds` as a whole is unchanged when the failing cell is `(0, 0)`. -/
theorem failed_activation_keeps_earlier_labels {σ : Type} (nn : NeuralNetwork σ) (fb : Frame)
    (st : State σ) (hran : st.ran_once = false) (hfb : FrameOk fb) (hws : WellSized nn st) :
    ∃ st' evs, loop nn (some fb) st = some st' ∧ st'.log = st.log ++ evs ∧
      ∀ r c, Event.infer r c false ∈ evs →
        (∀ r' c', c' < GRID_SIZE → 4 * r' + c' < 4 * r + c →
          ∃ p, Event.store r' c' (GRID_SIZE - 1 - r') c' p ∈ evs ∧
            st'.preds (GRID_SIZE - 1 - r') c' = p) ∧
        (∀ i j, (∀ r' c', c' < GRID_SIZE → 4 * r' + c' < 4 * r + c →
            ¬ (i = GRID_SIZE - 1 - r' ∧ j = c')) → st'.preds i j = st.preds i j) ∧
        (r = 0 → c = 0 → st'.preds = st.preds) := by
  obtain ⟨st', evs, hrun, hlog, hcase⟩ := loop_outcome nn fb st hran hfb hws
  refine ⟨st', evs, hrun, hlog, fun r c hfail => ?_⟩
  rcases hcase with ⟨labels, hevs, _⟩ | ⟨labels, k, hk, hevs, hpreds⟩
  · rw [hevs] at hfail
    simp only [List.mem_append, List.mem_cons, List.mem_singleton, reduceCtorEq,
      List.not_mem_nil, or_false, false_or, infer_false_not_mem_cellEvents] at hfail
  · rw [hevs] at hfail
    simp only [List.mem_append, List.mem_cons, List.mem_singleton, reduceCtorEq,
      List.not_mem_nil, or_false, false_or, infer_false_not_mem_cellEvents,
      Event.infer.injEq, and_true] at hfail
    obtain ⟨hr, hc⟩ := hfail
    subst hr hc
    have hidx : 4 * (k / 4) + k % 4 = k := by omega
    rw [hidx]
    refine ⟨?_, ?_, ?_⟩
    · intro r' c' hc' hlt
      have hc4 : c' < 4 := hc'
      have e1 : (4 * r' + c') / 4 = r' := by omega
      have e2 : (4 * r' + c') % 4 = c' := by omega
      refine ⟨labels (4 * r' + c'), ?_, ?_⟩
      · rw [hevs]
        simp only [List.mem_append, List.mem_cons, List.mem_singleton, reduceCtorEq,
          List.not_mem_nil, or_false, false_or, store_mem_cellEvents]
        exact ⟨4 * r' + c', hlt, e1.symm, e2.symm, by rw [e1], e2.symm, rfl⟩
      · have := storedGrid_done st.preds labels k (4 * r' + c') hlt (by omega)
        rw [e1, e2] at this
        rw [hpreds, this]
    · intro i j hother
      rw [hpreds]
      apply storedGrid_other
      intro m hm
      have := hother (m / 4) (m % 4) (by simp only [GRID_SIZE]; omega) (by omega)
      exact this
    · intro h1 h2
      have : k = 0 := by omega
      subst this
      rw [hpreds]
      rfl

/-- Witness of the amended C12, with a failure at raw cell `(2, 3)`. -/
theorem failed_activation_keeps_earlier_labels_witness :
    ((bootWith 0 : State Nat).ran_once = false ∧ FrameOk blackFrame ∧
      WellSized (scriptedNetwork 11) (bootWith 0)) ∧
    ∃ st' evs, loop (scriptedNetwork 11) (some blackFrame) (bootWith 0) = some st' ∧
      st'.log = (bootWith 0 : State Nat).log ++ evs ∧ Event.infer 2 3 false ∈ evs ∧
      ((∀ r' c', c' < GRID_SIZE → 4 * r' + c' < 4 * 2 + 3 →
          ∃ p, Event.store r' c' (GRID_SIZE - 1 - r') c' p ∈ evs ∧
            st'.preds (GRID_SIZE - 1 - r') c' = p) ∧
        (∀ i j, (∀ r' c', c' < GRID_SIZE → 4 * r' + c' < 4 * 2 + 3 →
            ¬ (i = GRID_SIZE - 1 - r' ∧ j = c')) →
          st'.preds i j = (bootWith 0 : State Nat).preds i j) ∧
        (2 = 0 → 3 = 0 → st'.preds = (bootWith 0 : State Nat).preds)) := by
  refine ⟨⟨rfl, blackFrame_ok, bootWith_wellSized 11 0⟩, ?_⟩
  obtain ⟨st', evs, hrun, hlog, himp⟩ := failed_activation_keeps_earlier_labels
    (scriptedNetwork 11) blackFrame (bootWith 0) rfl blackFrame_ok (bootWith_wellSized 11 0)
  obtain ⟨st'', hrun', hlog', _⟩ := scripted_run 11 (by decide)
  rw [hrun] at hrun'
  simp only [Option.some.injEq] at hrun'
  subst hrun'
  have hmem : Event.infer 2 3 false ∈ evs := by
    have e : evs = st'.log := by rw [hlog]; rfl
    rw [e, hlog']
    simp
  exact ⟨st', evs, hrun, hlog, hmem, himp 2 3 hmem⟩

/-- C13: an activation of `loop` returns; when it acquired a frame (it was not
skipped and `esp_camera_fb_get()` gave a frame), on both exit paths (16 cells
done, or an inference failure) the frame is returned exactly once and the return
is the last event of the activation, after every read of the frame; when the
activation is skipped (`ran_once` set) or the acquisition fails, the frame is
returned zero times and never read. -/
theorem frame_released_exactly_once {σ : Type} (nn : NeuralNetwork σ) (camera : Option Frame)
    (st : State σ) (hfb : ∀ fb, camera = some fb → FrameOk fb) (hws : WellSized nn st) :
    ∃ st' evs, loop nn camera st = some st' ∧ st'.log = st.log ++ evs ∧
      ((st.ran_once = false ∧ camera ≠ none) →
        evs.count Event.fbReturn = 1 ∧
        ∃ pre, evs = [Event.fbGet true] ++ pre ++ [Event.fbReturn] ∧ Event.fbReturn ∉ pre ∧
          Event.frameRead ∈ pre) ∧
      ((st.ran_once = true ∨ camera = none) →
        evs.count Event.fbReturn = 0 ∧ Event.frameRead ∉ evs) := by
  by_cases hran : st.ran_once = true
  · refine ⟨st, [], by simp [loop, hran], by simp, fun h => ?_, fun _ => by simp⟩
    rw [hran] at h
    exact absurd h.1 (by decide)
  · have hran' : st.ran_once = false := by simpa using hran
    cases camera with
    | none =>
      refine ⟨_, [Event.fbGet false], by simp only [loop, hran']; rfl, rfl,
        fun h => absurd rfl h.2, fun _ => by decide⟩
    | some fb =>
      obtain ⟨st', evs, hrun, hlog, hcase⟩ := loop_outcome nn fb st hran' (hfb fb rfl) hws
      refine ⟨st', evs, hrun, hlog, fun _ => ?_, fun h => ?_⟩
      · rcases hcase with ⟨labels, hevs, _⟩ | ⟨labels, k, _, hevs, _⟩
        · have hpre : Event.fbReturn ∉ [Event.frameRead] ++ cellEvents labels 16 ++
              [Event.frameRead] := by
            simp only [List.mem_append, List.mem_cons, List.mem_singleton, reduceCtorEq,
              List.not_mem_nil, or_false, false_or, fbReturn_not_mem_cellEvents,
              not_false_eq_true]
          have hform : evs = [Event.fbGet true] ++
              ([Event.frameRead] ++ cellEvents labels 16 ++ [Event.frameRead]) ++
              [Event.fbReturn] := by
            rw [hevs]; simp
          refine ⟨?_, _, hform, hpre, by simp⟩
          rw [hform, List.count_append, List.count_append,
            List.count_eq_zero_of_not_mem hpre]
          decide
        · have hpre : Event.fbReturn ∉ [Event.frameRead] ++ cellEvents labels k ++
              [Event.prepare (k / 4) (k % 4), Event.infer (k / 4) (k % 4) false] := by
            simp only [List.mem_append, List.mem_cons, List.mem_singleton, reduceCtorEq,
              List.not_mem_nil, or_false, false_or, fbReturn_not_mem_cellEvents,
              not_false_eq_true]
          have hform : evs = [Event.fbGet true] ++
              ([Event.frameRead] ++ cellEvents labels k ++
                [Event.prepare (k / 4) (k % 4), Event.infer (k / 4) (k % 4) false]) ++
              [Event.fbReturn] := by
            rw [hevs]; simp
          refine ⟨?_, _, hform, hpre, by simp⟩
          rw [hform, List.count_append, List.count_append,
            List.count_eq_zero_of_not_mem hpre]
          decide
      · rcases h with h | h
        · rw [hran'] at h
          exact absurd h (by decide)
        · exact absurd h (by simp)

/-- Witness of C13: an activation that ends on an inference failure at raw cell
`(2, 3)`, and an activation whose frame acquisition fails. -/
theorem frame_released_exactly_once_witness :
    ((∀ fb, some blackFrame = some fb → FrameOk fb) ∧
      (∀ fb, (none : Option Frame) = some fb → FrameOk fb) ∧
      WellSized (scriptedNetwork 11) (bootWith 0)) ∧
    (∃ st' evs, loop (scriptedNetwork 11) (some blackFrame) (bootWith 0) = some st' ∧
      st'.log = (bootWith 0 : State Nat).log ++ evs ∧
      (((bootWith 0 : State Nat).ran_once = false ∧ some blackFrame ≠ none) →
        evs.count Event.fbReturn = 1 ∧
        ∃ pre, evs = [Event.fbGet true] ++ pre ++ [Event.fbReturn] ∧ Event.fbReturn ∉ pre ∧
          Event.frameRead ∈ pre) ∧
      (((bootWith 0 : State Nat).ran_once = true ∨ some blackFrame = none) →
        evs.count Event.fbReturn = 0 ∧ Event.frameRead ∉ evs)) ∧
    (∃ st' evs, loop (scriptedNetwork 11) none (bootWith 0) = some st' ∧
      st'.log = (bootWith 0 : State Nat).log ++ evs ∧
      (((bootWith 0 : State Nat).ran_once = false ∧ (none : Option Frame) ≠ none) →
        evs.count Event.fbReturn = 1 ∧
        ∃ pre, evs = [Event.fbGet true] ++ pre ++ [Event.fbReturn] ∧ Event.fbReturn ∉ pre ∧
          Event.frameRead ∈ pre) ∧
      (((bootWith 0 : State Nat).ran_once = true ∨ (none : Option Frame) = none) →
        evs.count Event.fbReturn = 0 ∧ Event.frameRead ∉ evs)) := by
  have hfb : ∀ fb, some blackFrame = some fb → FrameOk fb := by
    intro fb h
    simp only [Option.some.injEq] at h
    subst h
    exact blackFrame_ok
  have hnone : ∀ fb, (none : Option Frame) = some fb → FrameOk fb := by
    intro fb h
    exact absurd h (by simp)
  exact ⟨⟨hfb, hnone, bootWith_wellSized 11 0⟩,
    frame_released_exactly_once (scriptedNetwork 11) (some blackFrame) (bootWith 0) hfb
      (bootWith_wellSized 11 0),
    frame_released_exactly_once (scriptedNetwork 11) none (bootWith 0) hnone
      (bootWith_wellSized 11 0)⟩

/-- C14: the constants of lines 12-19 evaluate to `CROP_W = CROP_H = 164`, so the
cells of the 4x4 grid are 41x41; the crop is not 180x180 and the cells are not
45x45. -/
theorem crop_constants_are_164 :
    CROP_W = 164 ∧ CROP_H = 164 ∧ CROP_W / GRID_SIZE = 41 ∧ CROP_H / GRID_SIZE = 41 ∧
    CROP_W ≠ 180 ∧ CROP_H ≠ 180 ∧ CROP_W / GRID_SIZE ≠ 45 := by
  decide

/-! ## Claims on the composed cell pipeline and the buckets -/

/-- C15: for a cell whose contrast spread is below 30 (every two pixels differ
by less than 30), `scale > 0` and `zero_point` in `[-128, 127]`, the composed
per-cell pipeline `preprocess_cell_to_28x28`, then `flip_vertical` on 28x28,
then `normalize_uint8_to_int8` on 28 * 28 entries returns a tensor whose 784
entries all equal `zero_point`. -/
theorem blank_cell_quantizes_to_zero_point (cell_in : List Nat) (cell_w cell_h : Nat)
    (cell_out : List Nat) (tensor : List Int) (zero_point : Int) (scale : ℚ)
    (hlen : cell_w * cell_h ≤ cell_in.length) (hb : IsBytes cell_in)
    (hout : 784 ≤ cell_out.length) (hten : 784 ≤ tensor.length)
    (hblank : ∀ a ∈ cellPixels cell_in cell_w cell_h, ∀ b ∈ cellPixels cell_in cell_w cell_h,
      b < a + 30)
    (_hs : 0 < scale) (hz : -128 ≤ zero_point ∧ zero_point ≤ 127) :
    ∃ pre flipped q, preprocess_cell_to_28x28 cell_in cell_w cell_h cell_out = some pre ∧
      flip_vertical pre 28 28 = some flipped ∧
      normalize_uint8_to_int8 flipped tensor (28 * 28) zero_point scale = some q ∧
      ∀ i, i < 784 → q[i]? = some zero_point := by
  obtain ⟨pre, hm, hl, hzero, _⟩ := memset_spec cell_out 0 (28 * 28) (by omega)
  have hpre : preprocess_cell_to_28x28 cell_in cell_w cell_h cell_out = some pre := by
    rw [(preprocess_branch cell_in cell_w cell_h cell_out hlen hb).1 hblank, hm]
  obtain ⟨flipped, hf, hfl, hflip, _⟩ := flip_vertical_spec pre 28 28 (by omega)
  obtain ⟨q, hq, _, hquant, _⟩ := normalize_spec flipped tensor (28 * 28) zero_point scale
    (by omega) (by omega)
  refine ⟨pre, flipped, q, hpre, hf, hq, fun i hi => ?_⟩
  obtain ⟨v, hv, hqi⟩ := hquant i (by omega)
  obtain ⟨r, c, hr, hc, e⟩ := flat_index_split 28 28 i (by omega)
  have h0 : flipped[i]? = some 0 := by
    rw [← e, hflip r c hr hc]
    exact hzero _ (by omega)
  rw [h0] at hv
  simp only [Option.some.injEq] at hv
  subst hv
  rw [hqi, quantize_zero zero_point scale hz]

/-- Witness of C15 on a 2x1 cell of spread 29 with `scale = 1/255`,
`zero_point = -128`. -/
theorem blank_cell_quantizes_to_zero_point_witness :
    (2 * 1 ≤ [10, 39].length ∧ IsBytes [10, 39] ∧ 784 ≤ (List.replicate 784 7).length ∧
      784 ≤ (List.replicate 784 (0 : Int)).length ∧
      (∀ a ∈ cellPixels [10, 39] 2 1, ∀ b ∈ cellPixels [10, 39] 2 1, b < a + 30) ∧
      (0 : ℚ) < 1 / 255 ∧ ((-128 : Int) ≤ -128 ∧ (-128 : Int) ≤ 127)) ∧
    ∃ pre flipped q, preprocess_cell_to_28x28 [10, 39] 2 1 (List.replicate 784 7) = some pre ∧
      flip_vertical pre 28 28 = some flipped ∧
      normalize_uint8_to_int8 flipped (List.replicate 784 0) (28 * 28) (-128) (1 / 255) =
        some q ∧
      ∀ i, i < 784 → q[i]? = some (-128) := by
  have hb : IsBytes [10, 39] := by unfold IsBytes; decide
  have hl : 784 ≤ (List.replicate 784 7).length := by rw [List.length_replicate]
  have ht : 784 ≤ (List.replicate 784 (0 : Int)).length := by rw [List.length_replicate]
  have hblank : ∀ a ∈ cellPixels [10, 39] 2 1, ∀ b ∈ cellPixels [10, 39] 2 1, b < a + 30 := by
    unfold cellPixels; decide
  exact ⟨⟨by decide, hb, hl, ht, hblank, by norm_num, by decide⟩,
    blank_cell_quantizes_to_zero_point [10, 39] 2 1 (List.replicate 784 7)
      (List.replicate 784 0) (-128) (1 / 255) (by decide) hb hl ht hblank (by norm_num)
      (by decide)⟩

/-- C16: on a frame of `width * height` bytes with `width ≥ X_RIGHT` (the row
stride is `fb->width`) and `height ≥ Y_BOTTOM`, the crop loop returns and fills
the `CROP_W * CROP_H = (X_RIGHT - X_LEFT) * (Y_BOTTOM - Y_TOP)` bytes of
`cropped_gray` with
`cropped_gray[y * CROP_W + x] = frame[(Y_TOP + y) * width + (X_LEFT + x)]`, every
read index being inside the frame buffer. The frame is an argument that the
crop loop only reads. -/
theorem crop_copies_rectangle (fb : Frame) (cropped : List Nat)
    (hbuf : fb.buf.length = fb.width * fb.height) (hw : X_RIGHT ≤ fb.width)
    (hh : Y_BOTTOM ≤ fb.height) (hlen : cropped.length = CROP_W * CROP_H) :
    CROP_W = X_RIGHT - X_LEFT ∧ CROP_H = Y_BOTTOM - Y_TOP ∧
    ∃ cg, cropBoard fb cropped = some cg ∧
      cg.length = (X_RIGHT - X_LEFT) * (Y_BOTTOM - Y_TOP) ∧
      ∀ x y, x < CROP_W → y < CROP_H →
        (Y_TOP + y) * fb.width + (X_LEFT + x) < fb.buf.length ∧
        ∃ v, cg[y * CROP_W + x]? = some v ∧
          fb.buf[(Y_TOP + y) * fb.width + (X_LEFT + x)]? = some v := by
  obtain ⟨cg, hrun, hl, hcopy⟩ := cropBoard_spec fb cropped ⟨hbuf, hw, hh⟩ hlen
  refine ⟨rfl, rfl, cg, hrun, hl, fun x y hx hy => ?_⟩
  have hx' : X_LEFT + x < fb.width := by
    have : X_LEFT + x < X_RIGHT := by
      have h1 : CROP_W = 164 := rfl
      have h2 : X_LEFT = 68 := rfl
      have h3 : X_RIGHT = 232 := rfl
      omega
    omega
  have hy' : Y_TOP + y < fb.height := by
    have : Y_TOP + y < Y_BOTTOM := by
      have h1 : CROP_H = 164 := rfl
      have h2 : Y_TOP = 28 := rfl
      have h3 : Y_BOTTOM = 192 := rfl
      omega
    omega
  have hsrc : (Y_TOP + y) * fb.width + (X_LEFT + x) < fb.buf.length := by
    rw [hbuf]; exact grid_index_lt fb.width fb.height _ _ hy' hx'
  exact ⟨hsrc, _, by rw [hcopy y x hy hx, List.getElem?_eq_getElem hsrc],
    List.getElem?_eq_getElem hsrc⟩

/-- Witness of C16 on a black QVGA frame. -/
theorem crop_copies_rectangle_witness :
    (blackFrame.buf.length = blackFrame.width * blackFrame.height ∧
      X_RIGHT ≤ blackFrame.width ∧ Y_BOTTOM ≤ blackFrame.height ∧
      (List.replicate (CROP_W * CROP_H) 0).length = CROP_W * CROP_H) ∧
    (CROP_W = X_RIGHT - X_LEFT ∧ CROP_H = Y_BOTTOM - Y_TOP ∧
    ∃ cg, cropBoard blackFrame (List.replicate (CROP_W * CROP_H) 0) = some cg ∧
      cg.length = (X_RIGHT - X_LEFT) * (Y_BOTTOM - Y_TOP) ∧
      ∀ x y, x < CROP_W → y < CROP_H →
        (Y_TOP + y) * blackFrame.width + (X_LEFT + x) < blackFrame.buf.length ∧
        ∃ v, cg[y * CROP_W + x]? = some v ∧
          blackFrame.buf[(Y_TOP + y) * blackFrame.width + (X_LEFT + x)]? = some v) :=
  ⟨⟨blackFrame_ok.1, blackFrame_ok.2.1, blackFrame_ok.2.2, List.length_replicate _ _⟩,
    crop_copies_rectangle blackFrame (List.replicate (CROP_W * CROP_H) 0) blackFrame_ok.1
      blackFrame_ok.2.1 blackFrame_ok.2.2 (List.length_replicate _ _)⟩

/-- C17: in the stretch branch (least pixel `mn`, greatest pixel `mx`,
`mx - mn ≥ 30`) the clamp is never active: for every pixel `v` of the cell the
quotient `(v - mn) * 255 / (mx - mn)` lies in `[0, 255]` and is the value the
code accumulates; it is 0 at `v = mn` and 255 at `v = mx`; and for every output
pixel the quotient `sum / count` of the accumulation loops lies in `[0, 255]`,
so the conversion to `uint8_t` (`% 256`) leaves it unchanged. -/
theorem stretch_clamp_inactive (cell_in : List Nat) (cell_w cell_h mn mx : Nat)
    (hlen : cell_w * cell_h ≤ cell_in.length)
    (hmin : IsMinOf (cellPixels cell_in cell_w cell_h) mn)
    (hmax : IsMaxOf (cellPixels cell_in cell_w cell_h) mx) (hge : mn + 30 ≤ mx) :
    (∀ v ∈ cellPixels cell_in cell_w cell_h,
      0 ≤ (((v : Int) - (mn : Int)) * 255).tdiv ((mx : Int) - (mn : Int)) ∧
      (((v : Int) - (mn : Int)) * 255).tdiv ((mx : Int) - (mn : Int)) ≤ 255 ∧
      stretchValue v mn ((mx : Int) - (mn : Int)) =
        (((v : Int) - (mn : Int)) * 255).tdiv ((mx : Int) - (mn : Int))) ∧
    stretchValue mn mn ((mx : Int) - (mn : Int)) = 0 ∧
    stretchValue mx mn ((mx : Int) - (mn : Int)) = 255 ∧
    ∀ ox oy, ox < 28 → oy < 28 →
      ∃ sum count, bucketAccumulate cell_in cell_w mn ((mx : Int) - (mn : Int))
          (bucketStart ox cell_w) (bucketEnd ox cell_w) (bucketStart oy cell_h)
          (bucketEnd oy cell_h) = some (sum, count) ∧
        0 ≤ sum.tdiv count ∧ sum.tdiv count ≤ 255 ∧
        (sum.tdiv count) % 256 = sum.tdiv count := by
  refine ⟨fun v hv => stretch_quotient_bounds v mn mx (hmin.2 v hv) (hmax.2 v hv) (by omega),
    stretchValue_min mn mx (by omega), stretchValue_max mn mx (by omega), ?_⟩
  intro ox oy hox hoy
  obtain ⟨hw, hh⟩ := cellPixels_pos_of_mem hmin.1
  obtain ⟨hx01, hx1⟩ := bucket_bounds ox cell_w hox hw
  obtain ⟨hy01, hy1⟩ := bucket_bounds oy cell_h hoy hh
  have hacc := bucketAccumulate_spec cell_in cell_w mn ((mx : Int) - (mn : Int))
    (bucketStart ox cell_w) (bucketEnd ox cell_w) (bucketStart oy cell_h) (bucketEnd oy cell_h)
    (le_of_lt hx01) (le_of_lt hy01) (by omega)
    (fun y x hy hx => lt_of_lt_of_le (bucket_index_lt cell_w cell_h _ _ x y hx hy hx1 hy1) hlen)
  refine ⟨_, _, hacc, ?_⟩
  have hsum : ∑ y ∈ Finset.Ico (bucketStart oy cell_h) (bucketEnd oy cell_h),
        ∑ x ∈ Finset.Ico (bucketStart ox cell_w) (bucketEnd ox cell_w),
          stretchValue (cell_in.getD (y * cell_w + x) 0) mn ((mx : Int) - (mn : Int)) =
      ∑ y ∈ Finset.Ico (bucketStart oy cell_h) (bucketEnd oy cell_h),
        ∑ x ∈ Finset.Ico (bucketStart ox cell_w) (bucketEnd ox cell_w),
          specStretch (cell_in.getD (y * cell_w + x) 0) mn mx := by
    refine Finset.sum_congr rfl (fun y hy => Finset.sum_congr rfl (fun x hx => ?_))
    rw [Finset.mem_Ico] at hy hx
    have hidx := bucket_index_lt cell_w cell_h _ _ x y hx.2 hy.2 hx1 hy1
    exact stretchValue_eq_specStretch _ mn mx
      (hmin.2 _ (cellPixels_getD_mem cell_in cell_w cell_h _ hlen hidx)) (by omega)
  obtain ⟨hS0, hS1⟩ := bucket_sum_bounds
    (fun y x => specStretch (cell_in.getD (y * cell_w + x) 0) mn mx)
    (bucketStart ox cell_w) (bucketEnd ox cell_w) (bucketStart oy cell_h) (bucketEnd oy cell_h)
    (fun y x => specStretch_bounds _ mn mx)
  have hcpos : (0 : Int) < (((bucketEnd oy cell_h - bucketStart oy cell_h) *
        (bucketEnd ox cell_w - bucketStart ox cell_w) : Nat) : Int) := by
    have h1 : 0 < bucketEnd oy cell_h - bucketStart oy cell_h := by omega
    have h2 : 0 < bucketEnd ox cell_w - bucketStart ox cell_w := by omega
    exact_mod_cast Nat.mul_pos h1 h2
  have hS1' : ∑ y ∈ Finset.Ico (bucketStart oy cell_h) (bucketEnd oy cell_h),
        ∑ x ∈ Finset.Ico (bucketStart ox cell_w) (bucketEnd ox cell_w),
          specStretch (cell_in.getD (y * cell_w + x) 0) mn mx ≤
      255 * (((bucketEnd oy cell_h - bucketStart oy cell_h) *
        (bucketEnd ox cell_w - bucketStart ox cell_w) : Nat) : Int) := by
    rw [Nat.mul_comm]; exact hS1
  rw [hsum]
  generalize (∑ y ∈ Finset.Ico (bucketStart oy cell_h) (bucketEnd oy cell_h),
        ∑ x ∈ Finset.Ico (bucketStart ox cell_w) (bucketEnd ox cell_w),
          specStretch (cell_in.getD (y * cell_w + x) 0) mn mx) = S at hS0 hS1' ⊢
  generalize (((bucketEnd oy cell_h - bucketStart oy cell_h) *
        (bucketEnd ox cell_w - bucketStart ox cell_w) : Nat) : Int) = c at hcpos hS1' ⊢
  rw [Int.tdiv_eq_ediv hS0 (le_of_lt hcpos)]
  have hq0 : 0 ≤ S / c := Int.ediv_nonneg hS0 (le_of_lt hcpos)
  have hq1 : S / c ≤ 255 := Int.ediv_le_of_le_mul hcpos hS1'
  exact ⟨hq0, hq1, Int.emod_eq_of_lt hq0 (by omega)⟩

/-- Witness of C17 on a 2x2 ramp cell with minimum 0 and maximum 90. -/
theorem stretch_clamp_inactive_witness :
    (2 * 2 ≤ [0, 30, 60, 90].length ∧ IsMinOf (cellPixels [0, 30, 60, 90] 2 2) 0 ∧
      IsMaxOf (cellPixels [0, 30, 60, 90] 2 2) 90 ∧ 0 + 30 ≤ 90) ∧
    ((∀ v ∈ cellPixels [0, 30, 60, 90] 2 2,
      0 ≤ (((v : Int) - ((0 : Nat) : Int)) * 255).tdiv (((90 : Nat) : Int) - ((0 : Nat) : Int)) ∧
      (((v : Int) - ((0 : Nat) : Int)) * 255).tdiv (((90 : Nat) : Int) - ((0 : Nat) : Int)) ≤ 255 ∧
      stretchValue v 0 (((90 : Nat) : Int) - ((0 : Nat) : Int)) =
        (((v : Int) - ((0 : Nat) : Int)) * 255).tdiv (((90 : Nat) : Int) - ((0 : Nat) : Int))) ∧
    stretchValue 0 0 (((90 : Nat) : Int) - ((0 : Nat) : Int)) = 0 ∧
    stretchValue 90 0 (((90 : Nat) : Int) - ((0 : Nat) : Int)) = 255 ∧
    ∀ ox oy, ox < 28 → oy < 28 →
      ∃ sum count, bucketAccumulate [0, 30, 60, 90] 2 0 (((90 : Nat) : Int) - ((0 : Nat) : Int))
          (bucketStart ox 2) (bucketEnd ox 2) (bucketStart oy 2)
          (bucketEnd oy 2) = some (sum, count) ∧
        0 ≤ sum.tdiv count ∧ sum.tdiv count ≤ 255 ∧
        (sum.tdiv count) % 256 = sum.tdiv count) := by
  have hmin : IsMinOf (cellPixels [0, 30, 60, 90] 2 2) 0 := by
    unfold IsMinOf cellPixels; decide
  have hmax : IsMaxOf (cellPixels [0, 30, 60, 90] 2 2) 90 := by
    unfold IsMaxOf cellPixels; decide
  exact ⟨⟨by decide, hmin, hmax, by decide⟩,
    stretch_clamp_inactive [0, 30, 60, 90] 2 2 0 90 (by decide) hmin hmax (by decide)⟩

/-- C18: for a cell with `1 ≤ cell_w, cell_h ≤ 56` (the 41x41 cell included)
whose contrast spread `mx - mn` is at least 30, the output of
`preprocess_cell_to_28x28` is not all zero: some output pixel is `> 0`. -/
theorem nonblank_cell_not_all_zero (cell_in : List Nat) (cell_w cell_h : Nat)
    (cell_out : List Nat) (mn mx : Nat) (hw1 : 1 ≤ cell_w) (hw : cell_w ≤ 56) (hh1 : 1 ≤ cell_h)
    (hh : cell_h ≤ 56) (hlen : cell_w * cell_h ≤ cell_in.length) (hb : IsBytes cell_in)
    (hout : 784 ≤ cell_out.length)
    (hmin : IsMinOf (cellPixels cell_in cell_w cell_h) mn)
    (hmax : IsMaxOf (cellPixels cell_in cell_w cell_h) mx) (hge : mn + 30 ≤ mx) :
    ∃ out, preprocess_cell_to_28x28 cell_in cell_w cell_h cell_out = some out ∧
      ∃ ox oy p, ox < 28 ∧ oy < 28 ∧ out[oy * 28 + ox]? = some p ∧ 0 < p := by
  obtain ⟨out, ho, _, hpix, _⟩ := stretchLoops_spec cell_in cell_w cell_h mn
    ((mx : Int) - (mn : Int)) cell_out hw1 hh1 hlen (by omega) hout
  have hrun : preprocess_cell_to_28x28 cell_in cell_w cell_h cell_out = some out := by
    rw [(preprocess_branch cell_in cell_w cell_h cell_out hlen hb).2 mn mx hmin hmax hge, ho]
  -- position of a greatest pixel
  obtain ⟨i, hi, hval⟩ := List.mem_take_iff_getElem.mp hmax.1
  have hi' : i < cell_w * cell_h := by
    have := lt_min_iff.mp hi
    exact this.1
  obtain ⟨ym, xm, hym, hxm, e⟩ := flat_index_split cell_w cell_h i hi'
  have hgetD : cell_in.getD (ym * cell_w + xm) 0 = mx := by
    rw [e, List.getD_eq_getElem?_getD, List.getElem?_eq_getElem (lt_of_lt_of_le hi' hlen)]
    simpa using hval
  obtain ⟨ox, hox, hxin⟩ := bucket_cover cell_w xm hxm
  obtain ⟨oy, hoy, hyin⟩ := bucket_cover cell_h ym hym
  refine ⟨out, hrun, ox, oy, _, hox, hoy, hpix oy ox hoy hox, ?_⟩
  have hspec := bucketMean_eq_specPixel cell_in cell_w cell_h mn mx oy ox hlen hmin hge hoy hox
  have hform : specPixel cell_in cell_w cell_h mn mx ox oy =
      (∑ y ∈ Finset.Ico (bucketStart oy cell_h) (bucketEnd oy cell_h),
        ∑ x ∈ Finset.Ico (bucketStart ox cell_w) (bucketEnd ox cell_w),
          specStretch (cell_in.getD (y * cell_w + x) 0) mn mx) /
      (((bucketEnd ox cell_w - bucketStart ox cell_w) *
        (bucketEnd oy cell_h - bucketStart oy cell_h) : Nat) : Int) := rfl
  have hS : (255 : Int) ≤ ∑ y ∈ Finset.Ico (bucketStart oy cell_h) (bucketEnd oy cell_h),
        ∑ x ∈ Finset.Ico (bucketStart ox cell_w) (bucketEnd ox cell_w),
          specStretch (cell_in.getD (y * cell_w + x) 0) mn mx := by
    have h1 : specStretch (cell_in.getD (ym * cell_w + xm) 0) mn mx ≤
        ∑ x ∈ Finset.Ico (bucketStart ox cell_w) (bucketEnd ox cell_w),
          specStretch (cell_in.getD (ym * cell_w + x) 0) mn mx :=
      Finset.single_le_sum
        (f := fun x => specStretch (cell_in.getD (ym * cell_w + x) 0) mn mx)
        (fun x _ => (specStretch_bounds _ mn mx).1) (Finset.mem_Ico.mpr hxin)
    have h2 : (∑ x ∈ Finset.Ico (bucketStart ox cell_w) (bucketEnd ox cell_w),
          specStretch (cell_in.getD (ym * cell_w + x) 0) mn mx) ≤
        ∑ y ∈ Finset.Ico (bucketStart oy cell_h) (bucketEnd oy cell_h),
          ∑ x ∈ Finset.Ico (bucketStart ox cell_w) (bucketEnd ox cell_w),
            specStretch (cell_in.getD (y * cell_w + x) 0) mn mx :=
      Finset.single_le_sum
        (f := fun y => ∑ x ∈ Finset.Ico (bucketStart ox cell_w) (bucketEnd ox cell_w),
            specStretch (cell_in.getD (y * cell_w + x) 0) mn mx)
        (fun y _ => Finset.sum_nonneg (fun x _ => (specStretch_bounds _ mn mx).1))
        (Finset.mem_Ico.mpr hyin)
    rw [hgetD, specStretch_max mn mx (by omega)] at h1
    exact le_trans h1 h2
  have hc : (((bucketEnd ox cell_w - bucketStart ox cell_w) *
        (bucketEnd oy cell_h - bucketStart oy cell_h) : Nat) : Int) ≤ 4 := by
    have h1 := bucket_width_le ox cell_w hw
    have h2 := bucket_width_le oy cell_h hh
    have := Nat.mul_le_mul h1 h2
    exact_mod_cast this
  have hcpos : (0 : Int) < (((bucketEnd ox cell_w - bucketStart ox cell_w) *
        (bucketEnd oy cell_h - bucketStart oy cell_h) : Nat) : Int) := by
    have h1 : 0 < bucketEnd oy cell_h - bucketStart oy cell_h := by omega
    have h2 : 0 < bucketEnd ox cell_w - bucketStart ox cell_w := by omega
    exact_mod_cast Nat.mul_pos h2 h1
  have hq : (1 : Int) ≤ specPixel cell_in cell_w cell_h mn mx ox oy := by
    rw [hform]
    exact (Int.le_ediv_iff_mul_le hcpos).mpr (by linarith)
  have : (0 : Int) < (bucketMean cell_in cell_w cell_h mn ((mx : Int) - (mn : Int)) oy ox : Nat) := by
    rw [hspec]; omega
  exact_mod_cast this

/-- Witness of C18 on a 2x2 ramp cell with minimum 0 and maximum 90. -/
theorem nonblank_cell_not_all_zero_witness :
    (1 ≤ 2 ∧ 2 ≤ 56 ∧ 1 ≤ 2 ∧ 2 ≤ 56 ∧ 2 * 2 ≤ [0, 30, 60, 90].length ∧
      IsBytes [0, 30, 60, 90] ∧ 784 ≤ (List.replicate 784 0).length ∧
      IsMinOf (cellPixels [0, 30, 60, 90] 2 2) 0 ∧
      IsMaxOf (cellPixels [0, 30, 60, 90] 2 2) 90 ∧ 0 + 30 ≤ 90) ∧
    ∃ out, preprocess_cell_to_28x28 [0, 30, 60, 90] 2 2 (List.replicate 784 0) = some out ∧
      ∃ ox oy p, ox < 28 ∧ oy < 28 ∧ out[oy * 28 + ox]? = some p ∧ 0 < p := by
  have hb : IsBytes [0, 30, 60, 90] := by unfold IsBytes; decide
  have hl : 784 ≤ (List.replicate 784 0).length := by rw [List.length_replicate]
  have hmin : IsMinOf (cellPixels [0, 30, 60, 90] 2 2) 0 := by
    unfold IsMinOf cellPixels; decide
  have hmax : IsMaxOf (cellPixels [0, 30, 60, 90] 2 2) 90 := by
    unfold IsMaxOf cellPixels; decide
  exact ⟨⟨by decide, by decide, by decide, by decide, by decide, hb, hl, hmin, hmax, by decide⟩,
    nonblank_cell_not_all_zero [0, 30, 60, 90] 2 2 (List.replicate 784 0) 0 90 (by decide)
      (by decide) (by decide) (by decide) (by decide) hb hl hmin hmax (by decide)⟩

/-- C19: for `cell_w ≥ 28` and `cell_h ≥ 28` the buckets tile the cell: in each
direction the first bucket starts at 0, the last ends at the dimension, the end
of bucket `o` is the start of bucket `o + 1`, and every source pixel `(x, y)`
lies in the bucket of exactly one output pixel `(ox, oy)`. -/
theorem buckets_tile_cell (cell_w cell_h : Nat) (hw : 28 ≤ cell_w) (hh : 28 ≤ cell_h) :
    (bucketStart 0 cell_w = 0 ∧ bucketEnd 27 cell_w = cell_w ∧
      ∀ ox, ox < 27 → bucketEnd ox cell_w = bucketStart (ox + 1) cell_w) ∧
    (bucketStart 0 cell_h = 0 ∧ bucketEnd 27 cell_h = cell_h ∧
      ∀ oy, oy < 27 → bucketEnd oy cell_h = bucketStart (oy + 1) cell_h) ∧
    ∀ x y, x < cell_w → y < cell_h →
      ∃! p : Nat × Nat, p.1 < 28 ∧ p.2 < 28 ∧
        (bucketStart p.1 cell_w ≤ x ∧ x < bucketEnd p.1 cell_w) ∧
        (bucketStart p.2 cell_h ≤ y ∧ y < bucketEnd p.2 cell_h) := by
  have hedge : ∀ d, 28 ≤ d → bucketStart 0 d = 0 ∧ bucketEnd 27 d = d ∧
      ∀ o, o < 27 → bucketEnd o d = bucketStart (o + 1) d := by
    intro d hd
    refine ⟨by simp [bucketStart], ?_, fun o _ => bucketEnd_eq_next o d hd⟩
    rw [bucketEnd_eq_next 27 d hd]
    simp only [bucketStart]
    omega
  refine ⟨hedge cell_w hw, hedge cell_h hh, fun x y hx hy => ?_⟩
  obtain ⟨ox, hox, hxin⟩ := bucket_cover cell_w x hx
  obtain ⟨oy, hoy, hyin⟩ := bucket_cover cell_h y hy
  refine ⟨(ox, oy), ⟨hox, hoy, hxin, hyin⟩, ?_⟩
  rintro ⟨a, b⟩ ⟨_, _, ha, hb⟩
  simp only at ha hb
  rw [bucket_unique cell_w x a ox hw ha hxin, bucket_unique cell_h y b oy hh hb hyin]

/-- Witness of C19 on the 41x41 cell. -/
theorem buckets_tile_cell_witness :
    (28 ≤ 41 ∧ 28 ≤ 41) ∧
    (bucketStart 0 41 = 0 ∧ bucketEnd 27 41 = 41 ∧
      ∀ ox, ox < 27 → bucketEnd ox 41 = bucketStart (ox + 1) 41) ∧
    (bucketStart 0 41 = 0 ∧ bucketEnd 27 41 = 41 ∧
      ∀ oy, oy < 27 → bucketEnd oy 41 = bucketStart (oy + 1) 41) ∧
    ∀ x y, x < 41 → y < 41 →
      ∃! p : Nat × Nat, p.1 < 28 ∧ p.2 < 28 ∧
        (bucketStart p.1 41 ≤ x ∧ x < bucketEnd p.1 41) ∧
        (bucketStart p.2 41 ≤ y ∧ y < bucketEnd p.2 41) :=
  ⟨⟨by decide, by decide⟩, buckets_tile_cell 41 41 (by decide) (by decide)⟩

/-! ## The row-inversion law, following the inference module -/

theorem loopFrom_congr {σ : Type} (b1 b2 : Nat → σ → Option σ) :
    ∀ (n i : Nat) (s : σ), (∀ j t, i ≤ j → j < i + n → b1 j t = b2 j t) →
      loopFrom b1 n i s = loopFrom b2 n i s := by
  intro n
  induction n with
  | zero => intro i s _; rfl
  | succ n ih =>
    intro i s h
    simp only [loopFrom, h i s (le_refl _) (by omega)]
    cases b2 i s with
    | none => rfl
    | some t => exact ih (i + 1) t (fun j u h1 h2 => h j u (by omega) (by omega))

theorem forLoop_congr {σ : Type} (b1 b2 : Nat → σ → Option σ) (lo hi : Nat) (s : σ)
    (h : ∀ j t, lo ≤ j → j < hi → b1 j t = b2 j t) :
    forLoop lo hi b1 s = forLoop lo hi b2 s :=
  loopFrom_congr b1 b2 (hi - lo) lo s (fun j t h1 h2 => h j t h1 (by omega))

theorem memset_exact (buf : List Nat) (v n : Nat) (h : buf.length = n) :
    memset buf v n = some (List.replicate n v) := by
  simp only [memset, h, le_refl, if_true]
  rw [List.drop_of_length_le (by omega), List.append_nil]

theorem bucketMean_congr (cell1 cell2 : List Nat) (cell_w cell_h minv : Nat) (range : Int)
    (oy ox : Nat) (hw : 1 ≤ cell_w) (hh : 1 ≤ cell_h) (hoy : oy < 28) (hox : ox < 28)
    (hagree : ∀ i, i < cell_w * cell_h → cell1[i]? = cell2[i]?) :
    bucketMean cell1 cell_w cell_h minv range oy ox =
      bucketMean cell2 cell_w cell_h minv range oy ox := by
  obtain ⟨_, hx1⟩ := bucket_bounds ox cell_w hox hw
  obtain ⟨_, hy1⟩ := bucket_bounds oy cell_h hoy hh
  have hsum : ∑ y ∈ Finset.Ico (bucketStart oy cell_h) (bucketEnd oy cell_h),
        ∑ x ∈ Finset.Ico (bucketStart ox cell_w) (bucketEnd ox cell_w),
          stretchValue (cell1.getD (y * cell_w + x) 0) minv range =
      ∑ y ∈ Finset.Ico (bucketStart oy cell_h) (bucketEnd oy cell_h),
        ∑ x ∈ Finset.Ico (bucketStart ox cell_w) (bucketEnd ox cell_w),
          stretchValue (cell2.getD (y * cell_w + x) 0) minv range := by
    refine Finset.sum_congr rfl (fun y hy => Finset.sum_congr rfl (fun x hx => ?_))
    rw [Finset.mem_Ico] at hy hx
    have hidx := bucket_index_lt cell_w cell_h _ _ x y hx.2 hy.2 hx1 hy1
    rw [List.getD_eq_getElem?_getD, List.getD_eq_getElem?_getD, hagree _ hidx]
  simp only [bucketMean, hsum]

/-- The result of `preprocess_cell_to_28x28` on a 28x28 output depends only on
the `cell_w * cell_h` bytes of the cell, not on the rest of the input buffer
nor on the previous content of the output. -/
theorem preprocess_congr (cell1 cell2 : List Nat) (cell_w cell_h : Nat) (out1 out2 : List Nat)
    (hl1 : cell_w * cell_h ≤ cell1.length) (hl2 : cell_w * cell_h ≤ cell2.length)
    (ho1 : out1.length = 784) (ho2 : out2.length = 784)
    (hagree : ∀ i, i < cell_w * cell_h → cell1[i]? = cell2[i]?) :
    preprocess_cell_to_28x28 cell1 cell_w cell_h out1 =
      preprocess_cell_to_28x28 cell2 cell_w cell_h out2 := by
  have hscan : forLoop 0 (cell_w * cell_h) (scanStep cell1) (255, 0) =
      forLoop 0 (cell_w * cell_h) (scanStep cell2) (255, 0) :=
    forLoop_congr _ _ _ _ _ (fun j t _ hj => by simp only [scanStep, hagree j hj])
  obtain ⟨⟨mn, mx⟩, hs1, hzero⟩ := scan_total cell1 (cell_w * cell_h) hl1
  have hs2 := hs1
  rw [hscan] at hs2
  by_cases hr : (mx : Int) - (mn : Int) < 30
  · simp only [preprocess_cell_to_28x28, hs1, hs2, hr, if_true]
    rw [memset_exact out1 0 (28 * 28) ho1, memset_exact out2 0 (28 * 28) ho2]
  · have hpos : 0 < cell_w * cell_h := by
      rcases Nat.eq_zero_or_pos (cell_w * cell_h) with h0 | h0
      · have := hzero h0
        simp only [Prod.mk.injEq] at this
        obtain ⟨h1, h2⟩ := this
        subst h1 h2
        exact absurd (by norm_num) hr
      · exact h0
    have hw : 1 ≤ cell_w := Nat.pos_of_mul_pos_right hpos
    have hh : 1 ≤ cell_h := Nat.pos_of_mul_pos_left hpos
    obtain ⟨o1, e1, l1, p1, _⟩ := stretchLoops_spec cell1 cell_w cell_h mn
      ((mx : Int) - (mn : Int)) out1 hw hh hl1 (by omega) (by omega)
    obtain ⟨o2, e2, l2, p2, _⟩ := stretchLoops_spec cell2 cell_w cell_h mn
      ((mx : Int) - (mn : Int)) out2 hw hh hl2 (by omega) (by omega)
    simp only [preprocess_cell_to_28x28, hs1, hs2, hr, if_false, e1, e2]
    congr 1
    apply List.ext_getElem?
    intro n
    by_cases hn : n < 28 * 28
    · obtain ⟨oy, ox, hoy, hox, e⟩ := flat_index_split 28 28 n hn
      rw [← e, p1 oy ox hoy hox, p2 oy ox hoy hox,
        bucketMean_congr cell1 cell2 cell_w cell_h mn _ oy ox hw hh hoy hox hagree]
    · rw [List.getElem?_eq_none (by omega), List.getElem?_eq_none (by omega)]


/-- One iteration of the cell loops: the tensor handed to the inference module
is the tensor of the cell, `predict` runs on it, and on success the class read
from the module is stored at `preds[GRID_SIZE - 1 - r][c]`. -/
theorem cellBody_spec_tensor {σ : Type} (nn : NeuralNetwork σ) (r c : Nat) (st : State σ)
    (hr : r < 4) (hc : c < 4) (hws : WellSized nn st) :
    ∃ q, cellTensor st.cropped_gray r c (nn.getInput st.nn) = some q ∧
      ((∃ st', cellBody nn r c st = some (Flow.next st') ∧ WellSized nn st' ∧
          st'.ran_once = st.ran_once ∧ st'.cropped_gray = st.cropped_gray ∧
          nn.predict (nn.setInputData st.nn q) = (true, st'.nn) ∧
          st'.preds = setGrid st.preds (GRID_SIZE - 1 - r) c (nn.getPredictedClass st'.nn) ∧
          st'.log = st.log ++ [Event.prepare r c, Event.infer r c true,
            Event.store r c (GRID_SIZE - 1 - r) c (nn.getPredictedClass st'.nn)]) ∨
       (∃ st', cellBody nn r c st = some (Flow.ret st') ∧
          nn.predict (nn.setInputData st.nn q) = (false, st'.nn) ∧
          st'.log = st.log ++ [Event.prepare r c, Event.infer r c false, Event.fbReturn])) := by
  obtain ⟨hcg, hraw, h28, hnn⟩ := hws
  have hcell : (CROP_W / 4) * (CROP_H / 4) = 1681 := rfl
  obtain ⟨raw, h1, hrawl, hcopy, _⟩ := extract_cell_spec st.cropped_gray CROP_W CROP_H r c
    st.cell_raw (le_of_eq hcg.symm) hr hc (by rw [hcell, hraw]; decide)
  obtain ⟨raw0, h10, hrawl0, hcopy0, _⟩ := extract_cell_spec st.cropped_gray CROP_W CROP_H r c
    (List.replicate (64 * 64) 0) (le_of_eq hcg.symm) hr hc
    (by rw [hcell, List.length_replicate]; decide)
  have hagree : ∀ i, i < (CROP_W / 4) * (CROP_H / 4) → raw0[i]? = raw[i]? := by
    intro i hi
    obtain ⟨y, x, hy, hx, e⟩ := flat_index_split _ _ i hi
    rw [← e, hcopy0 y x hy hx, hcopy y x hy hx]
  obtain ⟨pre, h2, hprel⟩ := preprocess_total raw (CROP_W / 4) (CROP_H / 4) st.cell28
    (by rw [hcell, hrawl, hraw]; decide) (by rw [h28])
  have h20 : preprocess_cell_to_28x28 raw0 (CROP_W / 4) (CROP_H / 4)
      (List.replicate (28 * 28) 0) = some pre := by
    rw [preprocess_congr raw0 raw (CROP_W / 4) (CROP_H / 4) (List.replicate (28 * 28) 0)
      st.cell28 (by rw [hcell, hrawl0, List.length_replicate]; decide)
      (by rw [hcell, hrawl, hraw]; decide) (List.length_replicate _ _) h28 hagree, h2]
  obtain ⟨c28, h3, hc28l, _⟩ := flip_vertical_spec pre 28 28 (by rw [hprel, h28])
  obtain ⟨q, h4, _⟩ := normalize_spec c28 (nn.getInput st.nn).data (28 * 28)
    (nn.getInput st.nn).zero_point (nn.getInput st.nn).scale (by rw [hc28l, hprel, h28])
    (hnn st.nn)
  have hten : cellTensor st.cropped_gray r c (nn.getInput st.nn) = some q := by
    simp only [cellTensor, h10, h20, h3, h4]
  refine ⟨q, hten, ?_⟩
  rcases hp : nn.predict (nn.setInputData st.nn q) with ⟨ok, s2⟩
  cases ok
  · have hrun : cellBody nn r c st = some (Flow.ret
        { st with
          cell_raw := raw, cell28 := c28, nn := s2,
          log := st.log ++ [Event.prepare r c, Event.infer r c false, Event.fbReturn] }) := by
      simp only [cellBody, h1, h2, h3, h4, hp]
    exact Or.inr ⟨_, hrun, rfl, rfl⟩
  · have hwg : writeGrid st.preds (GRID_SIZE - 1 - r) c (nn.getPredictedClass s2) =
        some (setGrid st.preds (GRID_SIZE - 1 - r) c (nn.getPredictedClass s2)) := by
      have : GRID_SIZE - 1 - r < 4 ∧ c < 4 := ⟨by simp only [GRID_SIZE]; omega, hc⟩
      simp only [writeGrid, this, and_self, if_true]
    have hrun : cellBody nn r c st = some (Flow.next
        { st with
          preds := setGrid st.preds (GRID_SIZE - 1 - r) c (nn.getPredictedClass s2),
          cell_raw := raw, cell28 := c28, nn := s2,
          log := st.log ++ [Event.prepare r c, Event.infer r c true,
            Event.store r c (GRID_SIZE - 1 - r) c (nn.getPredictedClass s2)] }) := by
      simp only [cellBody, h1, h2, h3, h4, hp, hwg]
    refine Or.inl ⟨_, hrun, ?_, rfl, rfl, rfl, rfl, rfl⟩
    exact ⟨hcg, by rw [hrawl, hraw], by rw [hc28l, hprel, h28], hnn⟩

theorem traced_step {σ : Type} (nn : NeuralNetwork σ) (board : List Nat) (s0 : σ)
    (log0 : List Event) (g0 : Nat → Nat → Int) (r c : Nat) (t : State σ) (hr : r < 4)
    (hc : c < 4) (hP : TracedDone nn board s0 log0 g0 (4 * r + c) t) :
    (∃ t', cellBody nn r c t = some (Flow.next t') ∧
      TracedDone nn board s0 log0 g0 (4 * r + (c + 1)) t') ∨
    (∃ t', cellBody nn r c t = some (Flow.ret t') ∧ TracedFailed nn board s0 log0 t') := by
  obtain ⟨hws, hran, hboard, s, q, hs0, hchain, hnn, hlog, hpreds⟩ := hP
  have e1 : (4 * r + c) / 4 = r := by omega
  have e2 : (4 * r + c) % 4 = c := by omega
  obtain ⟨q0, hten, hcase⟩ := cellBody_spec_tensor nn r c t hr hc hws
  rcases hcase with ⟨t', hrun, hws', hran', hcg', hpred, hpreds', hlog'⟩ |
    ⟨t', hrun, hpred, hlog'⟩
  · refine Or.inl ⟨t', hrun, hws', by rw [hran', hran], by rw [hcg', hboard],
      Function.update s (4 * r + c + 1) t'.nn, Function.update q (4 * r + c) q0, ?_, ?_, ?_,
      ?_, ?_⟩
    · rw [Function.update_noteq (by omega)]; exact hs0
    · intro k hk
      rcases Nat.lt_succ_iff_lt_or_eq.mp (show k < (4 * r + c) + 1 by omega) with h | h
      · rw [Function.update_noteq (by omega), Function.update_noteq (by omega),
          Function.update_noteq (by omega)]
        exact hchain k h
      · subst h
        rw [Function.update_noteq (by omega), Function.update_same, Function.update_same,
          e1, e2, ← hnn, ← hboard]
        exact ⟨hten, hpred⟩
    · have : 4 * r + (c + 1) = 4 * r + c + 1 := by omega
      rw [this, Function.update_same]
    · have hc1 : cellEvents
          (fun k => nn.getPredictedClass (Function.update s (4 * r + c + 1) t'.nn (k + 1)))
          (4 * r + c) = cellEvents (fun k => nn.getPredictedClass (s (k + 1))) (4 * r + c) :=
        cellEvents_congr _ _ _ (fun k hk => by
          show nn.getPredictedClass (Function.update s (4 * r + c + 1) t'.nn (k + 1)) = _
          rw [Function.update_noteq (by omega)])
      have : 4 * r + (c + 1) = (4 * r + c) + 1 := by omega
      rw [this, cellEvents, hc1, e1, e2, Function.update_same, hlog', hlog, List.append_assoc]
    · have hc1 : storedGrid g0
          (fun k => nn.getPredictedClass (Function.update s (4 * r + c + 1) t'.nn (k + 1)))
          (4 * r + c) = storedGrid g0 (fun k => nn.getPredictedClass (s (k + 1))) (4 * r + c) :=
        storedGrid_congr _ _ _ _ (fun k hk => by
          show nn.getPredictedClass (Function.update s (4 * r + c + 1) t'.nn (k + 1)) = _
          rw [Function.update_noteq (by omega)])
      have : 4 * r + (c + 1) = (4 * r + c) + 1 := by omega
      rw [this, storedGrid, hc1, e1, e2, Function.update_same, hpreds', hpreds]
  · refine Or.inr ⟨t', hrun, 4 * r + c, s, Function.update q (4 * r + c) q0, t'.nn, by omega,
      hs0, ?_, ?_, ?_, ?_⟩
    · intro k hk
      rw [Function.update_noteq (by omega)]
      exact hchain k hk
    · rw [Function.update_same, e1, e2, ← hnn, ← hboard]
      exact hten
    · rw [Function.update_same, ← hnn]
      exact hpred
    · rw [hlog', hlog, e1, e2]

/-- The activation of `loop` on an acquired frame, following the inference
module: either the 16 cells succeed, cell `k` being inferred from the tensor
of raw cell `(k / 4, k % 4)` of the cropped board, or the inference of some
cell reports a failure after the cells before it succeeded. -/
theorem loop_run_traced {σ : Type} (nn : NeuralNetwork σ) (fb : Frame) (st : State σ)
    (hran : st.ran_once = false) (hfb : FrameOk fb) (hws : WellSized nn st) :
    ∃ st' board, loop nn (some fb) st = some st' ∧ cropBoard fb st.cropped_gray = some board ∧
      ((∃ (s : Nat → σ) (q : Nat → List Int), s 0 = st.nn ∧
          (∀ k, k < 16 →
            cellTensor board (k / 4) (k % 4) (nn.getInput (s k)) = some (q k) ∧
            nn.predict (nn.setInputData (s k) (q k)) = (true, s (k + 1))) ∧
          st'.log = st.log ++ [Event.fbGet true, Event.frameRead] ++
            cellEvents (fun k => nn.getPredictedClass (s (k + 1))) 16 ++
            [Event.frameRead, Event.fbReturn] ∧
          st'.preds = storedGrid st.preds (fun k => nn.getPredictedClass (s (k + 1))) 16) ∨
       TracedFailed nn board st.nn (st.log ++ [Event.fbGet true, Event.frameRead]) st') := by
  obtain ⟨cg, hcrop, hcgl, _⟩ := cropBoard_spec fb st.cropped_gray hfb hws.1
  have hinner : ∀ r, r < 4 → ∀ t : State σ,
      TracedDone nn cg st.nn (st.log ++ [Event.fbGet true, Event.frameRead]) st.preds
        (4 * r) t →
      (∃ t', forLoopR 0 GRID_SIZE (fun c u => cellBody nn r c u) t = some (Flow.next t') ∧
        TracedDone nn cg st.nn (st.log ++ [Event.fbGet true, Event.frameRead]) st.preds
          (4 * (r + 1)) t') ∨
      (∃ t', forLoopR 0 GRID_SIZE (fun c u => cellBody nn r c u) t = some (Flow.ret t') ∧
        TracedFailed nn cg st.nn (st.log ++ [Event.fbGet true, Event.frameRead]) t') := by
    intro r hr t hP
    exact forLoopR_invariant (fun c u => cellBody nn r c u)
      (fun c u => TracedDone nn cg st.nn (st.log ++ [Event.fbGet true, Event.frameRead])
        st.preds (4 * r + c) u)
      (fun u => TracedFailed nn cg st.nn (st.log ++ [Event.fbGet true, Event.frameRead]) u)
      0 GRID_SIZE t (Nat.zero_le _) hP
      (fun c u _ hc hu => traced_step nn cg st.nn _ st.preds r c u hr hc hu)
  have houter := forLoopR_invariant
    (fun r s => forLoopR 0 GRID_SIZE (fun c t => cellBody nn r c t) s)
    (fun r u => TracedDone nn cg st.nn (st.log ++ [Event.fbGet true, Event.frameRead])
      st.preds (4 * r) u)
    (fun u => TracedFailed nn cg st.nn (st.log ++ [Event.fbGet true, Event.frameRead]) u)
    0 GRID_SIZE
    { st with
      ran_once := true, cropped_gray := cg,
      log := st.log ++ [Event.fbGet true, Event.frameRead] }
    (Nat.zero_le _)
    ⟨⟨hcgl, hws.2.1, hws.2.2.1, hws.2.2.2⟩, rfl, rfl, fun _ => st.nn, fun _ => [], rfl,
      fun _ h => absurd h (Nat.not_lt_zero _), rfl, by simp [cellEvents], rfl⟩
    (fun r u _ hr hu => hinner r hr u hu)
  rcases houter with ⟨t, ht, _, _, _, s, q, hs0, hchain, _, hlog, hpreds⟩ | ⟨t, ht, hQ⟩
  · refine ⟨{ t with log := t.log ++ [Event.frameRead, Event.fbReturn] }, cg, ?_, hcrop,
      Or.inl ⟨s, q, hs0, hchain, ?_, hpreds⟩⟩
    · simp only [loop, hran, hcrop, ht]
      rfl
    · show t.log ++ [Event.frameRead, Event.fbReturn] = _
      rw [hlog]
      rfl
  · refine ⟨t, cg, ?_, hcrop, Or.inr hQ⟩
    simp only [loop, hran, hcrop, ht]
    rfl

/-- The states of the inference module are determined by the board and the
first state: two runs of the module over the cells agree. -/
theorem inference_chain_unique {σ : Type} (nn : NeuralNetwork σ) (board : List Nat)
    (s s' : Nat → σ) (q q' : Nat → List Int) (n : Nat) (h0 : s 0 = s' 0)
    (h : ∀ k, k < n →
      cellTensor board (k / 4) (k % 4) (nn.getInput (s k)) = some (q k) ∧
      nn.predict (nn.setInputData (s k) (q k)) = (true, s (k + 1)))
    (h' : ∀ k, k < n →
      cellTensor board (k / 4) (k % 4) (nn.getInput (s' k)) = some (q' k) ∧
      nn.predict (nn.setInputData (s' k) (q' k)) = (true, s' (k + 1))) :
    ∀ k, k ≤ n → s k = s' k := by
  intro k
  induction k with
  | zero => exact fun _ => h0
  | succ k ih =>
    intro hk
    have e := ih (by omega)
    obtain ⟨a1, a2⟩ := h k (by omega)
    obtain ⟨b1, b2⟩ := h' k (by omega)
    rw [e, b1] at a1
    have eq : q' k = q k := by simpa using a1
    rw [e, ← eq, b2] at a2
    simpa using a2.symm

/-- The tensor of a cell exists for every board of the crop size. -/
theorem cellTensor_total (board : List Nat) (r c : Nat) (input : InputTensor)
    (hb : board.length = CROP_W * CROP_H) (hr : r < 4) (hc : c < 4)
    (hin : 28 * 28 ≤ input.data.length) : ∃ q, cellTensor board r c input = some q := by
  have hcell : (CROP_W / 4) * (CROP_H / 4) = 1681 := rfl
  obtain ⟨raw0, h10, hrawl0, _, _⟩ := extract_cell_spec board CROP_W CROP_H r c
    (List.replicate (64 * 64) 0) (le_of_eq hb.symm) hr hc
    (by rw [hcell, List.length_replicate]; decide)
  obtain ⟨pre, h2, hprel⟩ := preprocess_total raw0 (CROP_W / 4) (CROP_H / 4)
    (List.replicate (28 * 28) 0)
    (by rw [hcell, hrawl0, List.length_replicate]; decide) (by rw [List.length_replicate])
  obtain ⟨c28, h3, hc28l, _⟩ := flip_vertical_spec pre 28 28
    (by rw [hprel, List.length_replicate])
  obtain ⟨q, h4, _⟩ := normalize_spec c28 input.data (28 * 28) input.zero_point input.scale
    (by rw [hc28l, hprel, List.length_replicate]) hin
  exact ⟨q, by simp only [cellTensor, h10, h2, h3, h4]⟩

theorem bootWith_counting_wellSized (s : Nat) : WellSized countingNetwork (bootWith s) :=
  ⟨List.length_replicate _ _, List.length_replicate _ _, List.length_replicate _ _,
    fun _ => le_of_eq (List.length_replicate _ _).symm⟩

/-- C10 (row-inversion law): an activation that acquires a frame containing
the crop rectangle returns, with `board` the cropped board. Whenever inference
succeeds for all 16 cells, that is, the inference module started in its state
`s 0` before the activation goes through states `s 1, ..., s 16` where
`predict`, run on the tensor `q k` that `extract_cell`,
`preprocess_cell_to_28x28`, `flip_vertical` and `normalize_uint8_to_int8`
produce for raw cell `(k / 4, k % 4)` of `board`, succeeds and leaves state
`s (k + 1)`: then for every raw cell `(r, c)` with `r, c < 4` the class
`getPredictedClass` returns after the inference of that cell is stored to, and
at the end held by, `preds[GRID_SIZE - 1 - r][c]`; every store of the
activation is one of these, so the label of raw cell `(0, 0)` is at
`preds[3][0]` while `preds[0][0]` holds the label of raw cell `(3, 0)`; and
each of the 16 entries of `preds` is stored exactly once. -/
theorem loop_row_inversion {σ : Type} (nn : NeuralNetwork σ) (fb : Frame) (st : State σ)
    (hran : st.ran_once = false) (hfb : FrameOk fb) (hws : WellSized nn st) :
    ∃ st' evs board, loop nn (some fb) st = some st' ∧ st'.log = st.log ++ evs ∧
      cropBoard fb st.cropped_gray = some board ∧
      ∀ (s : Nat → σ) (q : Nat → List Int), s 0 = st.nn →
        (∀ k, k < 16 →
          cellTensor board (k / 4) (k % 4) (nn.getInput (s k)) = some (q k) ∧
          nn.predict (nn.setInputData (s k) (q k)) = (true, s (k + 1))) →
        (∀ r c, r < GRID_SIZE → c < GRID_SIZE →
          Event.store r c (GRID_SIZE - 1 - r) c (nn.getPredictedClass (s (4 * r + c + 1))) ∈ evs ∧
          st'.preds (GRID_SIZE - 1 - r) c = nn.getPredictedClass (s (4 * r + c + 1))) ∧
        (∀ r c row col p, Event.store r c row col p ∈ evs →
          r < GRID_SIZE ∧ c < GRID_SIZE ∧ row = GRID_SIZE - 1 - r ∧ col = c ∧
          p = nn.getPredictedClass (s (4 * r + c + 1))) ∧
        st'.preds 3 0 = nn.getPredictedClass (s 1) ∧
        st'.preds 0 0 = nn.getPredictedClass (s 13) ∧
        (∀ i j, i < GRID_SIZE → j < GRID_SIZE →
          (evs.filter (Event.isStoreAt i j)).length = 1) := by
  obtain ⟨st', board, hrun, hcrop, hcase⟩ := loop_run_traced nn fb st hran hfb hws
  rcases hcase with ⟨s', q', hs0', hchain', hlog, hpreds⟩ |
    ⟨n, s', q', sf, hn, hs0', hchain', hten', hfail, hlog⟩
  · refine ⟨st', [Event.fbGet true, Event.frameRead] ++
      cellEvents (fun k => nn.getPredictedClass (s' (k + 1))) 16 ++
      [Event.frameRead, Event.fbReturn], board, hrun, by rw [hlog]; simp, hcrop, ?_⟩
    intro s q hs0 hchain
    have hss : ∀ k, k ≤ 16 → s' k = s k :=
      inference_chain_unique nn board s' s q' q 16 (by rw [hs0', hs0]) hchain' hchain
    have hmem : ∀ r c row col p,
        Event.store r c row col p ∈ [Event.fbGet true, Event.frameRead] ++
          cellEvents (fun k => nn.getPredictedClass (s' (k + 1))) 16 ++
          [Event.frameRead, Event.fbReturn] ↔
        Event.store r c row col p ∈
          cellEvents (fun k => nn.getPredictedClass (s' (k + 1))) 16 := by
      intro r c row col p
      simp only [List.mem_append, List.mem_cons, List.mem_singleton, reduceCtorEq,
        List.not_mem_nil, or_false, false_or]
    have hgrid : ∀ r c, r < 4 → c < 4 →
        st'.preds (GRID_SIZE - 1 - r) c = nn.getPredictedClass (s (4 * r + c + 1)) := by
      intro r c hr hc
      rw [hpreds, storedGrid_full st.preds _ r c hr hc]
      show nn.getPredictedClass (s' (4 * r + c + 1)) = _
      rw [hss _ (by omega)]
    refine ⟨?_, ?_, hgrid 0 0 (by omega) (by omega), hgrid 3 0 (by omega) (by omega), ?_⟩
    · intro r c hr hc
      have hr4 : r < 4 := hr
      have hc4 : c < 4 := hc
      refine ⟨?_, hgrid r c hr4 hc4⟩
      rw [hmem, store_mem_cellEvents]
      refine ⟨4 * r + c, by omega, by omega, by omega,
        by rw [show (4 * r + c) / 4 = r by omega], by omega, ?_⟩
      show _ = nn.getPredictedClass (s' (4 * r + c + 1))
      rw [hss _ (by omega)]
    · intro r c row col p hp
      rw [hmem, store_mem_cellEvents] at hp
      obtain ⟨k, hk, h1, h2, h3, h4, h5⟩ := hp
      subst h1 h2 h3 h4 h5
      refine ⟨?_, ?_, rfl, rfl, ?_⟩
      · simp only [GRID_SIZE]; omega
      · simp only [GRID_SIZE]; omega
      · show nn.getPredictedClass (s' (k + 1)) =
          nn.getPredictedClass (s (4 * (k / 4) + k % 4 + 1))
        rw [show 4 * (k / 4) + k % 4 = k by omega, hss _ (by omega)]
    · intro i j hi hj
      have hi4 : i < 4 := hi
      have hj4 : j < 4 := hj
      simp only [List.filter_append, List.length_append, storeCount_cellEvents]
      interval_cases i <;> interval_cases j <;> decide
  · refine ⟨st', [Event.fbGet true, Event.frameRead] ++
      cellEvents (fun k => nn.getPredictedClass (s' (k + 1))) n ++
      [Event.prepare (n / 4) (n % 4), Event.infer (n / 4) (n % 4) false, Event.fbReturn],
      board, hrun, by rw [hlog]; simp, hcrop, ?_⟩
    intro s q hs0 hchain
    exfalso
    have hss : ∀ k, k ≤ n → s' k = s k :=
      inference_chain_unique nn board s' s q' q n (by rw [hs0', hs0]) hchain'
        (fun k hk => hchain k (by omega))
    obtain ⟨a1, a2⟩ := hchain n hn
    rw [hss n le_rfl, a1] at hten'
    have eq : q n = q' n := by simpa using hten'
    rw [hss n le_rfl, ← eq, a2] at hfail
    simp at hfail

/-- Witness of C10: the first activation on a black QVGA frame with an
inference module that counts its inferences and returns the count as the
class, so that the 16 cells get the labels `1, ..., 16` in raster order: the
label `1` of raw cell `(0, 0)` is at `preds[3][0]`, the label `13` of raw cell
`(3, 0)` is at `preds[0][0]`, and raw cell `(r, c)` has its label
`4 * r + c + 1` at `preds[GRID_SIZE - 1 - r][c]`. -/
theorem loop_row_inversion_witness :
    ((bootWith 0).ran_once = false ∧ FrameOk blackFrame ∧
      WellSized countingNetwork (bootWith 0)) ∧
    ∃ st', loop countingNetwork (some blackFrame) (bootWith 0) = some st' ∧
      st'.preds 3 0 = 1 ∧ st'.preds 0 0 = 13 ∧
      (∀ r c, r < GRID_SIZE → c < GRID_SIZE →
        st'.preds (GRID_SIZE - 1 - r) c = ((4 * r + c + 1 : Nat) : Int)) ∧
      (∀ i j, i < GRID_SIZE → j < GRID_SIZE →
        ((st'.log.drop (bootWith 0).log.length).filter (Event.isStoreAt i j)).length = 1) := by
  refine ⟨⟨rfl, blackFrame_ok, bootWith_counting_wellSized 0⟩, ?_⟩
  obtain ⟨st', evs, board, hrun, hlog, hcrop, himp⟩ :=
    loop_row_inversion countingNetwork blackFrame (bootWith 0) rfl blackFrame_ok
      (bootWith_counting_wellSized 0)
  obtain ⟨cg, hcrop', hcgl, _⟩ := cropBoard_spec blackFrame (bootWith 0).cropped_gray
    blackFrame_ok (bootWith_counting_wellSized 0).1
  rw [hcrop] at hcrop'
  simp only [Option.some.injEq] at hcrop'
  subst hcrop'
  have hq : ∀ k, k < 16 →
      cellTensor board (k / 4) (k % 4) (countingNetwork.getInput k) =
        some ((cellTensor board (k / 4) (k % 4) (countingNetwork.getInput k)).getD []) := by
    intro k hk
    obtain ⟨q0, h⟩ := cellTensor_total board (k / 4) (k % 4) (countingNetwork.getInput k) hcgl
      (by omega) (by omega) (le_of_eq (List.length_replicate _ _).symm)
    rw [h]
    rfl
  obtain ⟨hplace, _, h30, h00, honce⟩ := himp (fun k => k)
    (fun k => (cellTensor board (k / 4) (k % 4) (countingNetwork.getInput k)).getD []) rfl
    (fun k hk => ⟨hq k hk, rfl⟩)
  refine ⟨st', hrun, h30, h00, fun r c hr hc => (hplace r c hr hc).2, fun i j hi hj => ?_⟩
  rw [hlog, List.drop_left]
  exact honce i j hi hj

end CameraSetup
